import Mathlib

/-!
# Embedded-Software-Engineering: a shallow embedding of the firmware core

The C sources keep their state in file-scope variables and in memory-mapped
peripheral registers.  Here every such variable is a field of one record,
`System`, and every C function is a Lean function on that record.  Machine
integers are natural numbers reduced modulo `2^32` (or `2^8`) wherever the C
type can wrap.  A call either returns, or stops at a failed `EFM_ASSERT`, or
stays in a busy-wait loop on a register that only the hardware can change, or
stores past the end of an array, after which C says nothing about the program.
-/

namespace Firmware

/-! ## Ways of not returning -/

/-- Reasons for which a call does not return to its caller: a failed `EFM_ASSERT`, a
busy-wait on a register that only the hardware changes, or a store past the end of the array
it indexes, which is undefined behaviour in C (the bytes land in whatever the linker placed
behind the array) and ends what the model can say about the run. -/
inductive Fault where
  | assertion
  | spin
  | out_of_bounds
deriving DecidableEq, Repr

/-! ## Constants of the headers -/

/-- Energy mode EM0 of `sleep_routines.h`. -/
def EM0 : Nat := 0
/-- Energy mode EM1 of `sleep_routines.h`. -/
def EM1 : Nat := 1
/-- Energy mode EM2 of `sleep_routines.h`. -/
def EM2 : Nat := 2
/-- Energy mode EM3 of `sleep_routines.h`. -/
def EM3 : Nat := 3
/-- Energy mode EM4 of `sleep_routines.h`. -/
def EM4 : Nat := 4
/-- Number of energy modes, `MAX_ENERGY_MODES` of `sleep_routines.h`. -/
def MAX_ENERGY_MODES : Nat := 5

/-- The modulus of `uint32_t` arithmetic. -/
def U32 : Nat := 2 ^ 32
/-- The modulus of `uint8_t` and `char` arithmetic. -/
def U8 : Nat := 2 ^ 8

/-- Bitwise complement of a `uint32_t` value (the C operator `~`). -/
def not32 (x : Nat) : Nat := (U32 - 1) ^^^ (x % U32)

/-- `I2C_EM_BLOCK` of `i2c.h`. -/
def I2C_EM_BLOCK : Nat := EM2
/-- `WRITE` of `i2c.h`. -/
def WRITE : Nat := 0
/-- `READ` of `i2c.h`. -/
def READ : Nat := 1
/-- `SHIFT` of `i2c.h`. -/
def SHIFT : Nat := 8
/-- `ONE_BYTE` of `i2c.h`. -/
def ONE_BYTE : Nat := 1
/-- `TWO_BYTES` of `i2c.h`. -/
def TWO_BYTES : Nat := 2

/-- `SI7021_DEVICE_ADDRESS` of `si7021.h`. -/
def SI7021_DEVICE_ADDRESS : Nat := 0x40
/-- `SI7021_READ_TEMP_CMD` of `si7021.h`. -/
def SI7021_READ_TEMP_CMD : Nat := 0xF3
/-- `SI7021_READ_RH_CMD` of `si7021.h`. -/
def SI7021_READ_RH_CMD : Nat := 0xF5

/-- Modelled from the spec: `CSIZE` is defined in `ble.h`, which is not among
the sources; the ring buffer capacity is a power of two, and the comments of
`circular_buff_test` give its value, 64. -/
def CSIZE : Nat := 64

/-- Modelled from the spec: `CIRC_TEST` is defined in `ble.h`, which is not
among the sources; it selects the test mode of `ble_circ_pop`. -/
def CIRC_TEST : Bool := true

/-- Modelled from the spec: `LEUART_TX_EM` is defined in `leuart.h`, which is
not among the sources; it is the sleep depth blocked while a serial
transmission is active. -/
def LEUART_TX_EM : Nat := EM3

/-! ### Register bits of the vendor device headers

The device headers (`em_i2c.h`, `em_leuart.h`) belong to the vendor library,
not to this repository; the bit positions below are the ones of the EFM32
Pearl Gecko register map. -/

/-- `_I2C_STATE_STATE_MASK`: the bus-state field of the I2C `STATE` register. -/
def I2C_STATE_STATE_MASK : Nat := 0xE0
/-- `I2C_STATE_STATE_IDLE`: the value of the bus-state field when idle. -/
def I2C_STATE_STATE_IDLE : Nat := 0
/-- `I2C_CMD_START`. -/
def I2C_CMD_START : Nat := 0x01
/-- `I2C_CMD_STOP`. -/
def I2C_CMD_STOP : Nat := 0x02
/-- `I2C_CMD_ACK`. -/
def I2C_CMD_ACK : Nat := 0x04
/-- `I2C_CMD_NACK`. -/
def I2C_CMD_NACK : Nat := 0x08

/-- `LEUART_IEN_TXC`. -/
def LEUART_IEN_TXC : Nat := 0x01
/-- `LEUART_IEN_TXBL`. -/
def LEUART_IEN_TXBL : Nat := 0x02
/-- `LEUART_STATUS_TXIDLE`. -/
def LEUART_STATUS_TXIDLE : Nat := 0x40

/-! ## The state of the firmware -/

/-- The two bus peripherals a transaction descriptor can point to. -/
inductive I2C_Periph where
  | I2C0
  | I2C1
deriving DecidableEq, Repr

/-- The registers of an I2C peripheral that `i2c.c` reads or writes after
`i2c_open`.  `CMD` and `TXDATA` are write-only: the model records every value
written, oldest first. -/
structure I2C_TypeDef where
  STATE : Nat
  CMD : List Nat
  TXDATA : List Nat
  RXDATA : Nat
  IF : Nat
  IEN : Nat
deriving DecidableEq, Repr

/-- The enumeration `i2c_states` of `i2c.h`. -/
inductive i2c_states where
  | SEND_DEVICE_ADDR
  | SEND_REGISTER_ADDR
  | WAIT_CONVERSION
  | DATA_READ
  | DATA_WRITE
  | SEND_STOP_CMD
deriving DecidableEq, Repr

/-- The `uint32_t` cells a transaction descriptor can point to: the two
holding cells of `si7021.c`. -/
inductive Cell where
  | si7021_i2c_rx_data
  | si7021_i2c_tx_data
deriving DecidableEq, Repr

/-- The structure `I2C_STATE_MACHINE` of `i2c.h`. -/
structure I2C_STATE_MACHINE where
  current_state : i2c_states
  i2c : I2C_Periph
  device_address : Nat
  register_address : Nat
  rw : Bool
  rx_data : Cell
  tx_data : Cell
  num_bytes : Nat
  sm_busy : Bool
  event_cb : Nat
deriving DecidableEq, Repr

/-- The registers of the LEUART peripheral that `leuart.c` reads or writes
after `leuart_open`.  `TXDATA` is write-only: the model records every byte
written, oldest first. -/
structure LEUART_TypeDef where
  STATUS : Nat
  IEN : Nat
  IF : Nat
  TXDATA : List Nat
deriving DecidableEq, Repr

/-- Modelled from the spec: the states of the serial transmit engine
(`IDLE → TRANSMITTING → COMPLETING → IDLE`); the enumeration is declared in
`leuart.h`, which is not among the sources, and `leuart.c` names its members. -/
inductive leuart_states where
  | INITIALIZATION
  | DATA_TRANSMISSION
  | CLOSE
deriving DecidableEq, Repr

/-- A `char *` as `leuart_start` receives it: a position in the scratch buffer
`popped_string` of `ble.c`, or a position in a constant byte string owned by
the caller. -/
inductive CharPtr where
  | popped (offset : Nat)
  | const (bytes : List Nat) (offset : Nat)
deriving DecidableEq, Repr

/-- Modelled from the spec: the serial transmit descriptor (current state,
pointer and remaining length into the byte buffer being drained); the structure
`LEUART_STATE_MACHINE` is declared in `leuart.h`, which is not among the
sources, and `leuart.c` names its fields. -/
structure LEUART_STATE_MACHINE where
  current_state : leuart_states
  string : CharPtr
  string_len : Nat
  string_count : Nat
deriving DecidableEq, Repr

/-- Modelled from the spec: the transmit ring buffer (a byte array of capacity
`CSIZE`, a read cursor and a write cursor masked with `size_mask`); the
structure `BLE_CIRCULAR_BUF` is declared in `ble.h`, which is not among the
sources, and `ble.c` names its fields.  The cursors are `uint32_t`. -/
structure BLE_CIRCULAR_BUF where
  cbuf : List Nat
  size : Nat
  size_mask : Nat
  read_ptr : Nat
  write_ptr : Nat
deriving DecidableEq, Repr

/-- Modelled from the spec: the capture area of the ring-buffer self test;
the structure `CIRC_TEST_STRUCT` is declared in `ble.h`, which is not among
the sources, and `ble.c` names its fields. -/
structure CIRC_TEST_STRUCT where
  test_str : List (List Nat)
  result_str : List Nat
deriving DecidableEq, Repr

/-- All file-scope variables of the modules and the peripheral registers. -/
structure System where
  event_scheduled : Nat
  lowest_energy_mode : List Int
  i2c_cmd : I2C_STATE_MACHINE
  I2C0 : I2C_TypeDef
  I2C1 : I2C_TypeDef
  si7021_i2c_rx_data : Nat
  si7021_i2c_tx_data : Nat
  rx_done_evt : Nat
  tx_done_evt : Nat
  leuart0_tx_busy : Bool
  leuart_cmd : LEUART_STATE_MACHINE
  LEUART0 : LEUART_TypeDef
  test_struct : CIRC_TEST_STRUCT
  ble_cbuf : BLE_CIRCULAR_BUF
  popped_string : List Nat
deriving DecidableEq, Repr

/-- The result of a call: the value returned, or the fault and the state in
which the call stopped. -/
abbrev Result (α : Type) : Type := Except (Fault × System) α

/-- The macro `EFM_ASSERT` of a debug build: stop when the condition is false. -/
def EFM_ASSERT (c : Bool) (s : System) : Result Unit :=
  if c then .ok () else .error (Fault.assertion, s)

/-- A zeroed I2C register file. -/
def I2C_TypeDef.zero : I2C_TypeDef :=
  { STATE := 0, CMD := [], TXDATA := [], RXDATA := 0, IF := 0, IEN := 0 }

/-- The state at reset: every file-scope variable is zero, as C initialises
static storage, the peripherals are idle and nothing has been written.  One field cannot
hold its value at reset: the pointer `i2c_cmd.i2c` is null until the first `i2c_start`
stores a peripheral in it, and `I2C_Periph` has no null value.  The field holds `I2C0`, the
peripheral that every `i2c_start` of the program stores (`SI7021_I2C`).  A handler of the bus
engine run on `boot` itself would store through the null pointer in C: the properties of the
bus engine are stated from `i2c_start`, or from a state reached through it, never from
`boot`. -/
def boot : System :=
  { event_scheduled := 0
    lowest_energy_mode := List.replicate MAX_ENERGY_MODES 0
    i2c_cmd :=
      { current_state := i2c_states.SEND_DEVICE_ADDR, i2c := I2C_Periph.I2C0,
        device_address := 0, register_address := 0, rw := false,
        rx_data := Cell.si7021_i2c_rx_data, tx_data := Cell.si7021_i2c_tx_data,
        num_bytes := 0, sm_busy := false, event_cb := 0 }
    I2C0 := I2C_TypeDef.zero
    I2C1 := I2C_TypeDef.zero
    si7021_i2c_rx_data := 0
    si7021_i2c_tx_data := 0
    rx_done_evt := 0
    tx_done_evt := 0
    leuart0_tx_busy := false
    leuart_cmd :=
      { current_state := leuart_states.INITIALIZATION, string := CharPtr.popped 0,
        string_len := 0, string_count := 0 }
    LEUART0 := { STATUS := LEUART_STATUS_TXIDLE, IEN := 0, IF := 0, TXDATA := [] }
    test_struct :=
      { test_str := List.replicate 3 (List.replicate CSIZE 0),
        result_str := List.replicate CSIZE 0 }
    ble_cbuf :=
      { cbuf := List.replicate CSIZE 0, size := 0, size_mask := 0,
        read_ptr := 0, write_ptr := 0 }
    popped_string := List.replicate CSIZE 0 }

/-! ## scheduler.c -/

/-- `scheduler_open`: zero the pending set. -/
def scheduler_open (s : System) : System :=
  { s with event_scheduled := 0 }

/-- `add_scheduled_event`: `event_scheduled |= event`. -/
def add_scheduled_event (event : Nat) (s : System) : System :=
  { s with event_scheduled := s.event_scheduled ||| (event % U32) }

/-- `remove_scheduled_event`: `event_scheduled &= ~event`. -/
def remove_scheduled_event (event : Nat) (s : System) : System :=
  { s with event_scheduled := s.event_scheduled &&& not32 event }

/-- `get_scheduled_events`: read the pending set. -/
def get_scheduled_events (s : System) : Nat :=
  s.event_scheduled

/-- A call of the scheduler interface. -/
inductive SchedCall where
  | add (event : Nat)
  | remove (event : Nat)
deriving DecidableEq, Repr

/-- Perform one scheduler call. -/
def SchedCall.run : SchedCall → System → System
  | SchedCall.add e, s => add_scheduled_event e s
  | SchedCall.remove e, s => remove_scheduled_event e s

/-- Perform a sequence of scheduler calls, first call first. -/
def sched_run : List SchedCall → System → System
  | [], s => s
  | c :: cs, s => sched_run cs (c.run s)

/-- Bitwise OR of the masks added by a sequence of calls. -/
def added_mask : List SchedCall → Nat
  | [] => 0
  | SchedCall.add e :: cs => (e % U32) ||| added_mask cs
  | SchedCall.remove _ :: cs => added_mask cs

/-- Bitwise OR of the masks removed by a sequence of calls. -/
def removed_mask : List SchedCall → Nat
  | [] => 0
  | SchedCall.add _ :: cs => removed_mask cs
  | SchedCall.remove e :: cs => (e % U32) ||| removed_mask cs

/-- No call of the sequence adds a bit that an earlier call of the sequence
removed. -/
def no_add_after_remove : List SchedCall → Bool
  | [] => true
  | SchedCall.add _ :: cs => no_add_after_remove cs
  | SchedCall.remove e :: cs => ((e % U32) &&& added_mask cs == 0) && no_add_after_remove cs

/-! ## sleep_routines.c -/

/-- The loop of `sleep_open`: `lowest_energy_mode[i] = 0` for `i` from the
given index, `n` more times. -/
def sleep_open_loop (i : Nat) : Nat → List Int → List Int
  | 0, t => t
  | n + 1, t => sleep_open_loop (i + 1) n (t.set i 0)

/-- `sleep_open`: clear every entry of the block table. -/
def sleep_open (s : System) : System :=
  { s with lowest_energy_mode := sleep_open_loop 0 MAX_ENERGY_MODES s.lowest_energy_mode }

/-- `sleep_block_mode`: `lowest_energy_mode[EM] = 1`, then the assertion
`lowest_energy_mode[EM] < 5`. -/
def sleep_block_mode (EM : Nat) (s : System) : Result System :=
  let s1 := { s with lowest_energy_mode := s.lowest_energy_mode.set EM 1 }
  do
    EFM_ASSERT (decide (s1.lowest_energy_mode.getD EM 0 < 5)) s1
    pure s1

/-- `sleep_unblock_mode`: `lowest_energy_mode[EM] = 0`, then the assertion
`lowest_energy_mode[EM] >= 0`. -/
def sleep_unblock_mode (EM : Nat) (s : System) : Result System :=
  let s1 := { s with lowest_energy_mode := s.lowest_energy_mode.set EM 0 }
  do
    EFM_ASSERT (decide (s1.lowest_energy_mode.getD EM 0 ≥ 0)) s1
    pure s1

/-- The loop of `current_block_energy_mode`: return the first index from `i`
on, among the next `n`, whose entry is nonzero; `MAX_ENERGY_MODES - 1` when
there is none. -/
def current_block_energy_mode_loop (t : List Int) (i : Nat) : Nat → Nat
  | 0 => MAX_ENERGY_MODES - 1
  | n + 1 => if t.getD i 0 ≠ 0 then i else current_block_energy_mode_loop t (i + 1) n

/-- `current_block_energy_mode`. -/
def current_block_energy_mode (s : System) : Nat :=
  current_block_energy_mode_loop s.lowest_energy_mode 0 MAX_ENERGY_MODES

/-- The energy mode `enter_sleep` enters: the argument of the `EMU_EnterEMn`
call it makes, or 0 when it makes none and the processor stays awake. -/
def enter_sleep (s : System) : Nat :=
  if s.lowest_energy_mode.getD EM0 0 > 0 then 0
  else if s.lowest_energy_mode.getD EM1 0 > 0 then 0
  else if s.lowest_energy_mode.getD EM2 0 > 0 then 1
  else if s.lowest_energy_mode.getD EM3 0 > 0 then 2
  else 3

/-- A call of the sleep gate. -/
inductive SleepCall where
  | block (EM : Nat)
  | unblock (EM : Nat)
deriving DecidableEq, Repr

/-- Perform one call of the sleep gate. -/
def SleepCall.run : SleepCall → System → Result System
  | SleepCall.block EM, s => sleep_block_mode EM s
  | SleepCall.unblock EM, s => sleep_unblock_mode EM s

/-- Perform a sequence of calls of the sleep gate, first call first, stopping
at the first call that does not return. -/
def sleep_run : List SleepCall → System → Result System
  | [], s => pure s
  | c :: cs, s => c.run s >>= sleep_run cs

/-- Number of `block (EM)` calls minus number of `unblock (EM)` calls in a
sequence: the blocks of the level that are still outstanding. -/
def outstanding (EM : Nat) : List SleepCall → Int
  | [] => 0
  | SleepCall.block e :: cs => (if e = EM then 1 else 0) + outstanding EM cs
  | SleepCall.unblock e :: cs => (if e = EM then -1 else 0) + outstanding EM cs

/-! ## i2c.c -/

/-- The register file a peripheral pointer designates. -/
def System.i2c_regs (s : System) : I2C_Periph → I2C_TypeDef
  | I2C_Periph.I2C0 => s.I2C0
  | I2C_Periph.I2C1 => s.I2C1

/-- Replace the register file a peripheral pointer designates. -/
def System.set_i2c_regs (s : System) (p : I2C_Periph) (r : I2C_TypeDef) : System :=
  match p with
  | I2C_Periph.I2C0 => { s with I2C0 := r }
  | I2C_Periph.I2C1 => { s with I2C1 := r }

/-- A write to the `CMD` register: `i2c->CMD = v`. -/
def i2c_write_CMD (p : I2C_Periph) (v : Nat) (s : System) : System :=
  s.set_i2c_regs p { s.i2c_regs p with CMD := (s.i2c_regs p).CMD ++ [v % U32] }

/-- A write to the `TXDATA` register: `i2c->TXDATA = v`. -/
def i2c_write_TXDATA (p : I2C_Periph) (v : Nat) (s : System) : System :=
  s.set_i2c_regs p { s.i2c_regs p with TXDATA := (s.i2c_regs p).TXDATA ++ [v % U32] }

/-- The value of the cell a `uint32_t *` points to. -/
def System.load (s : System) : Cell → Nat
  | Cell.si7021_i2c_rx_data => s.si7021_i2c_rx_data
  | Cell.si7021_i2c_tx_data => s.si7021_i2c_tx_data

/-- A store through a `uint32_t *`. -/
def System.store (s : System) (c : Cell) (v : Nat) : System :=
  match c with
  | Cell.si7021_i2c_rx_data => { s with si7021_i2c_rx_data := v % U32 }
  | Cell.si7021_i2c_tx_data => { s with si7021_i2c_tx_data := v % U32 }

/-- `i2c_start`. -/
def i2c_start (i2c : I2C_Periph) (device_address register_address : Nat) (rw : Bool)
    (rx_data tx_data : Cell) (num_bytes event_cb : Nat) (s : System) : Result System := do
  EFM_ASSERT
    (decide (((s.i2c_regs i2c).STATE &&& I2C_STATE_STATE_MASK) = I2C_STATE_STATE_IDLE)) s
  let s1 := { s with i2c_cmd := { s.i2c_cmd with sm_busy := true } }
  let s2 ← sleep_block_mode I2C_EM_BLOCK s1
  let s3 := { s2 with i2c_cmd :=
    { current_state := i2c_states.SEND_DEVICE_ADDR
      i2c := i2c
      device_address := device_address % U32
      register_address := register_address % U32
      rw := rw
      rx_data := rx_data
      tx_data := tx_data
      num_bytes := num_bytes % U32
      sm_busy := s2.i2c_cmd.sm_busy
      event_cb := event_cb % U32 } }
  let s4 := i2c_write_CMD s3.i2c_cmd.i2c I2C_CMD_START s3
  pure (i2c_write_TXDATA s4.i2c_cmd.i2c (((s4.i2c_cmd.device_address <<< 1) % U32) ||| WRITE) s4)

/-- `i2c_busy`. -/
def i2c_busy (s : System) : Bool :=
  s.i2c_cmd.sm_busy

/-- The assignment `i2c_cmd.current_state = st`. -/
def set_i2c_state (st : i2c_states) (s : System) : System :=
  { s with i2c_cmd := { s.i2c_cmd with current_state := st } }

/-- The statements `i2c_cmd.num_bytes--; tx_byte = *tx_data << (SHIFT * num_bytes);
TXDATA = tx_byte` of the write path, `tx_byte` being a `uint8_t`. -/
def i2c_send_next_byte (s : System) : System :=
  let s1 := { s with i2c_cmd := { s.i2c_cmd with
    num_bytes := (s.i2c_cmd.num_bytes + U32 - 1) % U32 } }
  let tx_byte :=
    ((s1.load s1.i2c_cmd.tx_data <<< ((SHIFT * s1.i2c_cmd.num_bytes) % U32)) % U32) % U8
  i2c_write_TXDATA s1.i2c_cmd.i2c tx_byte s1

/-- `i2c_ack`: the handler of the ACK interrupt. -/
def i2c_ack (s : System) : Result System :=
  match s.i2c_cmd.current_state with
  | i2c_states.SEND_DEVICE_ADDR =>
    pure (set_i2c_state i2c_states.SEND_REGISTER_ADDR
      (i2c_write_TXDATA s.i2c_cmd.i2c s.i2c_cmd.register_address s))
  | i2c_states.SEND_REGISTER_ADDR =>
    if s.i2c_cmd.rw then
      let s1 := set_i2c_state i2c_states.WAIT_CONVERSION s
      let s2 := i2c_write_CMD s1.i2c_cmd.i2c I2C_CMD_START s1
      pure (i2c_write_TXDATA s2.i2c_cmd.i2c
        (((s2.i2c_cmd.device_address <<< 1) % U32) ||| READ) s2)
    else
      pure (set_i2c_state i2c_states.DATA_WRITE (i2c_send_next_byte s))
  | i2c_states.WAIT_CONVERSION =>
    pure (set_i2c_state i2c_states.DATA_READ s)
  | i2c_states.DATA_READ => do
    EFM_ASSERT false s
    pure s
  | i2c_states.DATA_WRITE =>
    if s.i2c_cmd.num_bytes ≤ 0 then
      let s1 := set_i2c_state i2c_states.SEND_STOP_CMD s
      pure (i2c_write_CMD s1.i2c_cmd.i2c I2C_CMD_STOP s1)
    else
      pure (i2c_send_next_byte s)
  | i2c_states.SEND_STOP_CMD => do
    EFM_ASSERT false s
    pure s

/-- `i2c_nack`: the handler of the NACK interrupt.  `DATA_WRITE` has no case
of its own and takes the `default` branch. -/
def i2c_nack (s : System) : Result System :=
  match s.i2c_cmd.current_state with
  | i2c_states.SEND_DEVICE_ADDR => do
    EFM_ASSERT false s
    pure s
  | i2c_states.SEND_REGISTER_ADDR => do
    EFM_ASSERT false s
    pure s
  | i2c_states.WAIT_CONVERSION =>
    let s1 := i2c_write_CMD s.i2c_cmd.i2c I2C_CMD_START s
    pure (i2c_write_TXDATA s1.i2c_cmd.i2c
      (((s1.i2c_cmd.device_address <<< 1) % U32) ||| READ) s1)
  | i2c_states.DATA_READ => do
    EFM_ASSERT false s
    pure s
  | i2c_states.DATA_WRITE => do
    EFM_ASSERT false s
    pure s
  | i2c_states.SEND_STOP_CMD => do
    EFM_ASSERT false s
    pure s

/-- The statements `i2c_cmd.num_bytes--; *rx_data &= ~(0xff << (SHIFT * num_bytes));
*rx_data |= RXDATA << (SHIFT * num_bytes)` of the read path. -/
def i2c_receive_byte (s : System) : System :=
  let s1 := { s with i2c_cmd := { s.i2c_cmd with
    num_bytes := (s.i2c_cmd.num_bytes + U32 - 1) % U32 } }
  let sh := (SHIFT * s1.i2c_cmd.num_bytes) % U32
  let s2 := s1.store s1.i2c_cmd.rx_data
    (s1.load s1.i2c_cmd.rx_data &&& not32 (0xff <<< sh))
  s2.store s2.i2c_cmd.rx_data
    (s2.load s2.i2c_cmd.rx_data ||| (((s2.i2c_regs s2.i2c_cmd.i2c).RXDATA <<< sh) % U32))

/-- `i2c_rxdatav`: the handler of the RXDATAV interrupt. -/
def i2c_rxdatav (s : System) : Result System :=
  match s.i2c_cmd.current_state with
  | i2c_states.SEND_DEVICE_ADDR => do
    EFM_ASSERT false s
    pure s
  | i2c_states.SEND_REGISTER_ADDR => do
    EFM_ASSERT false s
    pure s
  | i2c_states.WAIT_CONVERSION => do
    EFM_ASSERT false s
    pure s
  | i2c_states.DATA_READ =>
    let s3 := i2c_receive_byte s
    if s3.i2c_cmd.num_bytes > 0 then
      pure (i2c_write_CMD s3.i2c_cmd.i2c I2C_CMD_ACK s3)
    else
      let s4 := i2c_write_CMD s3.i2c_cmd.i2c I2C_CMD_NACK s3
      let s5 := i2c_write_CMD s4.i2c_cmd.i2c I2C_CMD_STOP s4
      pure (set_i2c_state i2c_states.SEND_STOP_CMD s5)
  | i2c_states.DATA_WRITE => do
    EFM_ASSERT false s
    pure s
  | i2c_states.SEND_STOP_CMD => do
    EFM_ASSERT false s
    pure s

/-- `i2c_mstop`: the handler of the MSTOP interrupt. -/
def i2c_mstop (s : System) : Result System :=
  match s.i2c_cmd.current_state with
  | i2c_states.SEND_DEVICE_ADDR => do
    EFM_ASSERT false s
    pure s
  | i2c_states.SEND_REGISTER_ADDR => do
    EFM_ASSERT false s
    pure s
  | i2c_states.WAIT_CONVERSION => do
    EFM_ASSERT false s
    pure s
  | i2c_states.DATA_READ => do
    EFM_ASSERT false s
    pure s
  | i2c_states.DATA_WRITE => do
    EFM_ASSERT false s
    pure s
  | i2c_states.SEND_STOP_CMD => do
    let s1 := set_i2c_state i2c_states.SEND_DEVICE_ADDR s
    let s2 := { s1 with i2c_cmd := { s1.i2c_cmd with sm_busy := false } }
    let s3 ← sleep_unblock_mode I2C_EM_BLOCK s2
    pure (add_scheduled_event s3.i2c_cmd.event_cb s3)

/-- The interrupts of the bus peripheral that the handler dispatches;
`RXDATAV` carries the byte the peripheral has received. -/
inductive I2cIrq where
  | ACK
  | NACK
  | RXDATAV (byte : Nat)
  | MSTOP
deriving DecidableEq, Repr

/-- Deliver one bus interrupt: `I2C0_IRQHandler` (or `I2C1_IRQHandler`) calls
the handler of the flag that is raised and enabled.  `i2c_open` enables the
four interrupts and `i2c.c` never leaves one disabled afterwards
(`i2c_bus_reset` restores `IEN` before it returns), so a flag that the
peripheral raises is always in `IF & IEN` and the delivery does not consult
`IEN`.  For `RXDATAV` the received byte is in the `RXDATA` register of the
peripheral of the transaction when the handler runs. -/
def I2cIrq.run : I2cIrq → System → Result System
  | I2cIrq.ACK, s => i2c_ack s
  | I2cIrq.NACK, s => i2c_nack s
  | I2cIrq.RXDATAV byte, s =>
    i2c_rxdatav (s.set_i2c_regs s.i2c_cmd.i2c { s.i2c_regs s.i2c_cmd.i2c with RXDATA := byte })
  | I2cIrq.MSTOP, s => i2c_mstop s

/-- Deliver a sequence of bus interrupts, first one first, stopping at the
first handler that does not return. -/
def i2c_run : List I2cIrq → System → Result System
  | [], s => pure s
  | q :: qs, s => q.run s >>= i2c_run qs

/-! ## si7021.c -/

/-- `SI7021_I2C` of `si7021.h`: the sensor is on I2C0. -/
def SI7021_I2C : I2C_Periph := I2C_Periph.I2C0

/-- `si7021_read`. -/
def si7021_read (event_cb byte_length register_address : Nat) (s : System) : Result System :=
  i2c_start SI7021_I2C SI7021_DEVICE_ADDRESS register_address (decide (READ ≠ 0))
    Cell.si7021_i2c_rx_data Cell.si7021_i2c_tx_data byte_length event_cb s

/-- `si7021_write`. -/
def si7021_write (event_cb byte_length register_address : Nat) (s : System) : Result System :=
  i2c_start SI7021_I2C SI7021_DEVICE_ADDRESS register_address (decide (WRITE ≠ 0))
    Cell.si7021_i2c_rx_data Cell.si7021_i2c_tx_data byte_length event_cb s

/-! ## leuart.c -/

/-- The byte a `char *` points to. -/
def CharPtr.deref (s : System) : CharPtr → Nat
  | CharPtr.popped offset => s.popped_string.getD offset 0
  | CharPtr.const bytes offset => bytes.getD offset 0

/-- The pointer advanced by one byte (`string++`). -/
def CharPtr.next : CharPtr → CharPtr
  | CharPtr.popped offset => CharPtr.popped (offset + 1)
  | CharPtr.const bytes offset => CharPtr.const bytes (offset + 1)

/-- The pointer advanced by `k` bytes. -/
def CharPtr.advance : Nat → CharPtr → CharPtr
  | 0, p => p
  | k + 1, p => CharPtr.advance k p.next

/-- The `k` bytes found from the pointer on. -/
def CharPtr.bytes (s : System) : Nat → CharPtr → List Nat
  | 0, _ => []
  | k + 1, p => p.deref s :: CharPtr.bytes s k p.next

/-- `leuart_txbl`: the handler of the buffer-drainable (TXBL) interrupt.  The
descriptor field `leaurt` always points to LEUART0, the only LEUART of the
device, and is not recorded. -/
def leuart_txbl (s : System) : Result System :=
  match s.leuart_cmd.current_state with
  | leuart_states.INITIALIZATION => do
    EFM_ASSERT false s
    pure s
  | leuart_states.DATA_TRANSMISSION =>
    if s.leuart_cmd.string_count < s.leuart_cmd.string_len then
      pure { s with
        LEUART0 := { s.LEUART0 with
          TXDATA := s.LEUART0.TXDATA ++ [s.leuart_cmd.string.deref s] }
        leuart_cmd := { s.leuart_cmd with
          string := s.leuart_cmd.string.next
          string_count := (s.leuart_cmd.string_count + 1) % U32 } }
    else
      pure { s with
        LEUART0 := { s.LEUART0 with
          IEN := (s.LEUART0.IEN &&& not32 LEUART_IEN_TXBL) ||| LEUART_IEN_TXC }
        leuart_cmd := { s.leuart_cmd with current_state := leuart_states.CLOSE } }
  | leuart_states.CLOSE => do
    EFM_ASSERT false s
    pure s

/-- `leuart_txc`: the handler of the transmission-complete (TXC) interrupt. -/
def leuart_txc (s : System) : Result System :=
  match s.leuart_cmd.current_state with
  | leuart_states.INITIALIZATION => do
    EFM_ASSERT false s
    pure s
  | leuart_states.DATA_TRANSMISSION => do
    EFM_ASSERT false s
    pure s
  | leuart_states.CLOSE => do
    let s1 := { s with
      LEUART0 := { s.LEUART0 with
        IEN := s.LEUART0.IEN &&& (not32 LEUART_IEN_TXC &&& not32 LEUART_IEN_TXBL) } }
    let s2 := { s1 with leuart0_tx_busy := false }
    let s3 := add_scheduled_event s2.tx_done_evt s2
    let s4 ← sleep_unblock_mode LEUART_TX_EM s3
    pure { s4 with
      leuart_cmd := { s4.leuart_cmd with current_state := leuart_states.INITIALIZATION } }

/-- `leuart_start`: wait until the peripheral reports TXIDLE, block the sleep
depth, fill the descriptor and arm the TXBL interrupt.  The wait is on a
status bit that only the hardware changes: when the bit is clear the call
does not return. -/
def leuart_start (string : CharPtr) (string_len : Nat) (s : System) : Result System :=
  if s.LEUART0.STATUS &&& LEUART_STATUS_TXIDLE = 0 then
    .error (Fault.spin, s)
  else do
    let s1 ← sleep_block_mode LEUART_TX_EM s
    pure { s1 with
      leuart_cmd :=
        { current_state := leuart_states.DATA_TRANSMISSION
          string := string
          string_len := string_len % U32
          string_count := 0 }
      leuart0_tx_busy := true
      LEUART0 := { s1.LEUART0 with IEN := s1.LEUART0.IEN ||| LEUART_IEN_TXBL } }

/-- `leuart_tx_busy`: read the busy flag. -/
def leuart_tx_busy (s : System) : Bool :=
  s.leuart0_tx_busy

/-- The interrupts of the serial peripheral that the handler dispatches. -/
inductive LeuartIrq where
  | TXBL
  | TXC
deriving DecidableEq, Repr

/-- The bit of the interrupt in the registers `IF` and `IEN`. -/
def LeuartIrq.flag : LeuartIrq → Nat
  | LeuartIrq.TXBL => LEUART_IEN_TXBL
  | LeuartIrq.TXC => LEUART_IEN_TXC

/-- `LEUART0_IRQHandler`, entered with the value `IF` in the interrupt flag register:
`int_flag = LEUART0->IF & LEUART0->IEN`, then `leuart_txbl()` if the TXBL bit of `int_flag`
is set, then `leuart_txc()` if its TXC bit is set.  A flag whose enable bit is clear is not
in `int_flag`: its handler is not called.  The flag register belongs to the peripheral: its
value is an input of the handler, and the write of `int_flag` to `IFC` gives the flags taken
back to the peripheral. -/
def LEUART0_IRQHandler (IF : Nat) (s : System) : Result System := do
  let int_flag := IF &&& s.LEUART0.IEN
  let s1 ← if int_flag &&& LEUART_IEN_TXBL ≠ 0 then leuart_txbl s else pure s
  if int_flag &&& LEUART_IEN_TXC ≠ 0 then leuart_txc s1 else pure s1

/-- Deliver one serial interrupt: the peripheral raises the flag of the interrupt and
`LEUART0_IRQHandler` runs with that flag in `IF`. -/
def LeuartIrq.run (q : LeuartIrq) (s : System) : Result System :=
  LEUART0_IRQHandler q.flag s

/-- Deliver a sequence of serial interrupts, first one first, stopping at the
first handler that does not return. -/
def leuart_run : List LeuartIrq → System → Result System
  | [], s => pure s
  | q :: qs, s => q.run s >>= leuart_run qs

/-! ## ble.c -/

/-- The C library function `strlen` on a byte string: the number of bytes
before the first zero byte.  A list stands for the bytes at the pointer,
followed by a terminating zero. -/
def strlen : List Nat → Nat
  | [] => 0
  | c :: cs => if c = 0 then 0 else strlen cs + 1

/-- The contents of a C string: the bytes before the first zero byte. -/
def cstr (string : List Nat) : List Nat :=
  string.take (strlen string)

/-- `ble_circ_init`. -/
def ble_circ_init (s : System) : System :=
  { s with ble_cbuf := { s.ble_cbuf with
      read_ptr := 0, write_ptr := 0, size := CSIZE, size_mask := CSIZE - 1 } }

/-- `ble_circ_space`: `CSIZE - ((write_ptr - read_ptr) & size_mask)` in
`uint32_t` arithmetic, stored in a `uint8_t`. -/
def ble_circ_space (s : System) : Nat :=
  ((CSIZE + U32
      - (((s.ble_cbuf.write_ptr + U32 - s.ble_cbuf.read_ptr) % U32) &&& s.ble_cbuf.size_mask))
    % U32) % U8

/-- `update_circ_wrtindex`. -/
def update_circ_wrtindex (b : BLE_CIRCULAR_BUF) (update_by : Nat) : BLE_CIRCULAR_BUF :=
  { b with write_ptr := ((b.write_ptr + update_by) % U32) &&& b.size_mask }

/-- `update_circ_readindex`. -/
def update_circ_readindex (b : BLE_CIRCULAR_BUF) (update_by : Nat) : BLE_CIRCULAR_BUF :=
  { b with read_ptr := ((b.read_ptr + update_by) % U32) &&& b.size_mask }

/-- The loop of `ble_circ_push`: `cbuf[write_ptr] = string[i]` and advance the
write cursor, for `i` from the given index, `n` more times. -/
def push_loop (string : List Nat) (i : Nat) : Nat → BLE_CIRCULAR_BUF → BLE_CIRCULAR_BUF
  | 0, b => b
  | n + 1, b =>
    push_loop string (i + 1) n
      (update_circ_wrtindex { b with cbuf := b.cbuf.set b.write_ptr (string.getD i 0 % U8) } 1)

/-- `ble_circ_push`. -/
def ble_circ_push (string : List Nat) (s : System) : Result System := do
  EFM_ASSERT (decide (ble_circ_space s ≠ 0)) s
  let string_len := strlen string % U8
  let packet_size := (string_len + 1) % U8
  if packet_size ≤ ble_circ_space s then
    let b1 := update_circ_wrtindex
      { s.ble_cbuf with cbuf := s.ble_cbuf.cbuf.set s.ble_cbuf.write_ptr packet_size } 1
    pure { s with ble_cbuf := push_loop string 0 string_len b1 }
  else do
    EFM_ASSERT false s
    pure s

/-- The first loop of `ble_circ_pop`: `popped_string[i] = cbuf[read_ptr]` and
advance the read cursor, for `i` from the given index, `n` more times.  The array
`popped_string` has `CSIZE` elements and the loop does not check its index: a store at an
index from `CSIZE` on is outside the array, and the run stops there. -/
def pop_loop (i : Nat) : Nat → System → Result System
  | 0, s => pure s
  | n + 1, s =>
    if i < CSIZE then
      pop_loop (i + 1) n
        { s with
          popped_string := s.popped_string.set i (s.ble_cbuf.cbuf.getD s.ble_cbuf.read_ptr 0)
          ble_cbuf := update_circ_readindex s.ble_cbuf 1 }
    else
      .error (Fault.out_of_bounds, s)

/-- The second loop of `ble_circ_pop`: `result_str[i] = popped_string[i]`, for
`i` from the given index, `n` more times.  Modelled from the spec: `result_str` is declared
in `ble.h`, which is not among the sources, with the `CSIZE` elements of the other buffers; a
store at an index from `CSIZE` on is outside the array, and the run stops there. -/
def copy_loop (i : Nat) : Nat → System → Result System
  | 0, s => pure s
  | n + 1, s =>
    if i < CSIZE then
      copy_loop (i + 1) n
        { s with
          test_struct := { s.test_struct with
            result_str := s.test_struct.result_str.set i (s.popped_string.getD i 0) } }
    else
      .error (Fault.out_of_bounds, s)

/-- `ble_circ_pop`: the value returned is `true` when the buffer is empty.  The length byte
read from the buffer is trusted: the stores `popped_string[i]`, `popped_string[string_len]`
and `result_str[i]` are outside their arrays when `string_len` is `CSIZE` or more, and the
run stops at the first of them. -/
def ble_circ_pop (test : Bool) (s : System) : Result (Bool × System) :=
  if s.ble_cbuf.read_ptr = s.ble_cbuf.write_ptr then
    pure (true, s)
  else if leuart_tx_busy s then
    pure (false, s)
  else
    let string_len := (s.ble_cbuf.cbuf.getD s.ble_cbuf.read_ptr 0 + U8 - 1) % U8
    let s1 := { s with ble_cbuf := update_circ_readindex s.ble_cbuf 1 }
    do
      let s2 ← pop_loop 0 string_len s1
      if string_len < CSIZE then
        let s3 := { s2 with popped_string := s2.popped_string.set string_len 0 }
        if test then do
          let s4 ← copy_loop 0 (string_len + 1) s3
          pure (false, s4)
        else do
          let s4 ← leuart_start (CharPtr.popped 0) string_len s3
          pure (false, s4)
      else
        .error (Fault.out_of_bounds, s2)

/-- `ble_write`: push the string, then try to start the head of the buffer. -/
def ble_write (string : List Nat) (s : System) : Result System := do
  let s1 ← ble_circ_push string s
  let r ← ble_circ_pop false s1
  pure r.2

/-- A call of the ring buffer interface, as `circular_buff_test` makes them:
a push, or a pop in test mode. -/
inductive BufCall where
  | push (string : List Nat)
  | pop
deriving DecidableEq, Repr

/-! ## The ring buffer as a queue of messages -/

/-- The bytes are characters other than NUL. -/
def char_string (m : List Nat) : Prop :=
  ∀ b ∈ m, 0 < b ∧ b < U8

instance char_string.decidable (m : List Nat) : Decidable (char_string m) := by
  unfold char_string
  infer_instance

/-- The declared sizes of the arrays of `ble.c`, the mask that `ble_circ_init` stores, and
cursors that are indices of the array: what holds of the ring buffer once it is initialised. -/
def ble_ok (s : System) : Prop :=
  s.ble_cbuf.cbuf.length = CSIZE ∧ s.ble_cbuf.size_mask = CSIZE - 1
    ∧ s.ble_cbuf.read_ptr < CSIZE ∧ s.ble_cbuf.write_ptr < CSIZE
    ∧ s.popped_string.length = CSIZE ∧ s.test_struct.result_str.length = CSIZE

instance ble_ok.decidable (s : System) : Decidable (ble_ok s) := by
  unfold ble_ok
  infer_instance

/-- The bytes a queue of messages occupies: each message is its length plus one, then its
bytes. -/
def encode : List (List Nat) → List Nat
  | [] => []
  | m :: q => (m.length + 1) :: (m ++ encode q)

/-- The array, read circularly from the read cursor, holds the given bytes and the write
cursor is just behind them. -/
def ring_matches (b : BLE_CIRCULAR_BUF) (enc : List Nat) : Prop :=
  b.cbuf.length = CSIZE ∧ b.size_mask = CSIZE - 1 ∧ b.read_ptr < CSIZE
    ∧ enc.length < CSIZE
    ∧ b.write_ptr = (b.read_ptr + enc.length) % CSIZE
    ∧ ∀ j, j < enc.length → b.cbuf.getD ((b.read_ptr + j) % CSIZE) 0 = enc.getD j 0

/-- The ring buffer holds exactly the messages of the queue, oldest first. -/
def holds (s : System) (q : List (List Nat)) : Prop :=
  ring_matches s.ble_cbuf (encode q) ∧ (∀ m ∈ q, char_string m)
    ∧ s.popped_string.length = CSIZE ∧ s.test_struct.result_str.length = CSIZE

/-- Perform a sequence of ring buffer calls, first call first; the value is the list of the
strings captured in `result_str` by the pops that did not report the buffer empty. -/
def buf_run : List BufCall → System → Result (List (List Nat) × System)
  | [], s => pure ([], s)
  | BufCall.push string :: cs, s => ble_circ_push string s >>= buf_run cs
  | BufCall.pop :: cs, s =>
    ble_circ_pop CIRC_TEST s >>= fun r =>
      buf_run cs r.2 >>= fun out =>
        pure (if r.1 then out.1 else cstr r.2.test_struct.result_str :: out.1, out.2)

/-- The messages pushed by a sequence of calls, in order. -/
def pushed : List BufCall → List (List Nat)
  | [] => []
  | BufCall.push string :: cs => cstr string :: pushed cs
  | BufCall.pop :: cs => pushed cs

/-- Every push of the sequence finds room for its packet and one byte more:
`strlen + 1 < ble_circ_space()` at the time of the call. -/
def leaves_room : List BufCall → System → Bool
  | [], _ => true
  | BufCall.push string :: cs, s =>
    decide (strlen string + 1 < ble_circ_space s) &&
      (match ble_circ_push string s with
        | .ok s1 => leaves_room cs s1
        | .error _ => true)
  | BufCall.pop :: cs, s =>
    match ble_circ_pop CIRC_TEST s with
    | .ok r => leaves_room cs r.2
    | .error _ => true

/-- Every string pushed by the sequence consists of bytes, values below 256. -/
def byte_strings : List BufCall → Bool
  | [] => true
  | BufCall.push string :: cs => string.all (fun b => decide (b < U8)) && byte_strings cs
  | BufCall.pop :: cs => byte_strings cs

/-- The calls of `circular_buff_test`: push the 50-byte string, pop it, push the 25-byte and
the 5-byte strings, the first of which wraps past the end of the array, pop three times. -/
def circular_buff_test_calls : List BufCall :=
  [BufCall.push ((List.range 50).map (· + 1)), BufCall.pop,
   BufCall.push ((List.range 25).map (· + 20)), BufCall.push ((List.range 5).map (· + 35)),
   BufCall.pop, BufCall.pop, BufCall.pop]

/-! ## Vocabulary of the sleep gate and bus engine properties -/

/-- A level is blocked when its entry in the block table is nonzero. -/
def blocked (s : System) (k : Nat) : Prop :=
  s.lowest_energy_mode.getD k 0 ≠ 0

instance blocked.decidable (s : System) (k : Nat) : Decidable (blocked s k) := by
  unfold blocked
  infer_instance

/-- No entry of the block table is negative: the entries are flags or counts. -/
def table_ok (s : System) : Prop :=
  ∀ k, k < MAX_ENERGY_MODES → 0 ≤ s.lowest_energy_mode.getD k 0

instance table_ok.decidable (s : System) : Decidable (table_ok s) := by
  unfold table_ok
  infer_instance

/-- The (state, interrupt) pairs that the handlers of `i2c.c` give a case of their own that
does not assert. -/
def i2c_handles : i2c_states → I2cIrq → Bool
  | i2c_states.SEND_DEVICE_ADDR, I2cIrq.ACK => true
  | i2c_states.SEND_REGISTER_ADDR, I2cIrq.ACK => true
  | i2c_states.WAIT_CONVERSION, I2cIrq.ACK => true
  | i2c_states.WAIT_CONVERSION, I2cIrq.NACK => true
  | i2c_states.DATA_WRITE, I2cIrq.ACK => true
  | i2c_states.DATA_READ, I2cIrq.RXDATAV _ => true
  | i2c_states.SEND_STOP_CMD, I2cIrq.MSTOP => true
  | _, _ => false

/-- The state with the records of the values written to `CMD` and `TXDATA` emptied:
everything the firmware can read back. -/
def forget_writes (s : System) : System :=
  { s with
    I2C0 := { s.I2C0 with CMD := [], TXDATA := [] }
    I2C1 := { s.I2C1 with CMD := [], TXDATA := [] } }

/-- The result of a run up to the records of the values written to `CMD` and `TXDATA`. -/
def outcome : Result System → Result System
  | .ok s => .ok (forget_writes s)
  | .error e => .error (e.1, forget_writes e.2)

/-- The state in which a two-byte read from boot waits for the conversion: after
`i2c_start` and the ACKs of the device address and of the register byte. -/
def waiting_read : System :=
  match i2c_start I2C_Periph.I2C0 SI7021_DEVICE_ADDRESS SI7021_READ_TEMP_CMD true
      Cell.si7021_i2c_rx_data Cell.si7021_i2c_tx_data TWO_BYTES 8 boot
    >>= i2c_run [I2cIrq.ACK, I2cIrq.ACK] with
  | .ok s => s
  | .error e => e.2

/-- The state in which that read has received its two bytes and waits for MSTOP, event 1
being pending. -/
def stopping_read : System :=
  match i2c_run [I2cIrq.ACK, I2cIrq.RXDATAV 0x60, I2cIrq.RXDATAV 0x00]
      (add_scheduled_event 1 waiting_read) with
  | .ok s => s
  | .error e => e.2

/-- The state in which that read has completed: after the MSTOP interrupt. -/
def completed_read : System :=
  match I2cIrq.MSTOP.run stopping_read with
  | .ok s => s
  | .error e => e.2

/-! ## app.c: the transmit path -/

/-- `BLE_TX_DONE_CB` of `app.h`: the event `ble_open` registers for the end of a
transmission. -/
def BLE_TX_DONE_CB : Nat := 0x00000020

/-- `scheduled_ble_tx_done_cb`: the event must be pending; remove it and start the next
message of the ring buffer. -/
def scheduled_ble_tx_done_cb (s : System) : Result System := do
  EFM_ASSERT (decide (get_scheduled_events s &&& BLE_TX_DONE_CB ≠ 0)) s
  let s1 := remove_scheduled_event BLE_TX_DONE_CB s
  let r ← ble_circ_pop false s1
  pure r.2

/-- A step of the transmit path: the application enqueues a string, the serial peripheral
raises an interrupt, or the scheduler loop runs the transmission-done callback. -/
inductive TxStep where
  | write (string : List Nat)
  | irq (q : LeuartIrq)
  | tx_done
deriving DecidableEq, Repr

/-- Perform one step of the transmit path. -/
def TxStep.run : TxStep → System → Result System
  | TxStep.write string, s => ble_write string s
  | TxStep.irq q, s => q.run s
  | TxStep.tx_done, s => scheduled_ble_tx_done_cb s

/-- Perform a sequence of steps of the transmit path, first step first, stopping at the
first step that does not return. -/
def tx_run : List TxStep → System → Result System
  | [], s => pure s
  | c :: cs, s => c.run s >>= tx_run cs

/-! ## app.h: the scheduled events -/

/-- `LETIMER0_COMP0_CB` of `app.h`. -/
def LETIMER0_COMP0_CB : Nat := 0x00000001

/-- `LETIMER0_COMP1_CB` of `app.h`. -/
def LETIMER0_COMP1_CB : Nat := 0x00000002

/-- `LETIMER0_UF_CB` of `app.h`. -/
def LETIMER0_UF_CB : Nat := 0x00000004

/-- `SI7021_READ_CB` of `app.h`. -/
def SI7021_READ_CB : Nat := 0x00000008

/-- `BOOT_UP_CB` of `app.h`. -/
def BOOT_UP_CB : Nat := 0x00000010

/-- `BLE_RX_DONE_CB` of `app.h`. -/
def BLE_RX_DONE_CB : Nat := 0x00000040

/-- The scheduled-event masks that `app.h` defines, in the order of the header. -/
def event_masks : List Nat :=
  [LETIMER0_COMP0_CB, LETIMER0_COMP1_CB, LETIMER0_UF_CB, SI7021_READ_CB, BOOT_UP_CB,
   BLE_TX_DONE_CB, BLE_RX_DONE_CB]

/-! ## Vocabulary of the serial engine properties -/

/-- The (state, interrupt) pairs that the handlers of `leuart.c` give a case that does not
assert. -/
def leuart_handles : leuart_states → LeuartIrq → Bool
  | leuart_states.DATA_TRANSMISSION, LeuartIrq.TXBL => true
  | leuart_states.CLOSE, LeuartIrq.TXC => true
  | _, _ => false

/-- The state in which the transmission of "hi", started by `ble_write` on the initialised
ring buffer with `BLE_TX_DONE_CB` registered, has drained its two bytes and waits for the
TXC interrupt. -/
def closing_tx : System :=
  match tx_run [TxStep.write [104, 105], TxStep.irq LeuartIrq.TXBL, TxStep.irq LeuartIrq.TXBL,
      TxStep.irq LeuartIrq.TXBL] { ble_circ_init boot with tx_done_evt := BLE_TX_DONE_CB } with
  | .ok s => s
  | .error e => e.2

/-- The state in which "hi" is being transmitted, its first byte gone out, and "yo",
enqueued meanwhile, waits in the ring buffer. -/
def queued_tx : System :=
  match tx_run [TxStep.write [104, 105], TxStep.irq LeuartIrq.TXBL, TxStep.write [121, 111]]
      { ble_circ_init boot with tx_done_evt := BLE_TX_DONE_CB } with
  | .ok s => s
  | .error e => e.2

/-! ## si7021.c: the self-test, and the read of the UART lab -/

/-- `SI7021_UR1_READ_CMD` of `si7021.h`. -/
def SI7021_UR1_READ_CMD : Nat := 0xE7

/-- `SI7021_UR1_WRITE_CMD` of `si7021.h`. -/
def SI7021_UR1_WRITE_CMD : Nat := 0xE6

/-- The loop `while (i2c_busy());`.  It leaves when the busy flag is clear; while the flag
is set the interrupts that the bus peripheral raises are delivered, first one first; when
the flag is set and no interrupt comes the loop does not end. -/
def while_i2c_busy : List I2cIrq → System → Result System
  | [], s => if i2c_busy s then .error (Fault.spin, s) else pure s
  | q :: qs, s => if i2c_busy s then q.run s >>= while_i2c_busy qs else pure s

/-- `si7021_test`.  The interrupts raised during its four waits are `irqs1` to `irqs4`;
`timer_delay` changes nothing of the state; `temperature_in_range`, applied to the raw value
read, stands for the floating-point test `(temperature > 60.0) && (temperature < 85.0)` on
the value of `si7021_temperatureF()`. -/
def si7021_test (irqs1 irqs2 irqs3 irqs4 : List I2cIrq) (temperature_in_range : Nat → Bool)
    (s : System) : Result (Bool × System) := do
  let s1 ← i2c_start SI7021_I2C SI7021_DEVICE_ADDRESS SI7021_UR1_READ_CMD (decide (READ ≠ 0))
    Cell.si7021_i2c_rx_data Cell.si7021_i2c_tx_data ONE_BYTE 0 s
  let s2 ← while_i2c_busy irqs1 s1
  EFM_ASSERT (decide (0x3A = s2.si7021_i2c_rx_data) || decide (s2.si7021_i2c_rx_data = 0xBA)) s2
  let s3 := { s2 with si7021_i2c_tx_data := 0xBA }
  let s4 ← si7021_write 0 ONE_BYTE SI7021_UR1_WRITE_CMD s3
  let s5 ← while_i2c_busy irqs2 s4
  let s6 ← i2c_start SI7021_I2C SI7021_DEVICE_ADDRESS SI7021_UR1_READ_CMD (decide (READ ≠ 0))
    Cell.si7021_i2c_rx_data Cell.si7021_i2c_tx_data ONE_BYTE 0 s5
  let s7 ← while_i2c_busy irqs3 s6
  EFM_ASSERT (decide (0xBA = s7.si7021_i2c_rx_data)) s7
  let s8 ← i2c_start SI7021_I2C SI7021_DEVICE_ADDRESS SI7021_READ_TEMP_CMD (decide (READ ≠ 0))
    Cell.si7021_i2c_rx_data Cell.si7021_i2c_tx_data TWO_BYTES 0 s7
  let s9 ← while_i2c_busy irqs4 s8
  EFM_ASSERT (temperature_in_range s9.si7021_i2c_rx_data) s9
  pure (true, s9)

/-- `SI7021_READ_CMD` of `si7021.h` of the UART lab. -/
def UART_Lab.SI7021_READ_CMD : Nat := 0xF3

set_option linter.unusedVariables false in
/-- `si7021_read` of the UART lab.  The `i2c_start` it calls is the one of that lab, which
is not among the sources; `i2c.h` of the I2C lab declares it with the arguments `i2c`,
`device_address`, `register_address`, `rw`, `rx_data`, `event_cb`, and it is a parameter
here.  The cell `si7021_i2c_data` of the lab is the receive cell. -/
def UART_Lab.si7021_read
    (i2c_start : I2C_Periph → Nat → Nat → Bool → Cell → Nat → System → Result System)
    (event_cb : Nat) (s : System) : Result System :=
  i2c_start SI7021_I2C SI7021_DEVICE_ADDRESS UART_Lab.SI7021_READ_CMD (decide (READ ≠ 0))
    Cell.si7021_i2c_rx_data SI7021_READ_CB s

/-! ## ble.c: the self-test of the ring buffer -/

/-- A loop `test_struct.test_str[row][i] = i + add` of `circular_buff_test`, for `i` from
the given index, `n` more times; the elements are `char`. -/
def fill_loop (row add i : Nat) : Nat → List (List Nat) → List (List Nat)
  | 0, t => t
  | n + 1, t =>
    fill_loop row add (i + 1) n (t.set row ((t.getD row []).set i ((i + add) % U8)))

/-- A loop `EFM_ASSERT(test_struct.test_str[row][i] == test_struct.result_str[i])` of
`circular_buff_test`, for `i` from the given index, `n` more times. -/
def compare_loop (row i : Nat) : Nat → System → Result Unit
  | 0, _ => pure ()
  | n + 1, s => do
    EFM_ASSERT (decide ((s.test_struct.test_str.getD row []).getD i 0
      = s.test_struct.result_str.getD i 0)) s
    compare_loop row (i + 1) n s

/-- The text of the message that ends `circular_buff_test`: a line feed, "Passed Circular
Buffer Test", a line feed. -/
def passed_circular_buffer_test : List Nat :=
  [10, 80, 97, 115, 115, 101, 100, 32, 67, 105, 114, 99, 117, 108, 97, 114, 32, 66, 117, 102,
   102, 101, 114, 32, 84, 101, 115, 116, 10]

/-- `circular_buff_test`.  The argument of `abs` is the difference of the cursors in
`uint32_t` arithmetic, read as an `int`. -/
def circular_buff_test (s : System) : Result System := do
  let test1_len := 50
  let test2_len := 25
  let test3_len := 5
  let s := { s with ble_cbuf := { s.ble_cbuf with read_ptr := 0, write_ptr := 0 } }
  let t := fill_loop 0 1 0 test1_len s.test_struct.test_str
  let t := t.set 0 ((t.getD 0 []).set test1_len 0)
  let t := fill_loop 1 20 0 test2_len t
  let t := t.set 1 ((t.getD 1 []).set test2_len 0)
  let t := fill_loop 2 35 0 test3_len t
  let t := t.set 2 ((t.getD 2 []).set test3_len 0)
  let s := { s with test_struct := { s.test_struct with test_str := t } }
  EFM_ASSERT (decide (ble_circ_space s = CSIZE)) s
  let s ← ble_circ_push (s.test_struct.test_str.getD 0 []) s
  EFM_ASSERT (decide (ble_circ_space s = CSIZE - test1_len - 1)) s
  let r ← ble_circ_pop CIRC_TEST s
  let s := r.2
  EFM_ASSERT (decide (r.1 = false)) s
  compare_loop 0 0 test1_len s
  EFM_ASSERT (decide (strlen s.test_struct.result_str = test1_len)) s
  EFM_ASSERT (decide (ble_circ_space s = CSIZE)) s
  let s ← ble_circ_push (s.test_struct.test_str.getD 1 []) s
  EFM_ASSERT (decide (ble_circ_space s = CSIZE - test2_len - 1)) s
  let s ← ble_circ_push (s.test_struct.test_str.getD 2 []) s
  EFM_ASSERT (decide (ble_circ_space s = CSIZE - test2_len - 1 - test3_len - 1)) s
  let d := (s.ble_cbuf.write_ptr + U32 - s.ble_cbuf.read_ptr) % U32
  EFM_ASSERT (decide ((if d < 2 ^ 31 then (d : Int) else (d : Int) - U32).natAbs < CSIZE)) s
  let r ← ble_circ_pop CIRC_TEST s
  let s := r.2
  EFM_ASSERT (decide (r.1 = false)) s
  compare_loop 1 0 test2_len s
  EFM_ASSERT (decide (strlen s.test_struct.result_str = test2_len)) s
  EFM_ASSERT (decide (ble_circ_space s = CSIZE - test3_len - 1)) s
  let r ← ble_circ_pop CIRC_TEST s
  let s := r.2
  EFM_ASSERT (decide (r.1 = false)) s
  compare_loop 2 0 test3_len s
  EFM_ASSERT (decide (strlen s.test_struct.result_str = test3_len)) s
  EFM_ASSERT (decide (ble_circ_space s = CSIZE)) s
  let r ← ble_circ_pop CIRC_TEST s
  let s := r.2
  EFM_ASSERT (decide (r.1 = true)) s
  ble_write passed_circular_buffer_test s

/-! ## app.c: the deferred-work handlers -/

/-- `scheduled_letimer0_uf_cb`.  The masks `SI7021_READ_TEMP_CB` and `SI7021_READ_RH_CB`
are defined in `app.h` of the final project, which is not among the sources: they are
parameters.  The interrupts raised during the wait are `irqs`. -/
def scheduled_letimer0_uf_cb (SI7021_READ_TEMP_CB SI7021_READ_RH_CB : Nat)
    (irqs : List I2cIrq) (s : System) : Result System := do
  EFM_ASSERT (decide (get_scheduled_events s &&& LETIMER0_UF_CB ≠ 0)) s
  let s1 := remove_scheduled_event LETIMER0_UF_CB s
  let s2 ← si7021_read SI7021_READ_TEMP_CB TWO_BYTES SI7021_READ_TEMP_CMD s1
  let s3 ← while_i2c_busy irqs s2
  si7021_read SI7021_READ_RH_CB TWO_BYTES SI7021_READ_RH_CMD s3

/-- `scheduled_si7021_read_temp_cb`.  The temperature is a floating-point value and the LED
is not part of the state: `output_str` stands for the text that `sprintf` writes. -/
def scheduled_si7021_read_temp_cb (SI7021_READ_TEMP_CB : Nat) (output_str : List Nat)
    (s : System) : Result System := do
  EFM_ASSERT (decide (get_scheduled_events s &&& SI7021_READ_TEMP_CB ≠ 0)) s
  let s1 := remove_scheduled_event SI7021_READ_TEMP_CB s
  ble_write output_str s1

/-- `scheduled_si7021_read_rh_cb`.  The humidity is a floating-point value: `output_str`
stands for the text that `sprintf` writes. -/
def scheduled_si7021_read_rh_cb (SI7021_READ_RH_CB : Nat) (output_str : List Nat)
    (s : System) : Result System := do
  EFM_ASSERT (decide (get_scheduled_events s &&& SI7021_READ_RH_CB ≠ 0)) s
  let s1 := remove_scheduled_event SI7021_READ_RH_CB s
  ble_write output_str s1

/-- The text "Passed SI7021 I2C TDD Test" and a line feed. -/
def passed_si7021_test : List Nat :=
  [80, 97, 115, 115, 101, 100, 32, 83, 73, 55, 48, 50, 49, 32, 73, 50, 67, 32, 84, 68, 68, 32,
   84, 101, 115, 116, 10]

/-- The text of a line feed, "Hello World", a line feed. -/
def hello_world : List Nat := [10, 72, 101, 108, 108, 111, 32, 87, 111, 114, 108, 100, 10]

/-- The text "Final Project" and a line feed. -/
def final_project : List Nat :=
  [70, 105, 110, 97, 108, 32, 80, 114, 111, 106, 101, 99, 116, 10]

/-- The text "Ivan" and a line feed. -/
def ivan : List Nat := [73, 118, 97, 110, 10]

/-- `scheduled_boot_up_cb`, as `app.c` compiles it: `BLE_TEST_ENABLED` is not defined,
`CIRC_TEST` and `SI7021_TEST` are.  The arguments are those of `si7021_test`.  The timer
that `letimer_start` starts is not part of the state. -/
def scheduled_boot_up_cb (irqs1 irqs2 irqs3 irqs4 : List I2cIrq)
    (temperature_in_range : Nat → Bool) (s : System) : Result System := do
  EFM_ASSERT (decide (get_scheduled_events s &&& BOOT_UP_CB ≠ 0)) s
  let s1 := remove_scheduled_event BOOT_UP_CB s
  let s2 ← circular_buff_test s1
  let success2 ← si7021_test irqs1 irqs2 irqs3 irqs4 temperature_in_range s2
  EFM_ASSERT success2.1 success2.2
  let s3 ← ble_write passed_si7021_test success2.2
  let s4 ← ble_write hello_world s3
  let s5 ← ble_write final_project s4
  ble_write ivan s5

/-- The interrupts of a two-byte read that receives 0x60 and 0x54. -/
def two_byte_read_irqs : List I2cIrq :=
  [I2cIrq.ACK, I2cIrq.ACK, I2cIrq.ACK, I2cIrq.RXDATAV 0x60, I2cIrq.RXDATAV 0x54, I2cIrq.MSTOP]

/-- The interrupts of a one-byte read that receives `b`. -/
def one_byte_read_irqs (b : Nat) : List I2cIrq :=
  [I2cIrq.ACK, I2cIrq.ACK, I2cIrq.ACK, I2cIrq.RXDATAV b, I2cIrq.MSTOP]

/-- The interrupts of a one-byte write. -/
def one_byte_write_irqs : List I2cIrq :=
  [I2cIrq.ACK, I2cIrq.ACK, I2cIrq.ACK, I2cIrq.MSTOP]

/-- The state in which `scheduled_letimer0_uf_cb` returns when it is called from reset with
its event pending, the temperature event being 0x08 and the humidity event 0x80, and the
temperature read receives 0x60 and 0x54. -/
def after_uf_cb : System :=
  match scheduled_letimer0_uf_cb SI7021_READ_CB 0x80 two_byte_read_irqs
      { boot with event_scheduled := LETIMER0_UF_CB } with
  | .ok s => s
  | .error e => e.2

/-- The state in which `scheduled_boot_up_cb` returns when it is called on the initialised
ring buffer with its event pending, the sensor answers the self-test with 0x3A, then 0xBA,
then the temperature 0x6054, and the temperature is in range. -/
def after_boot_up_cb : System :=
  match scheduled_boot_up_cb (one_byte_read_irqs 0x3A) one_byte_write_irqs
      (one_byte_read_irqs 0xBA) two_byte_read_irqs (fun _ => true)
      { ble_circ_init boot with tx_done_evt := BLE_TX_DONE_CB, event_scheduled := BOOT_UP_CB } with
  | .ok s => s
  | .error e => e.2

/-! ## Vocabulary of the last properties -/

/-- The mask a scheduler call is given. -/
def SchedCall.mask : SchedCall → Nat
  | SchedCall.add e => e
  | SchedCall.remove e => e

/-- The mask of the call, a `uint32_t`, contains bit `b`. -/
def SchedCall.touches (c : SchedCall) (b : Nat) : Bool :=
  (c.mask % U32).testBit b

/-- A call of the ring buffer interface: a push, or a pop in the given mode. -/
inductive RingCall where
  | push (string : List Nat)
  | pop (test : Bool)
deriving DecidableEq, Repr

/-- Perform one call of the ring buffer interface. -/
def RingCall.run : RingCall → System → Result System
  | RingCall.push string, s => ble_circ_push string s
  | RingCall.pop test, s => ble_circ_pop test s >>= fun r => pure r.2

/-- Perform a sequence of calls of the ring buffer interface, first call first, stopping at
the first call that does not return. -/
def ring_run : List RingCall → System → Result System
  | [], s => pure s
  | c :: cs, s => c.run s >>= ring_run cs

/-- The cursors of the ring buffer are indices of its array and the mask is the one
`ble_circ_init` stores. -/
def cursors_ok (s : System) : Prop :=
  s.ble_cbuf.size_mask = CSIZE - 1 ∧ s.ble_cbuf.read_ptr < CSIZE ∧ s.ble_cbuf.write_ptr < CSIZE

instance cursors_ok.decidable (s : System) : Decidable (cursors_ok s) := by
  unfold cursors_ok
  infer_instance

/-- The state after a push of 63 bytes, which fills the free space exactly, a pop in test
mode and a push of "hi", from the initialised ring buffer. -/
def ring_demo : System :=
  match ring_run [RingCall.push (List.replicate 63 65), RingCall.pop true,
      RingCall.push [104, 105]] (ble_circ_init boot) with
  | .ok s => s
  | .error e => e.2

/-! ## app.c of the Energy Mode lab -/

/-- `scheduled_letimer0_uf_cb` of the Energy Mode lab: unblock the level that
`current_block_energy_mode` reports and block the next one, `EM0` after `EM4`. -/
def Energy_Mode_Lab.scheduled_letimer0_uf_cb (s : System) : Result System := do
  EFM_ASSERT (decide (get_scheduled_events s &&& LETIMER0_UF_CB ≠ 0)) s
  let s1 := remove_scheduled_event LETIMER0_UF_CB s
  let currentEM := current_block_energy_mode s1
  let s2 ← sleep_unblock_mode currentEM s1
  if currentEM < EM4 then
    sleep_block_mode (currentEM + 1) s2
  else
    sleep_block_mode EM0 s2

/-- The handler invoked `k` times, each time after the timer has raised its event. -/
def Energy_Mode_Lab.uf_invocations : Nat → System → Result System
  | 0, s => pure s
  | k + 1, s =>
    Energy_Mode_Lab.scheduled_letimer0_uf_cb (add_scheduled_event LETIMER0_UF_CB s)
      >>= Energy_Mode_Lab.uf_invocations k

/-! ## Vocabulary of the bus engine runs -/

/-- The values written to `CMD` of the peripheral of the transaction, oldest first. -/
def cmd_log (s : System) : List Nat :=
  (s.i2c_regs s.i2c_cmd.i2c).CMD

/-- The values written to `TXDATA` of the peripheral of the transaction, oldest first. -/
def txdata_log (s : System) : List Nat :=
  (s.i2c_regs s.i2c_cmd.i2c).TXDATA

/-- A step of the bus engine: a call of `i2c_start`, or an interrupt of the bus
peripheral. -/
inductive BusStep where
  | start (i2c : I2C_Periph) (device_address register_address : Nat) (rw : Bool)
      (rx_data tx_data : Cell) (num_bytes event_cb : Nat)
  | irq (q : I2cIrq)
deriving DecidableEq, Repr

/-- Perform one step of the bus engine. -/
def BusStep.run : BusStep → System → Result System
  | BusStep.start i2c device_address register_address rw rx_data tx_data num_bytes event_cb, s =>
    i2c_start i2c device_address register_address rw rx_data tx_data num_bytes event_cb s
  | BusStep.irq q, s => q.run s

/-- Perform a sequence of steps of the bus engine, first step first, stopping at the first
step that does not return. -/
def bus_run : List BusStep → System → Result System
  | [], s => pure s
  | c :: cs, s => c.run s >>= bus_run cs

/-- What a step that returns does to the block table: `i2c_start` blocks `I2C_EM_BLOCK`, the
MSTOP interrupt unblocks it, the other interrupts do nothing. -/
def BusStep.table_effect : BusStep → List Int → List Int
  | BusStep.start _ _ _ _ _ _ _ _, t => t.set I2C_EM_BLOCK 1
  | BusStep.irq I2cIrq.MSTOP, t => t.set I2C_EM_BLOCK 0
  | BusStep.irq _, t => t

/-- What a step that returns does to the busy flag: `i2c_start` sets it, the MSTOP
interrupt clears it, the other interrupts keep it. -/
def BusStep.busy_effect : BusStep → Bool → Bool
  | BusStep.start _ _ _ _ _ _ _ _, _ => true
  | BusStep.irq I2cIrq.MSTOP, _ => false
  | BusStep.irq _, b => b

/-- The byte the write path forms from the transmit cell when the byte counter, already
decremented, is `k`: `*tx_data << (SHIFT * k)` truncated to `uint8_t`, as in
`i2c_send_next_byte`. -/
def tx_byte (s : System) (k : Nat) : Nat :=
  ((s.load s.i2c_cmd.tx_data <<< ((SHIFT * k) % U32)) % U32) % U8

end Firmware

/-! # Properties -/

namespace Firmware

/-! ## Bitwise arithmetic on machine words -/

theorem testBit_not32 (x i : Nat) : (not32 x).testBit i = (decide (i < 32) && !x.testBit i) := by
  unfold not32 U32
  rw [Nat.testBit_xor, Nat.testBit_two_pow_sub_one, Nat.testBit_mod_two_pow]
  by_cases h : i < 32 <;> simp [h]

theorem and_not32_zero (x : Nat) (h : x < U32) : x &&& not32 0 = x := by
  apply Nat.eq_of_testBit_eq
  intro i
  rw [Nat.testBit_and, testBit_not32]
  by_cases hi : i < 32
  · simp [hi]
  · have : x.testBit i = false := by
      apply Nat.testBit_lt_two_pow
      exact lt_of_lt_of_le h (Nat.pow_le_pow_right (show 0 < 2 by decide) (by omega))
    simp [this]

theorem testBit_byte_high (b j : Nat) (hb : b < 256) (hj : 8 ≤ j) : b.testBit j = false := by
  apply Nat.testBit_lt_two_pow
  exact lt_of_lt_of_le hb (Nat.pow_le_pow_right (show 0 < 2 by decide) hj)

theorem testBit_0xff (j : Nat) : Nat.testBit 0xff j = decide (j < 8) :=
  Nat.testBit_two_pow_sub_one 8 j

theorem two_bytes_msb_first (b1 b0 : Nat) (h1 : b1 < 256) (h0 : b0 < 256) :
    (((((0 &&& not32 (0xff <<< 8)) % U32 ||| (b1 <<< 8) % U32) % U32) &&& not32 (0xff <<< 0)) % U32
      ||| (b0 <<< 0) % U32) % U32 = b1 * 256 + b0 := by
  have e : b1 * 256 + b0 = 2 ^ 8 * b1 ||| b0 := by
    rw [← Nat.mul_add_lt_is_or (by simpa using h0)]; ring
  rw [e]
  apply Nat.eq_of_testBit_eq
  intro i
  simp only [U32, Nat.testBit_mod_two_pow, Nat.testBit_and, Nat.testBit_or, testBit_not32,
    Nat.testBit_shiftLeft, testBit_0xff, Nat.zero_testBit, Nat.testBit_mul_pow_two]
  by_cases hi : 8 ≤ i
  · have hb0 := testBit_byte_high b0 i h0 hi
    by_cases hj : 16 ≤ i
    · have hb1 := testBit_byte_high b1 (i - 8) h1 (by omega)
      simp [hb0, hb1]
    · have : i < 32 := by omega
      simp [hb0, hi, this]
  · have : i < 32 := by omega
    simp [hi, this]




/-! ## Event scheduler -/

theorem sched_run_pending (cs : List SchedCall) :
    ∀ s : System, s.event_scheduled < U32 → no_add_after_remove cs = true →
      (sched_run cs s).event_scheduled
        = (s.event_scheduled ||| added_mask cs) &&& not32 (removed_mask cs) := by
  induction cs with
  | nil =>
    intro s hs _
    simp only [sched_run, added_mask, removed_mask, Nat.or_zero]
    exact (and_not32_zero _ hs).symm
  | cons c cs ih =>
    intro s hs h
    cases c with
    | add e =>
      simp only [no_add_after_remove] at h
      have hs1 : (add_scheduled_event e s).event_scheduled < U32 :=
        Nat.or_lt_two_pow hs (Nat.mod_lt _ (by decide))
      simp only [sched_run, SchedCall.run, added_mask, removed_mask, ih _ hs1 h]
      simp only [add_scheduled_event, Nat.or_assoc]
    | remove e =>
      simp only [no_add_after_remove, Bool.and_eq_true, beq_iff_eq] at h
      obtain ⟨hd, h⟩ := h
      have hs1 : (remove_scheduled_event e s).event_scheduled < U32 :=
        lt_of_le_of_lt Nat.and_le_left hs
      simp only [sched_run, SchedCall.run, added_mask, removed_mask, ih _ hs1 h]
      simp only [remove_scheduled_event]
      apply Nat.eq_of_testBit_eq
      intro i
      have hb := congrArg (fun x => x.testBit i) hd
      simp only [Nat.testBit_and, Nat.zero_testBit] at hb
      simp only [Nat.testBit_and, Nat.testBit_or, testBit_not32]
      unfold U32 at hb ⊢
      rw [Nat.testBit_mod_two_pow] at hb ⊢
      revert hb
      cases s.event_scheduled.testBit i <;> cases (added_mask cs).testBit i <;>
        cases e.testBit i <;> cases (removed_mask cs).testBit i <;>
        cases (decide (i < 32)) <;> simp

/-- C9: starting from `scheduler_open`, after every sequence of `add_scheduled_event` and
`remove_scheduled_event` calls in which no bit is added after it has been removed,
`get_scheduled_events` is the bitwise OR of the added masks AND NOT the bitwise OR of the
removed masks. -/
theorem scheduler_bitmask_arithmetic (cs : List SchedCall) (s : System)
    (h : no_add_after_remove cs = true) :
    get_scheduled_events (sched_run cs (scheduler_open s))
      = added_mask cs &&& not32 (removed_mask cs) := by
  have := sched_run_pending cs (scheduler_open s) (by simp [scheduler_open, U32]) h
  simpa [get_scheduled_events, scheduler_open] using this

theorem scheduler_bitmask_arithmetic_witness :
    no_add_after_remove
        [SchedCall.add 5, SchedCall.add 0x30, SchedCall.remove 4, SchedCall.remove 0x10] = true
    ∧ get_scheduled_events (sched_run
        [SchedCall.add 5, SchedCall.add 0x30, SchedCall.remove 4, SchedCall.remove 0x10]
        (scheduler_open boot))
      = added_mask
          [SchedCall.add 5, SchedCall.add 0x30, SchedCall.remove 4, SchedCall.remove 0x10]
        &&& not32 (removed_mask
          [SchedCall.add 5, SchedCall.add 0x30, SchedCall.remove 4, SchedCall.remove 0x10]) :=
  ⟨by decide, scheduler_bitmask_arithmetic _ boot (by decide)⟩

/-! ## Sleep gate -/

theorem getD_set (l : List α) (i j : Nat) (a d : α) :
    (l.set i a).getD j d = if i = j ∧ i < l.length then a else l.getD j d := by
  simp only [List.getD_eq_getElem?_getD, List.getElem?_set]
  by_cases h : i = j
  · subst h
    by_cases hl : i < l.length
    · simp [hl]
    · simp [hl, List.getElem?_eq_none (Nat.le_of_not_lt hl)]
  · simp [h]

theorem sleep_block_mode_ok (EM : Nat) (s : System) :
    sleep_block_mode EM s = .ok { s with lowest_energy_mode := s.lowest_energy_mode.set EM 1 } := by
  have h : (s.lowest_energy_mode.set EM 1).getD EM 0 < 5 := by
    rw [getD_set]
    by_cases hlt : EM < s.lowest_energy_mode.length
    · simp [hlt]
    · rw [if_neg (fun h => hlt h.2), List.getD_eq_default _ _ (Nat.le_of_not_lt hlt)]
      decide
  simp only [sleep_block_mode, EFM_ASSERT, h, decide_True, if_true, bind, Except.bind, pure,
    Except.pure]

theorem sleep_unblock_mode_ok (EM : Nat) (s : System) :
    sleep_unblock_mode EM s = .ok { s with lowest_energy_mode := s.lowest_energy_mode.set EM 0 } := by
  have h : (s.lowest_energy_mode.set EM 0).getD EM 0 ≥ 0 := by
    rw [getD_set]
    by_cases hlt : EM < s.lowest_energy_mode.length
    · simp [hlt]
    · rw [if_neg (fun h => hlt h.2), List.getD_eq_default _ _ (Nat.le_of_not_lt hlt)]
  simp only [sleep_unblock_mode, EFM_ASSERT, h, decide_True, if_true, bind, Except.bind, pure,
    Except.pure]

@[simp] theorem i2c_write_CMD_i2c_cmd (p : I2C_Periph) (v : Nat) (s : System) :
    (i2c_write_CMD p v s).i2c_cmd = s.i2c_cmd := by cases p <;> rfl
@[simp] theorem i2c_write_TXDATA_i2c_cmd (p : I2C_Periph) (v : Nat) (s : System) :
    (i2c_write_TXDATA p v s).i2c_cmd = s.i2c_cmd := by cases p <;> rfl

theorem i2c_start_ok (i2c : I2C_Periph) (device_address register_address : Nat) (rw : Bool)
    (rx_data tx_data : Cell) (num_bytes event_cb : Nat) (s : System)
    (hidle : (s.i2c_regs i2c).STATE &&& I2C_STATE_STATE_MASK = I2C_STATE_STATE_IDLE) :
    i2c_start i2c device_address register_address rw rx_data tx_data num_bytes event_cb s
      = .ok (i2c_write_TXDATA i2c ((((device_address % U32) <<< 1) % U32) ||| WRITE)
          (i2c_write_CMD i2c I2C_CMD_START
            { s with
              lowest_energy_mode := s.lowest_energy_mode.set I2C_EM_BLOCK 1
              i2c_cmd :=
                { current_state := i2c_states.SEND_DEVICE_ADDR
                  i2c := i2c
                  device_address := device_address % U32
                  register_address := register_address % U32
                  rw := rw
                  rx_data := rx_data
                  tx_data := tx_data
                  num_bytes := num_bytes % U32
                  sm_busy := true
                  event_cb := event_cb % U32 } })) := by
  simp only [i2c_start, EFM_ASSERT, hidle, decide_True, if_true, sleep_block_mode_ok, bind,
    Except.bind, pure, Except.pure, i2c_write_CMD_i2c_cmd]

theorem i2c_ack_SEND_DEVICE_ADDR (s : System)
    (h : s.i2c_cmd.current_state = i2c_states.SEND_DEVICE_ADDR) :
    i2c_ack s = .ok (set_i2c_state i2c_states.SEND_REGISTER_ADDR
      (i2c_write_TXDATA s.i2c_cmd.i2c s.i2c_cmd.register_address s)) := by
  simp only [i2c_ack, h]; rfl

theorem i2c_ack_SEND_REGISTER_ADDR_read (s : System)
    (h : s.i2c_cmd.current_state = i2c_states.SEND_REGISTER_ADDR) (hrw : s.i2c_cmd.rw = true) :
    i2c_ack s = .ok (i2c_write_TXDATA s.i2c_cmd.i2c
        (((s.i2c_cmd.device_address <<< 1) % U32) ||| READ)
        (i2c_write_CMD s.i2c_cmd.i2c I2C_CMD_START
          (set_i2c_state i2c_states.WAIT_CONVERSION s))) := by
  simp only [i2c_ack, h, hrw, if_true, i2c_write_CMD_i2c_cmd, set_i2c_state]; rfl

theorem i2c_ack_WAIT_CONVERSION (s : System)
    (h : s.i2c_cmd.current_state = i2c_states.WAIT_CONVERSION) :
    i2c_ack s = .ok (set_i2c_state i2c_states.DATA_READ s) := by
  simp only [i2c_ack, h]; rfl

theorem i2c_rxdatav_more (s : System)
    (h : s.i2c_cmd.current_state = i2c_states.DATA_READ)
    (hn : (i2c_receive_byte s).i2c_cmd.num_bytes > 0) :
    i2c_rxdatav s = .ok (i2c_write_CMD (i2c_receive_byte s).i2c_cmd.i2c I2C_CMD_ACK
      (i2c_receive_byte s)) := by
  simp only [i2c_rxdatav, h]
  rw [if_pos hn]; rfl

theorem i2c_rxdatav_last (s : System)
    (h : s.i2c_cmd.current_state = i2c_states.DATA_READ)
    (hn : ¬ (i2c_receive_byte s).i2c_cmd.num_bytes > 0) :
    i2c_rxdatav s = .ok (set_i2c_state i2c_states.SEND_STOP_CMD
      (i2c_write_CMD (i2c_receive_byte s).i2c_cmd.i2c I2C_CMD_STOP
        (i2c_write_CMD (i2c_receive_byte s).i2c_cmd.i2c I2C_CMD_NACK (i2c_receive_byte s)))) := by
  simp only [i2c_rxdatav, h]
  rw [if_neg hn]
  simp only [i2c_write_CMD_i2c_cmd]; rfl

theorem i2c_mstop_SEND_STOP_CMD (s : System)
    (h : s.i2c_cmd.current_state = i2c_states.SEND_STOP_CMD) :
    i2c_mstop s = .ok (add_scheduled_event s.i2c_cmd.event_cb
      { s with
        i2c_cmd := { s.i2c_cmd with
          current_state := i2c_states.SEND_DEVICE_ADDR, sm_busy := false }
        lowest_energy_mode := s.lowest_energy_mode.set I2C_EM_BLOCK 0 }) := by
  simp only [i2c_mstop, h, sleep_unblock_mode_ok, bind, Except.bind, pure, Except.pure,
    set_i2c_state]


theorem ok_bind {α β : Type} (a : α) (f : α → Result β) : (Except.ok a >>= f) = f a := rfl

theorem bind_ok {α β : Type} (x : Result α) (f : α → Result β) (b : β)
    (h : (x >>= f) = .ok b) : ∃ a, x = .ok a ∧ f a = .ok b := by
  cases x with
  | error e => cases h
  | ok a => exact ⟨a, rfl, h⟩

theorem assert_bind_ok {β : Type} (c : Bool) (s : System) (k : Unit → Result β) (b : β)
    (h : (EFM_ASSERT c s >>= k) = .ok b) : c = true ∧ k () = .ok b := by
  cases c with
  | false => cases h
  | true => exact ⟨rfl, h⟩

theorem or_and_self_right (x e : Nat) : (x ||| e) &&& e = e := by
  apply Nat.eq_of_testBit_eq
  intro i
  simp only [Nat.testBit_and, Nat.testBit_or]
  cases x.testBit i <;> cases e.testBit i <;> rfl

theorem i2c_run_cons (q : I2cIrq) (qs : List I2cIrq) (s : System) :
    i2c_run (q :: qs) s = (q.run s >>= i2c_run qs) := rfl

/-- C5: from an idle bus peripheral with the receive cell zero, `i2c_start` for a two-byte
read of register 0xF3 of device 0x40 with completion event `E`, followed by the interrupts
ACK, ACK, ACK, RXDATAV(b1), RXDATAV(b0), MSTOP, hits no assertion and ends with `i2c_busy`
false, `E` set in the pending set and the receive cell equal to `b1 * 256 + b0`. -/
theorem bus_read_scenario (s : System) (p : I2C_Periph) (E b1 b0 : Nat)
    (hidle : (s.i2c_regs p).STATE &&& I2C_STATE_STATE_MASK = I2C_STATE_STATE_IDLE)
    (hrx : s.si7021_i2c_rx_data = 0) (hE : E < U32) (h1 : b1 < 256) (h0 : b0 < 256) :
    ∃ s1, (i2c_start p SI7021_DEVICE_ADDRESS SI7021_READ_TEMP_CMD true
            Cell.si7021_i2c_rx_data Cell.si7021_i2c_tx_data TWO_BYTES E s
          >>= i2c_run [I2cIrq.ACK, I2cIrq.ACK, I2cIrq.ACK, I2cIrq.RXDATAV b1,
                I2cIrq.RXDATAV b0, I2cIrq.MSTOP]) = .ok s1
      ∧ i2c_busy s1 = false
      ∧ get_scheduled_events s1 &&& E = E
      ∧ s1.si7021_i2c_rx_data = b1 * 256 + b0 := by
  have n1 : (TWO_BYTES % U32 + U32 - 1) % U32 > 0 := by decide
  have n0 : ¬ ((TWO_BYTES % U32 + U32 - 1) % U32 + U32 - 1) % U32 > 0 := by decide
  have k1 : SHIFT * ((TWO_BYTES % U32 + U32 - 1) % U32) % U32 = 8 := by decide
  have k0 : SHIFT * (((TWO_BYTES % U32 + U32 - 1) % U32 + U32 - 1) % U32) % U32 = 0 := by
    decide
  rw [i2c_start_ok _ _ _ _ _ _ _ _ _ hidle]
  cases p
  all_goals simp only [i2c_write_TXDATA, i2c_write_CMD, System.set_i2c_regs,
    System.i2c_regs]
  all_goals rw [ok_bind, i2c_run_cons, I2cIrq.run, i2c_ack_SEND_DEVICE_ADDR _ (by rfl)]
  all_goals simp only [i2c_write_TXDATA, i2c_write_CMD, set_i2c_state, System.set_i2c_regs,
    System.i2c_regs]
  all_goals rw [ok_bind, i2c_run_cons, I2cIrq.run,
    i2c_ack_SEND_REGISTER_ADDR_read _ (by rfl) (by rfl)]
  all_goals simp only [i2c_write_TXDATA, i2c_write_CMD, set_i2c_state, System.set_i2c_regs,
    System.i2c_regs]
  all_goals rw [ok_bind, i2c_run_cons, I2cIrq.run, i2c_ack_WAIT_CONVERSION _ (by rfl)]
  all_goals simp only [i2c_write_TXDATA, i2c_write_CMD, set_i2c_state, System.set_i2c_regs,
    System.i2c_regs]
  all_goals rw [ok_bind, i2c_run_cons, I2cIrq.run]
  all_goals simp only [i2c_write_TXDATA, i2c_write_CMD, set_i2c_state, System.set_i2c_regs,
    System.i2c_regs]
  all_goals rw [i2c_rxdatav_more _ (by rfl) (by exact n1)]
  all_goals simp only [i2c_write_TXDATA, i2c_write_CMD, set_i2c_state, System.set_i2c_regs,
    System.i2c_regs, i2c_receive_byte, System.load, System.store]
  all_goals rw [ok_bind, i2c_run_cons, I2cIrq.run]
  all_goals simp only [i2c_write_TXDATA, i2c_write_CMD, set_i2c_state, System.set_i2c_regs,
    System.i2c_regs]
  all_goals rw [i2c_rxdatav_last _ (by rfl) (by exact n0)]
  all_goals simp only [i2c_write_TXDATA, i2c_write_CMD, set_i2c_state, System.set_i2c_regs,
    System.i2c_regs, i2c_receive_byte, System.load, System.store]
  all_goals rw [ok_bind, i2c_run_cons, I2cIrq.run, i2c_mstop_SEND_STOP_CMD _ (by rfl)]
  all_goals simp only [add_scheduled_event]
  all_goals rw [ok_bind]
  all_goals refine ⟨_, rfl, rfl, ?_, ?_⟩
  · simp only [get_scheduled_events, Nat.mod_mod, Nat.mod_eq_of_lt hE]
    exact or_and_self_right _ _
  · simp only [hrx, k1, k0]
    exact two_bytes_msb_first b1 b0 h1 h0
  · simp only [get_scheduled_events, Nat.mod_mod, Nat.mod_eq_of_lt hE]
    exact or_and_self_right _ _
  · simp only [hrx, k1, k0]
    exact two_bytes_msb_first b1 b0 h1 h0

theorem bus_read_scenario_witness :
    (boot.i2c_regs I2C_Periph.I2C0).STATE &&& I2C_STATE_STATE_MASK = I2C_STATE_STATE_IDLE
    ∧ boot.si7021_i2c_rx_data = 0 ∧ 8 < U32 ∧ 0x12 < 256 ∧ 0x34 < 256
    ∧ ∃ s1, (i2c_start I2C_Periph.I2C0 SI7021_DEVICE_ADDRESS SI7021_READ_TEMP_CMD true
            Cell.si7021_i2c_rx_data Cell.si7021_i2c_tx_data TWO_BYTES 8 boot
          >>= i2c_run [I2cIrq.ACK, I2cIrq.ACK, I2cIrq.ACK, I2cIrq.RXDATAV 0x12,
                I2cIrq.RXDATAV 0x34, I2cIrq.MSTOP]) = .ok s1
      ∧ i2c_busy s1 = false
      ∧ get_scheduled_events s1 &&& 8 = 8
      ∧ s1.si7021_i2c_rx_data = 0x12 * 256 + 0x34 :=
  ⟨by decide, by decide, by decide, by decide, by decide,
    bus_read_scenario boot I2C_Periph.I2C0 8 0x12 0x34 (by decide) (by decide) (by decide)
      (by decide) (by decide)⟩

/-! ## Sleep gate: nested blocks -/

/-- C10: evaluation at `block(EM2); block(EM2); unblock(EM2)` after `sleep_open`.  In every
initial segment the unblocks of a level do not exceed its blocks, and one block of EM2 is
still outstanding at the end, yet the calls return and `current_block_energy_mode` reports
level 4, not level 2: the entry of a level is a flag, set to 1 and reset to 0, not a count. -/
theorem nested_block_is_lost :
    (∀ n EM, 0 ≤ outstanding EM
      ([SleepCall.block EM2, SleepCall.block EM2, SleepCall.unblock EM2].take n))
    ∧ outstanding EM2 [SleepCall.block EM2, SleepCall.block EM2, SleepCall.unblock EM2] = 1
    ∧ ∃ s, sleep_run [SleepCall.block EM2, SleepCall.block EM2, SleepCall.unblock EM2]
          (sleep_open boot) = .ok s
        ∧ current_block_energy_mode s = 4 := by
  refine ⟨?_, by decide, _, rfl, by decide⟩
  intro n EM
  rcases n with _ | _ | _ | n <;> simp [outstanding] <;> split <;> omega

/-! ## Bus engine: start while busy -/

/-- C6, as stated, fails: after a two-byte read has received its last byte the engine is in
its stop phase with `i2c_busy` true; when the peripheral reports its bus state idle,
`i2c_start` hits no assertion and overwrites the descriptor of the transaction in flight. -/
theorem i2c_start_while_busy_accepted :
    ∃ s, (i2c_start I2C_Periph.I2C0 SI7021_DEVICE_ADDRESS SI7021_READ_TEMP_CMD true
            Cell.si7021_i2c_rx_data Cell.si7021_i2c_tx_data TWO_BYTES 8 boot
          >>= i2c_run [I2cIrq.ACK, I2cIrq.ACK, I2cIrq.ACK, I2cIrq.RXDATAV 0x12,
                I2cIrq.RXDATAV 0x34]) = .ok s
      ∧ i2c_busy s = true
      ∧ s.i2c_cmd.current_state = i2c_states.SEND_STOP_CMD
      ∧ ∃ s1, i2c_start I2C_Periph.I2C0 SI7021_DEVICE_ADDRESS SI7021_READ_RH_CMD true
            Cell.si7021_i2c_rx_data Cell.si7021_i2c_tx_data ONE_BYTE 16 s = .ok s1
        ∧ s1.i2c_cmd ≠ s.i2c_cmd := by
  refine ⟨_, rfl, rfl, rfl, _, rfl, by decide⟩

/-- C6, amended: `i2c_start` called while the bus-state field of the peripheral's `STATE`
register is not idle stops at the fatal assertion, in the state of the call: the
descriptor of the transaction in flight is not modified. -/
theorem i2c_start_asserts_when_bus_not_idle (i2c : I2C_Periph)
    (device_address register_address : Nat) (rw : Bool) (rx_data tx_data : Cell)
    (num_bytes event_cb : Nat) (s : System)
    (h : (s.i2c_regs i2c).STATE &&& I2C_STATE_STATE_MASK ≠ I2C_STATE_STATE_IDLE) :
    i2c_start i2c device_address register_address rw rx_data tx_data num_bytes event_cb s
      = .error (Fault.assertion, s) := by
  simp only [i2c_start, EFM_ASSERT, h, decide_False, bind, Except.bind]
  rfl

theorem i2c_start_asserts_when_bus_not_idle_witness :
    (({ boot with I2C0 := { I2C_TypeDef.zero with STATE := 0x57 } } : System).i2c_regs
        I2C_Periph.I2C0).STATE &&& I2C_STATE_STATE_MASK ≠ I2C_STATE_STATE_IDLE
    ∧ i2c_start I2C_Periph.I2C0 SI7021_DEVICE_ADDRESS SI7021_READ_TEMP_CMD true
        Cell.si7021_i2c_rx_data Cell.si7021_i2c_tx_data TWO_BYTES 8
        { boot with I2C0 := { I2C_TypeDef.zero with STATE := 0x57 } }
      = .error (Fault.assertion, { boot with I2C0 := { I2C_TypeDef.zero with STATE := 0x57 } }) :=
  ⟨by decide, i2c_start_asserts_when_bus_not_idle _ _ _ _ _ _ _ _ _ (by decide)⟩

/-! ## Serial transmit engine -/

theorem leuart_run_cons (q : LeuartIrq) (qs : List LeuartIrq) (s : System) :
    leuart_run (q :: qs) s = (q.run s >>= leuart_run qs) := rfl

theorem leuart_run_append (qs rs : List LeuartIrq) :
    ∀ (s s1 : System), leuart_run qs s = .ok s1 → leuart_run (qs ++ rs) s = leuart_run rs s1 := by
  induction qs with
  | nil =>
    intro s s1 h
    cases h
    rfl
  | cons q qs ih =>
    intro s s1 h
    rw [leuart_run_cons] at h
    rw [List.cons_append, leuart_run_cons]
    cases hq : q.run s with
    | error e => rw [hq] at h; cases h
    | ok s2 =>
      rw [hq, ok_bind] at h
      rw [ok_bind]
      exact ih s2 s1 h

theorem bytes_frame (s s1 : System) (h : s1.popped_string = s.popped_string) :
    ∀ (k : Nat) (p : CharPtr), CharPtr.bytes s1 k p = CharPtr.bytes s k p := by
  intro k
  induction k with
  | zero => intro p; rfl
  | succ k ih =>
    intro p
    simp only [CharPtr.bytes, ih]
    cases p <;> simp [CharPtr.deref, h]

theorem bind_pure_self {α : Type} (x : Result α) : (x >>= pure) = x := by
  cases x <;> rfl

theorem flag_and (x f g : Nat) : (f &&& x) &&& g = x &&& (f &&& g) := by
  rw [Nat.and_comm f x, Nat.and_assoc]

/-- A TXBL flag whose enable bit is set reaches `leuart_txbl`, and nothing else is called. -/
theorem leuart_irq_txbl_enabled (s : System)
    (h : s.LEUART0.IEN &&& LEUART_IEN_TXBL ≠ 0) : LeuartIrq.TXBL.run s = leuart_txbl s := by
  have e1 : LEUART_IEN_TXBL &&& LEUART_IEN_TXBL = LEUART_IEN_TXBL := by decide
  have e2 : LEUART_IEN_TXBL &&& LEUART_IEN_TXC = 0 := by decide
  unfold LeuartIrq.run LEUART0_IRQHandler LeuartIrq.flag
  simp only [flag_and, e1, e2, Nat.and_zero, ne_eq, not_true_eq_false, if_false]
  rw [if_pos h]
  exact bind_pure_self _

/-- A TXBL flag whose enable bit is clear is ignored: the handler returns at once. -/
theorem leuart_irq_txbl_masked (s : System)
    (h : s.LEUART0.IEN &&& LEUART_IEN_TXBL = 0) : LeuartIrq.TXBL.run s = .ok s := by
  have e1 : LEUART_IEN_TXBL &&& LEUART_IEN_TXBL = LEUART_IEN_TXBL := by decide
  have e2 : LEUART_IEN_TXBL &&& LEUART_IEN_TXC = 0 := by decide
  unfold LeuartIrq.run LEUART0_IRQHandler LeuartIrq.flag
  simp only [flag_and, e1, e2, h, Nat.and_zero, ne_eq, not_true_eq_false, if_false]
  rfl

/-- A TXC flag whose enable bit is set reaches `leuart_txc`, and nothing else is called. -/
theorem leuart_irq_txc_enabled (s : System)
    (h : s.LEUART0.IEN &&& LEUART_IEN_TXC ≠ 0) : LeuartIrq.TXC.run s = leuart_txc s := by
  have e1 : LEUART_IEN_TXC &&& LEUART_IEN_TXC = LEUART_IEN_TXC := by decide
  have e2 : LEUART_IEN_TXC &&& LEUART_IEN_TXBL = 0 := by decide
  unfold LeuartIrq.run LEUART0_IRQHandler LeuartIrq.flag
  simp only [flag_and, e1, e2, Nat.and_zero, ne_eq, not_true_eq_false, if_false]
  exact if_pos h

/-- A TXC flag whose enable bit is clear is ignored: the handler returns at once. -/
theorem leuart_irq_txc_masked (s : System)
    (h : s.LEUART0.IEN &&& LEUART_IEN_TXC = 0) : LeuartIrq.TXC.run s = .ok s := by
  have e1 : LEUART_IEN_TXC &&& LEUART_IEN_TXC = LEUART_IEN_TXC := by decide
  have e2 : LEUART_IEN_TXC &&& LEUART_IEN_TXBL = 0 := by decide
  unfold LeuartIrq.run LEUART0_IRQHandler LeuartIrq.flag
  simp only [flag_and, e1, e2, h, Nat.and_zero, ne_eq, not_true_eq_false, if_false]
  rfl

/-- While bytes remain, each TXBL interrupt, enabled as `leuart_start` leaves it, writes the
next byte to `TXDATA` and advances the pointer and the count; nothing else changes. -/
theorem leuart_txbl_drain (k : Nat) :
    ∀ s : System, s.leuart_cmd.current_state = leuart_states.DATA_TRANSMISSION →
      s.leuart_cmd.string_count + k ≤ s.leuart_cmd.string_len →
      s.leuart_cmd.string_len < U32 →
      s.LEUART0.IEN &&& LEUART_IEN_TXBL ≠ 0 →
      leuart_run (List.replicate k LeuartIrq.TXBL) s
        = .ok { s with
            LEUART0 := { s.LEUART0 with
              TXDATA := s.LEUART0.TXDATA ++ CharPtr.bytes s k s.leuart_cmd.string }
            leuart_cmd := { s.leuart_cmd with
              string := CharPtr.advance k s.leuart_cmd.string
              string_count := s.leuart_cmd.string_count + k } } := by
  induction k with
  | zero =>
    intro s _ _ _ _
    simp [leuart_run, CharPtr.bytes, CharPtr.advance, pure, Except.pure]
  | succ k ih =>
    intro s hst hle hlt hen
    have hc : s.leuart_cmd.string_count < s.leuart_cmd.string_len := by omega
    have hm : (s.leuart_cmd.string_count + 1) % U32 = s.leuart_cmd.string_count + 1 :=
      Nat.mod_eq_of_lt (by omega)
    rw [List.replicate_succ, leuart_run_cons, leuart_irq_txbl_enabled s hen]
    simp only [leuart_txbl, hst, hc, if_true, hm, pure, Except.pure]
    rw [ok_bind, ih _ (by rfl) (by simp only; omega) (by exact hlt) (by exact hen)]
    simp only [CharPtr.bytes, CharPtr.advance, List.append_assoc, List.singleton_append,
      Nat.add_assoc, Nat.add_comm 1 k]
    rw [bytes_frame s _ (by rfl)]


theorem leuart_start_ok (string : CharPtr) (string_len : Nat) (s : System)
    (hidle : s.LEUART0.STATUS &&& LEUART_STATUS_TXIDLE ≠ 0) :
    leuart_start string string_len s
      = .ok { s with
          lowest_energy_mode := s.lowest_energy_mode.set LEUART_TX_EM 1
          leuart_cmd :=
            { current_state := leuart_states.DATA_TRANSMISSION
              string := string
              string_len := string_len % U32
              string_count := 0 }
          leuart0_tx_busy := true
          LEUART0 := { s.LEUART0 with IEN := s.LEUART0.IEN ||| LEUART_IEN_TXBL } } := by
  simp only [leuart_start, hidle, if_false, sleep_block_mode_ok, bind, Except.bind, pure,
    Except.pure]

theorem leuart_txbl_close (s : System)
    (hst : s.leuart_cmd.current_state = leuart_states.DATA_TRANSMISSION)
    (hc : ¬ s.leuart_cmd.string_count < s.leuart_cmd.string_len) :
    leuart_txbl s
      = .ok { s with
          LEUART0 := { s.LEUART0 with
            IEN := (s.LEUART0.IEN &&& not32 LEUART_IEN_TXBL) ||| LEUART_IEN_TXC }
          leuart_cmd := { s.leuart_cmd with current_state := leuart_states.CLOSE } } := by
  simp only [leuart_txbl, hst, hc, if_false, pure, Except.pure]

theorem leuart_txc_CLOSE (s : System)
    (hst : s.leuart_cmd.current_state = leuart_states.CLOSE) :
    leuart_txc s
      = .ok { s with
          LEUART0 := { s.LEUART0 with
            IEN := s.LEUART0.IEN &&& (not32 LEUART_IEN_TXC &&& not32 LEUART_IEN_TXBL) }
          leuart0_tx_busy := false
          event_scheduled := s.event_scheduled ||| (s.tx_done_evt % U32)
          lowest_energy_mode := s.lowest_energy_mode.set LEUART_TX_EM 0
          leuart_cmd := { s.leuart_cmd with current_state := leuart_states.INITIALIZATION } } := by
  simp only [leuart_txc, hst, add_scheduled_event, sleep_unblock_mode_ok, bind, Except.bind,
    pure, Except.pure]

theorem leuart_run_one (q : LeuartIrq) (s : System) : leuart_run [q] s = q.run s := by
  rw [leuart_run_cons]
  cases q.run s <;> rfl

/-- C8, as stated, fails: after `leuart_start` with the two bytes of "hi", `BLE_TX_DONE_CB`
being the registered event, two TXBL interrupts followed by one TXC interrupt hit no
assertion, but the engine is not back in its idle state: after the two bytes only TXBL is
enabled, `LEUART0_IRQHandler` does not call `leuart_txc` for the TXC flag, and the engine is
still in `DATA_TRANSMISSION` with the busy flag set and the event not raised. -/
theorem leuart_two_txbl_then_txc_stays_busy :
    ∃ s1, leuart_start (CharPtr.const [104, 105] 0) 2
        { boot with tx_done_evt := BLE_TX_DONE_CB } = .ok s1
      ∧ ∃ s2, leuart_run [LeuartIrq.TXBL, LeuartIrq.TXBL, LeuartIrq.TXC] s1 = .ok s2
          ∧ s2.LEUART0.TXDATA = [104, 105]
          ∧ s2.LEUART0.IEN = LEUART_IEN_TXBL
          ∧ s2.leuart_cmd.current_state = leuart_states.DATA_TRANSMISSION
          ∧ s2.leuart_cmd.current_state ≠ leuart_states.INITIALIZATION
          ∧ leuart_tx_busy s2 = true
          ∧ get_scheduled_events s2 &&& BLE_TX_DONE_CB = 0 :=
  ⟨_, rfl, _, rfl, rfl, rfl, rfl, by decide, rfl, rfl⟩

/-- C8, amended: after `leuart_start` with a message of length `n`, `n + 1` TXBL interrupts
(`n` that write a byte and one that finds the message drained) followed by one TXC interrupt
hit no assertion and leave the engine in `INITIALIZATION` with the busy flag clear; the
pending set is untouched until the TXC interrupt, which ORs `tx_done_evt` into it. -/
theorem leuart_completion (string : CharPtr) (n : Nat) (s : System)
    (hidle : s.LEUART0.STATUS &&& LEUART_STATUS_TXIDLE ≠ 0) (hn : n < U32) :
    ∃ s1 s2 s3, leuart_start string n s = .ok s1
      ∧ leuart_run (List.replicate (n + 1) LeuartIrq.TXBL) s1 = .ok s2
      ∧ get_scheduled_events s2 = get_scheduled_events s
      ∧ leuart_run (List.replicate (n + 1) LeuartIrq.TXBL ++ [LeuartIrq.TXC]) s1 = .ok s3
      ∧ s3.leuart_cmd.current_state = leuart_states.INITIALIZATION
      ∧ leuart_tx_busy s3 = false
      ∧ get_scheduled_events s3 = get_scheduled_events s ||| (s.tx_done_evt % U32) := by
  have hs1 := leuart_start_ok string n s hidle
  rw [Nat.mod_eq_of_lt hn] at hs1
  obtain ⟨s1, h1, c1, e1, t1, i1⟩ : ∃ s1, leuart_start string n s = .ok s1
      ∧ s1.leuart_cmd = ⟨leuart_states.DATA_TRANSMISSION, string, n, 0⟩
      ∧ s1.event_scheduled = s.event_scheduled ∧ s1.tx_done_evt = s.tx_done_evt
      ∧ s1.LEUART0.IEN = s.LEUART0.IEN ||| LEUART_IEN_TXBL :=
    ⟨_, hs1, rfl, rfl, rfl, rfl⟩
  have hen1 : s1.LEUART0.IEN &&& LEUART_IEN_TXBL ≠ 0 := by
    rw [i1, or_and_self_right]; decide
  have hd := leuart_txbl_drain n s1 (by rw [c1]) (by rw [c1]; simp) (by rw [c1]; exact hn) hen1
  obtain ⟨s2, h2, c2, k2, l2, e2, t2, i2⟩ : ∃ s2,
      leuart_run (List.replicate n LeuartIrq.TXBL) s1 = .ok s2
      ∧ s2.leuart_cmd.current_state = leuart_states.DATA_TRANSMISSION
      ∧ s2.leuart_cmd.string_count = n ∧ s2.leuart_cmd.string_len = n
      ∧ s2.event_scheduled = s.event_scheduled ∧ s2.tx_done_evt = s.tx_done_evt
      ∧ s2.LEUART0.IEN = s1.LEUART0.IEN :=
    ⟨_, hd, by simp [c1], by simp [c1], by simp [c1], e1, t1, rfl⟩
  have hc := leuart_txbl_close s2 c2 (by rw [k2, l2]; exact Nat.lt_irrefl n)
  obtain ⟨s3, h3, c3, e3, t3, i3⟩ : ∃ s3, leuart_txbl s2 = .ok s3
      ∧ s3.leuart_cmd.current_state = leuart_states.CLOSE
      ∧ s3.event_scheduled = s.event_scheduled ∧ s3.tx_done_evt = s.tx_done_evt
      ∧ s3.LEUART0.IEN = (s2.LEUART0.IEN &&& not32 LEUART_IEN_TXBL) ||| LEUART_IEN_TXC :=
    ⟨_, hc, rfl, e2, t2, rfl⟩
  have hen3 : s3.LEUART0.IEN &&& LEUART_IEN_TXC ≠ 0 := by
    rw [i3, or_and_self_right]; decide
  have hrun : leuart_run (List.replicate (n + 1) LeuartIrq.TXBL) s1 = .ok s3 := by
    rw [List.replicate_succ', leuart_run_append _ _ _ _ h2, leuart_run_one,
      leuart_irq_txbl_enabled s2 (by rw [i2]; exact hen1)]
    exact h3
  have hx := leuart_txc_CLOSE s3 c3
  obtain ⟨s4, h4, c4, b4, e4⟩ : ∃ s4, leuart_txc s3 = .ok s4
      ∧ s4.leuart_cmd.current_state = leuart_states.INITIALIZATION
      ∧ s4.leuart0_tx_busy = false
      ∧ s4.event_scheduled = s3.event_scheduled ||| (s3.tx_done_evt % U32) :=
    ⟨_, hx, rfl, rfl, rfl⟩
  refine ⟨s1, s3, s4, h1, hrun, e3, ?_, c4, b4, ?_⟩
  · rw [leuart_run_append _ _ _ _ hrun, leuart_run_one, leuart_irq_txc_enabled s3 hen3]
    exact h4
  · simp only [get_scheduled_events, e4, e3, t3]

theorem leuart_completion_witness :
    boot.LEUART0.STATUS &&& LEUART_STATUS_TXIDLE ≠ 0 ∧ 2 < U32
    ∧ ∃ s1 s2 s3, leuart_start (CharPtr.const [104, 105] 0) 2 boot = .ok s1
      ∧ leuart_run (List.replicate (2 + 1) LeuartIrq.TXBL) s1 = .ok s2
      ∧ get_scheduled_events s2 = get_scheduled_events boot
      ∧ leuart_run (List.replicate (2 + 1) LeuartIrq.TXBL ++ [LeuartIrq.TXC]) s1 = .ok s3
      ∧ s3.leuart_cmd.current_state = leuart_states.INITIALIZATION
      ∧ leuart_tx_busy s3 = false
      ∧ get_scheduled_events s3 = get_scheduled_events boot ||| (boot.tx_done_evt % U32) :=
  ⟨by decide, by decide,
    leuart_completion (CharPtr.const [104, 105] 0) 2 boot (by decide) (by decide)⟩

/-! ## Transmit ring buffer -/

theorem mask_eq_mod (x : Nat) : x &&& (CSIZE - 1) = x % CSIZE :=
  Nat.and_pow_two_sub_one_eq_mod x 6

theorem ring_space (b : BLE_CIRCULAR_BUF) (enc : List Nat) (h : ring_matches b enc) (s : System)
    (hb : s.ble_cbuf = b) : ble_circ_space s = CSIZE - enc.length := by
  obtain ⟨_, hm, hr, hl, hw, _⟩ := h
  unfold ble_circ_space
  rw [hb, hm, mask_eq_mod, hw]
  unfold CSIZE U32 U8 at *
  omega

theorem set_at_length (pre : List Nat) (y x : Nat) (tl : List Nat) :
    (pre ++ y :: tl).set pre.length x = pre ++ x :: tl := by
  induction pre with
  | nil => rfl
  | cons a pre ih => simp [List.set, ih]

theorem getD_at_length (pre : List Nat) (y : Nat) (tl : List Nat) :
    (pre ++ y :: tl).getD pre.length 0 = y := by
  induction pre with
  | nil => rfl
  | cons a pre ih => simpa using ih

/-- One byte written at the write cursor extends the contents by that byte. -/
theorem write_byte_matches (b : BLE_CIRCULAR_BUF) (enc : List Nat) (v : Nat)
    (h : ring_matches b enc) (hroom : enc.length + 1 < CSIZE) :
    ring_matches (update_circ_wrtindex { b with cbuf := b.cbuf.set b.write_ptr v } 1)
      (enc ++ [v]) := by
  obtain ⟨hlen, hm, hr, hl, hw, hc⟩ := h
  refine ⟨by simpa [update_circ_wrtindex] using hlen, hm, hr, by simpa using hroom, ?_, ?_⟩
  · show ((b.write_ptr + 1) % U32) &&& b.size_mask = (b.read_ptr + (enc ++ [v]).length) % CSIZE
    rw [hm, mask_eq_mod, hw, List.length_append]
    unfold CSIZE U32 at *
    simp only [List.length_singleton]
    omega
  · intro j hj
    show (b.cbuf.set b.write_ptr v).getD ((b.read_ptr + j) % CSIZE) 0 = _
    rw [getD_set]
    rw [List.length_append, List.length_singleton] at hj
    by_cases hjl : j = enc.length
    · subst hjl
      have hwlt : b.write_ptr < b.cbuf.length := by
        rw [hlen, hw]; exact Nat.mod_lt _ (by decide)
      rw [if_pos ⟨hw, hwlt⟩, List.getD_append_right _ _ _ _ (Nat.le_refl _)]
      simp
    · have hjlt : j < enc.length := by omega
      have hne : ¬ (b.write_ptr = (b.read_ptr + j) % CSIZE ∧ b.write_ptr < b.cbuf.length) := by
        intro hh
        have := hh.1
        rw [hw] at this
        unfold CSIZE at *
        omega
      rw [if_neg hne, hc j hjlt, List.getD_append _ _ _ _ hjlt]


theorem push_loop_matches : ∀ (m pre post : List Nat) (b : BLE_CIRCULAR_BUF) (enc : List Nat),
    ring_matches b enc → enc.length + m.length < CSIZE → (∀ x ∈ m, x < U8) →
    ring_matches (push_loop (pre ++ m ++ post) pre.length m.length b) (enc ++ m) := by
  intro m
  induction m with
  | nil =>
    intro pre post b enc h _ _
    simpa [push_loop] using h
  | cons x m ih =>
    intro pre post b enc h hroom hx
    have hx8 : x % U8 = x := Nat.mod_eq_of_lt (hx x (List.mem_cons_self _ _))
    have hget : (pre ++ x :: m ++ post).getD pre.length 0 = x := by
      rw [List.append_assoc, List.cons_append]
      exact getD_at_length _ _ _
    rw [List.length_cons] at hroom
    have hstep := write_byte_matches b enc x h (by omega)
    have hrec := ih (pre ++ [x]) post _ (enc ++ [x]) hstep
      (by rw [List.length_append, List.length_singleton]; omega)
      (fun y hy => hx y (List.mem_cons_of_mem _ hy))
    simp only [List.length_cons, push_loop, hget, hx8]
    simpa [List.append_assoc] using hrec

/-- The byte at the read cursor is the first byte of the contents, and advancing the read
cursor drops it. -/
theorem read_byte_matches (b : BLE_CIRCULAR_BUF) (x : Nat) (enc : List Nat)
    (h : ring_matches b (x :: enc)) :
    b.cbuf.getD b.read_ptr 0 = x ∧ ring_matches (update_circ_readindex b 1) enc := by
  obtain ⟨hlen, hm, hr, hl, hw, hc⟩ := h
  rw [List.length_cons] at hl hw
  constructor
  · have := hc 0 (by simp)
    rwa [Nat.add_zero, Nat.mod_eq_of_lt hr] at this
  · have hnew : (update_circ_readindex b 1).read_ptr = (b.read_ptr + 1) % CSIZE := by
      show ((b.read_ptr + 1) % U32) &&& b.size_mask = _
      rw [hm, mask_eq_mod]
      unfold CSIZE U32 at *
      omega
    refine ⟨hlen, hm, ?_, by omega, ?_, ?_⟩
    · rw [hnew]; exact Nat.mod_lt _ (by decide)
    · rw [hnew]
      show b.write_ptr = _
      rw [hw]
      unfold CSIZE at *
      omega
    · intro j hj
      rw [hnew]
      have := hc (j + 1) (by simp; omega)
      rw [List.getD_cons_succ] at this
      rw [← this]
      show b.cbuf.getD _ 0 = b.cbuf.getD _ 0
      congr 1
      unfold CSIZE at *
      omega

theorem pop_loop_spec : ∀ (m pre mid post : List Nat) (s : System) (rest : List Nat),
    ring_matches s.ble_cbuf (m ++ rest) → s.popped_string = pre ++ mid ++ post →
    mid.length = m.length → pre.length + m.length ≤ CSIZE →
    ∃ b1, pop_loop pre.length m.length s
        = .ok { s with popped_string := pre ++ m ++ post, ble_cbuf := b1 }
      ∧ ring_matches b1 rest := by
  intro m
  induction m with
  | nil =>
    intro pre mid post s rest h hp hmid _
    have : mid = [] := List.length_eq_zero.mp hmid
    subst this
    refine ⟨s.ble_cbuf, ?_, h⟩
    have hp1 : pre ++ [] ++ post = s.popped_string := hp.symm
    simp only [pop_loop, List.length_nil]
    rw [hp1]
    rfl
  | cons x m ih =>
    intro pre mid post s rest h hp hmid hbound
    obtain ⟨y, mid1, rfl⟩ : ∃ y mid1, mid = y :: mid1 := by
      cases mid with
      | nil => simp at hmid
      | cons y mid1 => exact ⟨y, mid1, rfl⟩
    obtain ⟨hx, hnext⟩ := read_byte_matches s.ble_cbuf x (m ++ rest) h
    have hset : s.popped_string.set pre.length x = (pre ++ [x]) ++ mid1 ++ post := by
      rw [hp, List.append_assoc, List.cons_append, set_at_length]
      simp
    rw [List.length_cons] at hbound
    have hin : pre.length < CSIZE := by omega
    obtain ⟨b1, hb1, hr1⟩ := ih (pre ++ [x]) mid1 post
      { s with
        popped_string := s.popped_string.set pre.length (s.ble_cbuf.cbuf.getD s.ble_cbuf.read_ptr 0)
        ble_cbuf := update_circ_readindex s.ble_cbuf 1 }
      rest hnext (by rw [hx]; exact hset) (by simpa using hmid)
      (by rw [List.length_append, List.length_singleton]; omega)
    refine ⟨b1, ?_, hr1⟩
    rw [List.length_cons, pop_loop, if_pos hin]
    rw [List.length_append, List.length_singleton] at hb1
    rw [hb1]
    simp

theorem copy_loop_spec : ∀ (seg pre post1 pre2 mid post2 : List Nat) (s : System),
    s.popped_string = pre ++ seg ++ post1 →
    s.test_struct.result_str = pre2 ++ mid ++ post2 →
    pre2.length = pre.length → mid.length = seg.length → pre.length + seg.length ≤ CSIZE →
    copy_loop pre.length seg.length s
      = .ok { s with
          test_struct := { s.test_struct with result_str := pre2 ++ seg ++ post2 } } := by
  intro seg
  induction seg with
  | nil =>
    intro pre post1 pre2 mid post2 s _ hr _ hmid _
    have : mid = [] := List.length_eq_zero.mp hmid
    subst this
    have hr1 : pre2 ++ [] ++ post2 = s.test_struct.result_str := hr.symm
    simp only [copy_loop, List.length_nil]
    rw [hr1]
    rfl
  | cons x seg ih =>
    intro pre post1 pre2 mid post2 s hp hr hpre hmid hbound
    obtain ⟨y, mid1, rfl⟩ : ∃ y mid1, mid = y :: mid1 := by
      cases mid with
      | nil => simp at hmid
      | cons y mid1 => exact ⟨y, mid1, rfl⟩
    have hget : s.popped_string.getD pre.length 0 = x := by
      rw [hp, List.append_assoc, List.cons_append]
      exact getD_at_length _ _ _
    have hset : s.test_struct.result_str.set pre.length x
        = (pre2 ++ [x]) ++ mid1 ++ post2 := by
      rw [hr, ← hpre, List.append_assoc, List.cons_append, set_at_length]
      simp
    rw [List.length_cons] at hbound
    have hin : pre.length < CSIZE := by omega
    have hrec := ih (pre ++ [x]) post1 (pre2 ++ [x]) mid1 post2
      { s with
        test_struct := { s.test_struct with
          result_str := s.test_struct.result_str.set pre.length (s.popped_string.getD pre.length 0) } }
      (by show s.popped_string = _; rw [hp]; simp)
      (by show s.test_struct.result_str.set pre.length (s.popped_string.getD pre.length 0) = _
          rw [hget]; exact hset)
      (by simp [hpre]) (by simpa using hmid)
      (by rw [List.length_append, List.length_singleton]; omega)
    rw [List.length_cons, copy_loop, if_pos hin]
    rw [List.length_append, List.length_singleton] at hrec
    rw [hrec]
    simp

theorem encode_append (q : List (List Nat)) (m : List Nat) :
    encode (q ++ [m]) = encode q ++ (m.length + 1) :: m := by
  induction q with
  | nil => simp [encode]
  | cons a q ih => simp [encode, ih]

theorem strlen_le (string : List Nat) : strlen string ≤ string.length := by
  induction string with
  | nil => simp [strlen]
  | cons c cs ih =>
    simp only [strlen, List.length_cons]
    split <;> omega

theorem cstr_length (string : List Nat) : (cstr string).length = strlen string := by
  simp [cstr, strlen_le]

theorem cstr_nonzero (string : List Nat) : ∀ b ∈ cstr string, 0 < b := by
  induction string with
  | nil => simp [cstr, strlen]
  | cons c cs ih =>
    unfold cstr strlen
    by_cases hc : c = 0
    · simp [hc]
    · simp only [hc, if_false, List.take_succ_cons, List.mem_cons]
      rintro b (rfl | hb)
      · omega
      · exact ih b hb

theorem cstr_subset (string : List Nat) : ∀ b ∈ cstr string, b ∈ string :=
  fun _ hb => List.mem_of_mem_take hb

theorem cstr_char_string (string : List Nat) (h : ∀ b ∈ string, b < U8) :
    char_string (cstr string) :=
  fun b hb => ⟨cstr_nonzero string b hb, h b (cstr_subset string b hb)⟩

theorem strlen_terminated (m rest : List Nat) (h : char_string m) :
    strlen (m ++ 0 :: rest) = m.length := by
  induction m with
  | nil => simp [strlen]
  | cons c cs ih =>
    have hc : c ≠ 0 := by
      have := (h c (List.mem_cons_self _ _)).1
      omega
    simp only [List.cons_append, strlen, hc, if_false, List.length_cons]
    exact congrArg (· + 1) (ih (fun b hb => h b (List.mem_cons_of_mem _ hb)))

theorem cstr_terminated (m rest : List Nat) (h : char_string m) :
    cstr (m ++ 0 :: rest) = m := by
  unfold cstr
  rw [strlen_terminated m rest h]
  simp

/-- A push that leaves at least one byte free appends the message to the queue. -/
theorem push_holds (s : System) (q : List (List Nat)) (string : List Nat)
    (h : holds s q) (hb : ∀ b ∈ string, b < U8)
    (hroom : strlen string + 1 < ble_circ_space s) :
    ∃ s1, ble_circ_push string s = .ok s1 ∧ holds s1 (q ++ [cstr string])
      ∧ s1.leuart0_tx_busy = s.leuart0_tx_busy
      ∧ ble_circ_space s1 = ble_circ_space s - (strlen string + 1)
      ∧ s1 = { s with ble_cbuf := s1.ble_cbuf } := by
  obtain ⟨hring, hq, hpop, hres⟩ := h
  have hsp := ring_space s.ble_cbuf (encode q) hring s rfl
  have hlen := hring.2.2.2.1
  rw [hsp] at hroom
  have hL : strlen string % U8 = strlen string := by
    apply Nat.mod_eq_of_lt
    unfold CSIZE U8 at *
    omega
  have hP : (strlen string + 1) % U8 = strlen string + 1 := by
    apply Nat.mod_eq_of_lt
    unfold CSIZE U8 at *
    omega
  have hne : ble_circ_space s ≠ 0 := by rw [hsp]; omega
  have hle : strlen string + 1 ≤ ble_circ_space s := by rw [hsp]; omega
  have h1 := write_byte_matches s.ble_cbuf (encode q) (strlen string + 1) hring (by omega)
  have h2 := push_loop_matches (cstr string) [] (string.drop (strlen string)) _ _ h1
    (by rw [List.length_append, List.length_singleton, cstr_length]; omega)
    (fun x hx => hb x (cstr_subset string x hx))
  rw [cstr_length] at h2
  simp only [cstr, List.nil_append, List.take_append_drop, List.length_nil] at h2
  have h3 : ring_matches (push_loop string 0 (strlen string)
      (update_circ_wrtindex
        { s.ble_cbuf with
          cbuf := s.ble_cbuf.cbuf.set s.ble_cbuf.write_ptr (strlen string + 1) } 1))
      (encode (q ++ [cstr string])) := by
    rw [encode_append, cstr_length]
    simpa [cstr, List.append_assoc] using h2
  refine ⟨{ s with
      ble_cbuf := push_loop string 0 (strlen string)
        (update_circ_wrtindex
          { s.ble_cbuf with
            cbuf := s.ble_cbuf.cbuf.set s.ble_cbuf.write_ptr (strlen string + 1) } 1) },
    ?_, ⟨h3, ?_, hpop, hres⟩, rfl, ?_, rfl⟩
  · simp only [ble_circ_push, EFM_ASSERT, hne, hL, hP, hle, bind, Except.bind, pure,
      Except.pure, ne_eq, not_false_eq_true, decide_True, if_true]
  · intro m hm
    rcases List.mem_append.mp hm with hm | hm
    · exact hq m hm
    · rw [List.mem_singleton.mp hm]
      exact cstr_char_string string hb
  · show ble_circ_space _ = _
    rw [ring_space _ _ h3 _ rfl, hsp, encode_append, List.length_append, List.length_cons,
      cstr_length]
    omega


/-- A pop in test mode, the engine not busy, takes the oldest message off the queue and
captures it, NUL-terminated, in `result_str`. -/
theorem pop_holds (s : System) (m : List Nat) (q : List (List Nat))
    (h : holds s (m :: q)) (hidle : leuart_tx_busy s = false) :
    ∃ s1, ble_circ_pop true s = .ok (false, s1) ∧ holds s1 q
      ∧ s1.leuart0_tx_busy = false
      ∧ s1.test_struct.result_str.take (m.length + 1) = m ++ [0]
      ∧ ble_circ_space s1 = ble_circ_space s + (m.length + 1) := by
  obtain ⟨hring, hq, hpop, hres⟩ := h
  have hsp := ring_space s.ble_cbuf _ hring s rfl
  have henc : encode (m :: q) = (m.length + 1) :: (m ++ encode q) := rfl
  rw [henc] at hring hsp
  have hl := hring.2.2.2.1
  have hw := hring.2.2.2.2.1
  have hr := hring.2.2.1
  rw [List.length_cons, List.length_append] at hl hw hsp
  have hne : s.ble_cbuf.read_ptr ≠ s.ble_cbuf.write_ptr := by
    rw [hw]
    unfold CSIZE at *
    omega
  obtain ⟨hx, hnext⟩ := read_byte_matches s.ble_cbuf _ _ hring
  have hL : (s.ble_cbuf.cbuf.getD s.ble_cbuf.read_ptr 0 + U8 - 1) % U8 = m.length := by
    rw [hx]
    unfold U8 CSIZE at *
    omega
  have hmL : m.length + 1 < CSIZE := by omega
  have hlt : m.length < CSIZE := by omega
  obtain ⟨b1, hb1, hr1⟩ := pop_loop_spec m [] (s.popped_string.take m.length)
    (s.popped_string.drop m.length)
    { s with ble_cbuf := update_circ_readindex s.ble_cbuf 1 } (encode q) hnext
    (by simp) (by rw [List.length_take, hpop]; omega)
    (by rw [List.length_nil]; omega)
  obtain ⟨y, tl, hdrop⟩ : ∃ y tl, s.popped_string.drop m.length = y :: tl := by
    cases hd : s.popped_string.drop m.length with
    | nil =>
      have := congrArg List.length hd
      rw [List.length_drop, hpop] at this
      simp at this
      omega
    | cons y tl => exact ⟨y, tl, rfl⟩
  have htl : tl.length = CSIZE - (m.length + 1) := by
    have := congrArg List.length hdrop
    rw [List.length_drop, hpop, List.length_cons] at this
    omega
  have hset : (m ++ y :: tl).set m.length 0 = m ++ [0] ++ tl := by
    rw [set_at_length]; simp
  have hcopy := copy_loop_spec (m ++ [0]) [] tl []
    (s.test_struct.result_str.take (m.length + 1))
    (s.test_struct.result_str.drop (m.length + 1))
    { s with ble_cbuf := b1, popped_string := m ++ [0] ++ tl }
    (by simp) (by simp) rfl
    (by rw [List.length_take, hres, List.length_append, List.length_singleton]; omega)
    (by rw [List.length_nil, List.length_append, List.length_singleton]; omega)
  simp only [List.nil_append, List.length_nil, List.take_append_drop, List.length_append,
    List.length_singleton] at hcopy hb1
  rw [hdrop] at hb1
  refine ⟨{ s with
      ble_cbuf := b1
      popped_string := m ++ [0] ++ tl
      test_struct := { s.test_struct with
        result_str := m ++ [0] ++ s.test_struct.result_str.drop (m.length + 1) } },
    ?_, ⟨hr1, fun a ha => hq a (List.mem_cons_of_mem _ ha), ?_, ?_⟩, hidle, ?_, ?_⟩
  · simp only [ble_circ_pop, hne, if_false, hidle, hL, hb1, hlt, hset, hcopy, if_true, bind,
      Except.bind, pure, Except.pure, Bool.false_eq_true]
  · show (m ++ [0] ++ tl).length = CSIZE
    rw [List.length_append, List.length_append, List.length_singleton, htl]
    omega
  · show (m ++ [0] ++ s.test_struct.result_str.drop (m.length + 1)).length = CSIZE
    rw [List.length_append, List.length_append, List.length_singleton, List.length_drop, hres]
    omega
  · show (m ++ [0] ++ s.test_struct.result_str.drop (m.length + 1)).take (m.length + 1) = _
    rw [List.take_append_of_le_length (by simp)]
    simp
  · show ble_circ_space _ = _
    rw [ring_space _ _ hr1 _ rfl, hsp]
    omega


theorem strlen_char_string (m : List Nat) (h : char_string m) : strlen m = m.length := by
  induction m with
  | nil => rfl
  | cons c cs ih =>
    have hc : c ≠ 0 := by
      have := (h c (List.mem_cons_self _ _)).1
      omega
    simp only [strlen, hc, if_false, List.length_cons]
    rw [ih (fun b hb => h b (List.mem_cons_of_mem _ hb))]

theorem cstr_char_string_self (m : List Nat) (h : char_string m) : cstr m = m := by
  unfold cstr
  rw [strlen_char_string m h]
  exact List.take_length m

theorem cstr_of_take (r m : List Nat) (h : char_string m)
    (ht : r.take (m.length + 1) = m ++ [0]) : cstr r = m := by
  have hr : r = m ++ 0 :: r.drop (m.length + 1) := by
    conv_lhs => rw [← List.take_append_drop (m.length + 1) r, ht]
    simp
  rw [hr]
  exact cstr_terminated m _ h

theorem holds_of_empty (s : System) (hok : ble_ok s)
    (hempty : s.ble_cbuf.read_ptr = s.ble_cbuf.write_ptr) : holds s [] := by
  obtain ⟨hlen, hm, hr, _, hpop, hres⟩ := hok
  refine ⟨⟨hlen, hm, hr, by decide, ?_, ?_⟩, by simp, hpop, hres⟩
  · show s.ble_cbuf.write_ptr = (s.ble_cbuf.read_ptr + 0) % CSIZE
    rw [Nat.add_zero, Nat.mod_eq_of_lt hr, hempty]
  · intro j hj
    simp [encode] at hj

theorem pop_empty (s : System) (test : Bool) (h : holds s []) :
    ble_circ_pop test s = .ok (true, s) := by
  have hw := h.1.2.2.2.2.1
  have hr := h.1.2.2.1
  have : s.ble_cbuf.read_ptr = s.ble_cbuf.write_ptr := by
    rw [hw]
    show _ = (s.ble_cbuf.read_ptr + 0) % CSIZE
    rw [Nat.add_zero, Nat.mod_eq_of_lt hr]
  simp only [ble_circ_pop, this, if_true, pure, Except.pure]

theorem byte_strings_tail (c : BufCall) (cs : List BufCall)
    (h : byte_strings (c :: cs) = true) : byte_strings cs = true := by
  cases c with
  | push string =>
    simp only [byte_strings, Bool.and_eq_true] at h
    exact h.2
  | pop => exact h

theorem byte_strings_head (string : List Nat) (cs : List BufCall)
    (h : byte_strings (BufCall.push string :: cs) = true) : ∀ b ∈ string, b < U8 := by
  simp only [byte_strings, Bool.and_eq_true, List.all_eq_true, decide_eq_true_eq] at h
  exact h.1

theorem fifo_from_queue : ∀ (cs : List BufCall) (s : System) (q : List (List Nat)),
    holds s q → leuart_tx_busy s = false → byte_strings cs = true →
    leaves_room cs s = true →
    ∃ out s1, buf_run cs s = .ok (out, s1) ∧ out = (q ++ pushed cs).take out.length := by
  intro cs
  induction cs with
  | nil =>
    intro s q _ _ _ _
    exact ⟨[], s, rfl, by simp⟩
  | cons c cs ih =>
    intro s q h hidle hbytes hroom
    cases c with
    | push string =>
      simp only [leaves_room, Bool.and_eq_true, decide_eq_true_eq] at hroom
      obtain ⟨s1, hpush, h1, hbusy, _⟩ :=
        push_holds s q string h (byte_strings_head _ _ hbytes) hroom.1
      have hroom1 := hroom.2
      rw [hpush] at hroom1
      obtain ⟨out, s2, hrun, hout⟩ := ih s1 (q ++ [cstr string]) h1
        (by rw [← hidle]; exact hbusy) (byte_strings_tail _ _ hbytes) hroom1
      refine ⟨out, s2, ?_, ?_⟩
      · simp only [buf_run, hpush, ok_bind, hrun]
      · simpa [pushed, List.append_assoc] using hout
    | pop =>
      cases q with
      | nil =>
        have hpop := pop_empty s CIRC_TEST h
        simp only [leaves_room, hpop] at hroom
        obtain ⟨out, s2, hrun, hout⟩ := ih s [] h hidle (byte_strings_tail _ _ hbytes) hroom
        refine ⟨out, s2, ?_, ?_⟩
        · simp only [buf_run, hpop, ok_bind, hrun, if_true, pure, Except.pure]
        · simpa [pushed] using hout
      | cons m q =>
        obtain ⟨s1, hpop, h1, hbusy, htake, _⟩ := pop_holds s m q h hidle
        have hcap : cstr s1.test_struct.result_str = m :=
          cstr_of_take _ m (h.2.1 m (List.mem_cons_self _ _)) htake
        have hpopt : ble_circ_pop CIRC_TEST s = .ok (false, s1) := hpop
        simp only [leaves_room, hpopt] at hroom
        obtain ⟨out, s2, hrun, hout⟩ := ih s1 q h1 hbusy (byte_strings_tail _ _ hbytes) hroom
        refine ⟨m :: out, s2, ?_, ?_⟩
        · simp only [buf_run, hpopt, ok_bind, hrun, hcap, pure, Except.pure,
            Bool.false_eq_true, if_false]
        · simp only [pushed, List.length_cons, List.cons_append, List.take_succ_cons]
          rw [← hout]

/-- C4: starting from an empty buffer, the engine not busy, in every interleaving of
`ble_circ_push` and test-mode `ble_circ_pop` calls in which every push leaves at least one
byte free, no call stops and the k-th pop that does not report empty captures the k-th
pushed message: the captured strings are an initial segment of the pushed ones. -/
theorem fifo_order (cs : List BufCall) (s : System) (hok : ble_ok s)
    (hempty : s.ble_cbuf.read_ptr = s.ble_cbuf.write_ptr)
    (hidle : leuart_tx_busy s = false) (hbytes : byte_strings cs = true)
    (hroom : leaves_room cs s = true) :
    ∃ out s1, buf_run cs s = .ok (out, s1) ∧ out = (pushed cs).take out.length := by
  simpa using fifo_from_queue cs s [] (holds_of_empty s hok hempty) hidle hbytes hroom


set_option maxRecDepth 100000 in
theorem fifo_order_witness :
    ble_ok (ble_circ_init boot)
    ∧ (ble_circ_init boot).ble_cbuf.read_ptr = (ble_circ_init boot).ble_cbuf.write_ptr
    ∧ leuart_tx_busy (ble_circ_init boot) = false
    ∧ byte_strings circular_buff_test_calls = true
    ∧ leaves_room circular_buff_test_calls (ble_circ_init boot) = true
    ∧ ∃ out s1, buf_run circular_buff_test_calls (ble_circ_init boot) = .ok (out, s1)
        ∧ out = (pushed circular_buff_test_calls).take out.length :=
  ⟨by decide, rfl, rfl, by decide, by decide,
    fifo_order circular_buff_test_calls (ble_circ_init boot) (by decide) rfl rfl (by decide)
      (by decide)⟩

/-- A string shorter than 255 bytes whose packet exceeds the free space is rejected: the
push stops at a fatal assertion in the state of the call, nothing stored. -/
theorem push_rejected (s : System) (string : List Nat) (hlen : strlen string < 255)
    (hroom : ble_circ_space s < strlen string + 1) :
    ble_circ_push string s = .error (Fault.assertion, s) := by
  have hL : strlen string % U8 = strlen string := Nat.mod_eq_of_lt (by unfold U8; omega)
  have hP : (strlen string + 1) % U8 = strlen string + 1 :=
    Nat.mod_eq_of_lt (by unfold U8; omega)
  by_cases h0 : ble_circ_space s = 0
  · simp only [ble_circ_push, EFM_ASSERT, h0, bind, Except.bind, ne_eq, not_true_eq_false,
      decide_False, Bool.false_eq_true, if_false]
  · have hgt : ¬ strlen string + 1 ≤ ble_circ_space s := by omega
    simp only [ble_circ_push, EFM_ASSERT, h0, hL, hP, hgt, bind, Except.bind, ne_eq,
      not_false_eq_true, decide_True, if_true, if_false, Bool.false_eq_true]


theorem bytes_popped (s : System) (m tl : List Nat) (h : s.popped_string = m ++ tl) :
    ∀ (k : Nat) (pre : List Nat) (seg : List Nat), m = pre ++ seg → seg.length = k →
      CharPtr.bytes s k (CharPtr.popped pre.length) = seg := by
  intro k
  induction k with
  | zero =>
    intro pre seg _ hk
    rw [List.length_eq_zero.mp hk]
    rfl
  | succ k ih =>
    intro pre seg hm hk
    cases seg with
    | nil => simp at hk
    | cons x seg =>
      have hx : (CharPtr.popped pre.length).deref s = x := by
        show s.popped_string.getD pre.length 0 = x
        rw [h, hm, List.append_assoc, List.cons_append]
        exact getD_at_length _ _ _
      have hrec := ih (pre ++ [x]) seg (by rw [hm]; simp) (by simpa using hk)
      rw [List.length_append, List.length_singleton] at hrec
      simp only [CharPtr.bytes, CharPtr.next, hx, hrec]

/-- A pop in transmit mode, the engine idle, takes the oldest message off the queue, leaves
it NUL-terminated in `popped_string` and starts the engine on it. -/
theorem pop_start_holds (s : System) (m : List Nat) (q : List (List Nat))
    (h : holds s (m :: q)) (hidle : leuart_tx_busy s = false)
    (htx : s.LEUART0.STATUS &&& LEUART_STATUS_TXIDLE ≠ 0) :
    ∃ s1, ble_circ_pop false s = .ok (false, s1) ∧ holds s1 q
      ∧ leuart_tx_busy s1 = true
      ∧ s1.leuart_cmd = ⟨leuart_states.DATA_TRANSMISSION, CharPtr.popped 0, m.length, 0⟩
      ∧ s1.popped_string.take (m.length + 1) = m ++ [0]
      ∧ CharPtr.bytes s1 m.length (CharPtr.popped 0) = m := by
  obtain ⟨hring, hq, hpop, hres⟩ := h
  have henc : encode (m :: q) = (m.length + 1) :: (m ++ encode q) := rfl
  rw [henc] at hring
  have hl := hring.2.2.2.1
  have hw := hring.2.2.2.2.1
  have hr := hring.2.2.1
  rw [List.length_cons, List.length_append] at hl hw
  have hne : s.ble_cbuf.read_ptr ≠ s.ble_cbuf.write_ptr := by
    rw [hw]
    unfold CSIZE at *
    omega
  obtain ⟨hx, hnext⟩ := read_byte_matches s.ble_cbuf _ _ hring
  have hL : (s.ble_cbuf.cbuf.getD s.ble_cbuf.read_ptr 0 + U8 - 1) % U8 = m.length := by
    rw [hx]
    unfold U8 CSIZE at *
    omega
  have hmL : m.length + 1 < CSIZE := by omega
  have hm32 : m.length % U32 = m.length :=
    Nat.mod_eq_of_lt (by unfold U32; unfold CSIZE at hmL; omega)
  have hlt : m.length < CSIZE := by omega
  obtain ⟨b1, hb1, hr1⟩ := pop_loop_spec m [] (s.popped_string.take m.length)
    (s.popped_string.drop m.length)
    { s with ble_cbuf := update_circ_readindex s.ble_cbuf 1 } (encode q) hnext
    (by simp) (by rw [List.length_take, hpop]; omega)
    (by rw [List.length_nil]; omega)
  obtain ⟨y, tl, hdrop⟩ : ∃ y tl, s.popped_string.drop m.length = y :: tl := by
    cases hd : s.popped_string.drop m.length with
    | nil =>
      have := congrArg List.length hd
      rw [List.length_drop, hpop] at this
      simp at this
      omega
    | cons y tl => exact ⟨y, tl, rfl⟩
  have htl : tl.length = CSIZE - (m.length + 1) := by
    have := congrArg List.length hdrop
    rw [List.length_drop, hpop, List.length_cons] at this
    omega
  simp only [List.nil_append, List.length_nil] at hb1
  rw [hdrop] at hb1
  have hset : (m ++ y :: tl).set m.length 0 = m ++ [0] ++ tl := by
    rw [set_at_length]; simp
  have hstart := leuart_start_ok (CharPtr.popped 0) m.length
    { s with ble_cbuf := b1, popped_string := m ++ [0] ++ tl } htx
  rw [hm32] at hstart
  refine ⟨{ s with
      ble_cbuf := b1
      popped_string := m ++ [0] ++ tl
      lowest_energy_mode := s.lowest_energy_mode.set LEUART_TX_EM 1
      leuart_cmd := ⟨leuart_states.DATA_TRANSMISSION, CharPtr.popped 0, m.length, 0⟩
      leuart0_tx_busy := true
      LEUART0 := { s.LEUART0 with IEN := s.LEUART0.IEN ||| LEUART_IEN_TXBL } },
    ?_, ⟨hr1, fun a ha => hq a (List.mem_cons_of_mem _ ha), ?_, hres⟩, rfl, rfl, ?_, ?_⟩
  · simp only [ble_circ_pop, hne, if_false, hidle, hL, hb1, hlt, hset, hstart, if_true, bind,
      Except.bind, pure, Except.pure, Bool.false_eq_true]
  · show (m ++ [0] ++ tl).length = CSIZE
    rw [List.length_append, List.length_append, List.length_singleton, htl]
    omega
  · show (m ++ [0] ++ tl).take (m.length + 1) = _
    rw [List.take_append_of_le_length (by simp)]
    simp
  · exact bytes_popped _ m ([0] ++ tl) (by show m ++ [0] ++ tl = _; simp) m.length [] m
      rfl rfl

/-- On an empty buffer with the engine idle, `ble_write` of a string that leaves at least
one byte free starts the engine on exactly that string and leaves the buffer empty. -/
theorem ble_write_starts_head (s : System) (string : List Nat) (hok : ble_ok s)
    (hempty : s.ble_cbuf.read_ptr = s.ble_cbuf.write_ptr)
    (hidle : leuart_tx_busy s = false)
    (htx : s.LEUART0.STATUS &&& LEUART_STATUS_TXIDLE ≠ 0)
    (hb : ∀ b ∈ string, b < U8) (hroom : strlen string + 1 < ble_circ_space s) :
    ∃ s1, ble_write string s = .ok s1
      ∧ s1.leuart_cmd
          = ⟨leuart_states.DATA_TRANSMISSION, CharPtr.popped 0, strlen string, 0⟩
      ∧ CharPtr.bytes s1 (strlen string) (CharPtr.popped 0) = cstr string
      ∧ leuart_tx_busy s1 = true
      ∧ s1.ble_cbuf.read_ptr = s1.ble_cbuf.write_ptr := by
  obtain ⟨s1, hpush, h1, hbusy, _, hframe⟩ :=
    push_holds s [] string (holds_of_empty s hok hempty) hb hroom
  have htx1 : s1.LEUART0.STATUS &&& LEUART_STATUS_TXIDLE ≠ 0 := by
    rw [hframe]; exact htx
  obtain ⟨s2, hpop, h2, hbusy2, hcmd, _, hbytes⟩ := pop_start_holds s1 (cstr string) [] h1
    (by show s1.leuart0_tx_busy = false; rw [hbusy]; exact hidle) htx1
  rw [cstr_length] at hcmd hbytes
  refine ⟨s2, ?_, hcmd, hbytes, hbusy2, ?_⟩
  · simp only [ble_write, hpush, hpop, bind, Except.bind, pure, Except.pure]
  · have hw := h2.1.2.2.2.2.1
    have hr := h2.1.2.2.1
    rw [hw]
    show _ = (s2.ble_cbuf.read_ptr + 0) % CSIZE
    rw [Nat.add_zero, Nat.mod_eq_of_lt hr]

/-- After `ble_circ_init` the free space is the capacity. -/
theorem space_after_init (s : System) : ble_circ_space (ble_circ_init s) = CSIZE := by
  show ((CSIZE + U32 - (((0 + U32 - 0) % U32) &&& (CSIZE - 1))) % U32) % U8 = CSIZE
  decide

/-- C1, as stated, fails: three NUL-free messages of 30, 30 and 3 bytes have lengths that
sum to 63, less than the capacity, but each message also takes a length byte; after the
first two pushes 2 bytes are free and the third push stops at the fatal assertion. -/
theorem three_messages_do_not_fit :
    char_string (List.replicate 30 65) ∧ char_string (List.replicate 30 66)
    ∧ char_string (List.replicate 3 67)
    ∧ (List.replicate 30 65).length + (List.replicate 30 66).length
        + (List.replicate 3 67).length < CSIZE
    ∧ ∃ s1 s2, ble_circ_push (List.replicate 30 65) (ble_circ_init boot) = .ok s1
        ∧ ble_circ_push (List.replicate 30 66) s1 = .ok s2
        ∧ ble_circ_space s2 = 2
        ∧ ble_circ_push (List.replicate 3 67) s2 = .error (Fault.assertion, s2) :=
  ⟨by decide, by decide, by decide, by decide, _, _, rfl, rfl, rfl, rfl⟩

/-- C1, amended: starting from an empty buffer, the engine not busy, for every three
NUL-free messages whose lengths, with one length byte each, sum to less than the capacity
(`|M1| + |M2| + |M3| + 3 < CSIZE`), pushing M1, M2, M3 and then popping three times in test
mode captures M1, M2, M3 in that order, each followed by the terminating null. -/
theorem ring_round_trip (s : System) (M1 M2 M3 : List Nat) (hok : ble_ok s)
    (hempty : s.ble_cbuf.read_ptr = s.ble_cbuf.write_ptr)
    (hidle : leuart_tx_busy s = false)
    (h1 : char_string M1) (h2 : char_string M2) (h3 : char_string M3)
    (hsum : M1.length + M2.length + M3.length + 3 < CSIZE) :
    ∃ s1 s2 s3 s4 s5 s6,
      ble_circ_push M1 s = .ok s1 ∧ ble_circ_push M2 s1 = .ok s2
      ∧ ble_circ_push M3 s2 = .ok s3
      ∧ ble_circ_pop CIRC_TEST s3 = .ok (false, s4)
      ∧ s4.test_struct.result_str.take (M1.length + 1) = M1 ++ [0]
      ∧ ble_circ_pop CIRC_TEST s4 = .ok (false, s5)
      ∧ s5.test_struct.result_str.take (M2.length + 1) = M2 ++ [0]
      ∧ ble_circ_pop CIRC_TEST s5 = .ok (false, s6)
      ∧ s6.test_struct.result_str.take (M3.length + 1) = M3 ++ [0] := by
  have h0 := holds_of_empty s hok hempty
  have hsp0 := ring_space s.ble_cbuf _ h0.1 s rfl
  simp only [encode, List.length_nil, Nat.sub_zero] at hsp0
  have l1 := strlen_char_string M1 h1
  have l2 := strlen_char_string M2 h2
  have l3 := strlen_char_string M3 h3
  obtain ⟨s1, p1, q1, b1, sp1, _⟩ := push_holds s [] M1 h0 (fun b hb => (h1 b hb).2)
    (by rw [hsp0, l1]; omega)
  obtain ⟨s2, p2, q2, b2, sp2, _⟩ := push_holds s1 _ M2 q1 (fun b hb => (h2 b hb).2)
    (by rw [sp1, hsp0, l1, l2]; omega)
  obtain ⟨s3, p3, q3, b3, sp3, _⟩ := push_holds s2 _ M3 q2 (fun b hb => (h3 b hb).2)
    (by rw [sp2, sp1, hsp0, l1, l2, l3]; omega)
  rw [cstr_char_string_self M1 h1, cstr_char_string_self M2 h2,
    cstr_char_string_self M3 h3] at q3
  simp only [List.nil_append, List.cons_append] at q3
  obtain ⟨s4, o4, q4, b4, t4, _⟩ := pop_holds s3 M1 _ q3
    (by show s3.leuart0_tx_busy = false; rw [b3, b2, b1]; exact hidle)
  obtain ⟨s5, o5, q5, b5, t5, _⟩ := pop_holds s4 M2 _ q4 b4
  obtain ⟨s6, o6, q6, b6, t6, _⟩ := pop_holds s5 M3 _ q5 b5
  exact ⟨s1, s2, s3, s4, s5, s6, p1, p2, p3, o4, t4, o5, t5, o6, t6⟩

set_option maxRecDepth 100000 in
theorem ring_round_trip_witness :
    ble_ok (ble_circ_init boot)
    ∧ (ble_circ_init boot).ble_cbuf.read_ptr = (ble_circ_init boot).ble_cbuf.write_ptr
    ∧ leuart_tx_busy (ble_circ_init boot) = false
    ∧ char_string (List.replicate 30 65) ∧ char_string (List.replicate 20 66)
    ∧ char_string (List.replicate 3 67)
    ∧ (List.replicate 30 65).length + (List.replicate 20 66).length
        + (List.replicate 3 67).length + 3 < CSIZE
    ∧ ∃ s1 s2 s3 s4 s5 s6,
      ble_circ_push (List.replicate 30 65) (ble_circ_init boot) = .ok s1
      ∧ ble_circ_push (List.replicate 20 66) s1 = .ok s2
      ∧ ble_circ_push (List.replicate 3 67) s2 = .ok s3
      ∧ ble_circ_pop CIRC_TEST s3 = .ok (false, s4)
      ∧ s4.test_struct.result_str.take ((List.replicate 30 65).length + 1)
          = List.replicate 30 65 ++ [0]
      ∧ ble_circ_pop CIRC_TEST s4 = .ok (false, s5)
      ∧ s5.test_struct.result_str.take ((List.replicate 20 66).length + 1)
          = List.replicate 20 66 ++ [0]
      ∧ ble_circ_pop CIRC_TEST s5 = .ok (false, s6)
      ∧ s6.test_struct.result_str.take ((List.replicate 3 67).length + 1)
          = List.replicate 3 67 ++ [0] :=
  ⟨by decide, rfl, rfl, by decide, by decide, by decide, by decide,
    ring_round_trip (ble_circ_init boot) _ _ _ (by decide) rfl rfl (by decide) (by decide)
      (by decide) (by decide)⟩

set_option maxRecDepth 100000 in
/-- C2: evaluation at a message that fits exactly.  On the empty buffer the free space is
the capacity, 64, and a string of 63 bytes has `L + 1 = 64 <= ble_circ_space()`; the push
returns, and afterwards `ble_circ_space()` is 64 again, not 0, the cursors are equal and a
pop reports the buffer empty: the 64 bytes written wrap the write cursor onto the read
cursor. -/
theorem push_exact_fit_looks_empty :
    ble_circ_space (ble_circ_init boot) = CSIZE
    ∧ strlen (List.replicate 63 65) + 1 ≤ ble_circ_space (ble_circ_init boot)
    ∧ ∃ s1, ble_circ_push (List.replicate 63 65) (ble_circ_init boot) = .ok s1
        ∧ ble_circ_space s1 = CSIZE
        ∧ s1.ble_cbuf.read_ptr = s1.ble_cbuf.write_ptr
        ∧ ble_circ_pop CIRC_TEST s1 = .ok (true, s1) :=
  ⟨rfl, by decide, _, rfl, rfl, rfl, rfl⟩

set_option maxRecDepth 100000 in
/-- C3: evaluation at a string of 255 bytes on the empty buffer.  `strlen + 1` is 256, more
than the 64 free bytes, but the packet size is held in a `uint8_t` and wraps to 0: the push
hits no assertion and overwrites the whole array. -/
theorem push_long_string_is_written :
    ble_circ_space (ble_circ_init boot) < strlen (List.replicate 255 65) + 1
    ∧ ∃ s1, ble_circ_push (List.replicate 255 65) (ble_circ_init boot) = .ok s1
        ∧ s1.ble_cbuf.cbuf = List.replicate 64 65
        ∧ (ble_circ_init boot).ble_cbuf.cbuf = List.replicate 64 0 :=
  ⟨by decide, _, rfl, rfl, rfl⟩

set_option maxRecDepth 100000 in
/-- C7: evaluation at a message that fits exactly.  On the empty buffer with the engine
idle a string of 63 bytes fits (`strlen + 1 = 64 <= ble_circ_space()`); `ble_write`
returns, but the push has wrapped the write cursor onto the read cursor, the pop finds the
buffer empty and `leuart_start` is not invoked: the engine is not busy, its descriptor and
the block table are untouched and nothing is transmitted. -/
theorem ble_write_exact_fit_not_started :
    strlen (List.replicate 63 65) + 1 ≤ ble_circ_space (ble_circ_init boot)
    ∧ leuart_tx_busy (ble_circ_init boot) = false
    ∧ ∃ s1, ble_write (List.replicate 63 65) (ble_circ_init boot) = .ok s1
        ∧ leuart_tx_busy s1 = false
        ∧ s1.leuart_cmd = boot.leuart_cmd
        ∧ s1.lowest_energy_mode = boot.lowest_energy_mode
        ∧ s1.LEUART0 = boot.LEUART0 :=
  ⟨by decide, rfl, _, rfl, rfl, rfl, rfl, rfl⟩

/-! ## Sleep gate: the block table -/

theorem getD_set_zero (l : List Int) (i j : Nat) :
    (l.set i 0).getD j 0 = if i = j then 0 else l.getD j 0 := by
  rw [getD_set]
  by_cases h : i = j
  · subst h
    by_cases hl : i < l.length
    · simp [hl]
    · rw [if_neg (fun hh => hl hh.2), if_pos rfl, List.getD_eq_default _ _ (Nat.le_of_not_lt hl)]
  · rw [if_neg (fun hh => h hh.1), if_neg h]

theorem sleep_open_entry (s : System) (k : Nat) (hk : k < MAX_ENERGY_MODES) :
    (sleep_open s).lowest_energy_mode.getD k 0 = 0 := by
  simp only [sleep_open, sleep_open_loop, MAX_ENERGY_MODES, getD_set_zero]
  unfold MAX_ENERGY_MODES at hk
  interval_cases k <;> simp

theorem current_block_energy_mode_eq (s : System) :
    current_block_energy_mode s
      = if s.lowest_energy_mode.getD 0 0 ≠ 0 then 0
        else if s.lowest_energy_mode.getD 1 0 ≠ 0 then 1
        else if s.lowest_energy_mode.getD 2 0 ≠ 0 then 2
        else if s.lowest_energy_mode.getD 3 0 ≠ 0 then 3
        else 4 := by
  simp only [current_block_energy_mode, current_block_energy_mode_loop, MAX_ENERGY_MODES]
  split_ifs <;> rfl

/-- C18: `current_block_energy_mode` returns at most 4; no level below the one it returns is
blocked; when some level in 0..4 is blocked the level it returns is blocked, so it is the
lowest blocked level; when no level is blocked it returns 4; and it returns 4 right after
`sleep_open`, whatever the table held before. -/
theorem current_block_energy_mode_lowest (s : System) :
    current_block_energy_mode s ≤ MAX_ENERGY_MODES - 1
    ∧ (∀ j, j < current_block_energy_mode s → ¬ blocked s j)
    ∧ ((∃ k, k < MAX_ENERGY_MODES ∧ blocked s k) → blocked s (current_block_energy_mode s))
    ∧ ((∀ k, k < MAX_ENERGY_MODES → ¬ blocked s k)
        → current_block_energy_mode s = MAX_ENERGY_MODES - 1)
    ∧ current_block_energy_mode (sleep_open s) = MAX_ENERGY_MODES - 1 := by
  refine ⟨?_, ?_, ?_, ?_, ?_⟩
  · simp only [current_block_energy_mode, current_block_energy_mode_loop, MAX_ENERGY_MODES]
    split_ifs <;> omega
  · intro j
    simp only [current_block_energy_mode, current_block_energy_mode_loop, MAX_ENERGY_MODES,
      blocked]
    split_ifs <;> intro hj <;> interval_cases j <;> simp_all
  · rintro ⟨k, hk, hb⟩
    unfold MAX_ENERGY_MODES at hk
    simp only [current_block_energy_mode, current_block_energy_mode_loop, MAX_ENERGY_MODES,
      blocked] at hb ⊢
    split_ifs <;> first | assumption | (interval_cases k <;> simp_all)
  · intro h
    have h0 := h 0 (by decide)
    have h1 := h 1 (by decide)
    have h2 := h 2 (by decide)
    have h3 := h 3 (by decide)
    simp only [blocked, ne_eq, not_not] at h0 h1 h2 h3
    rw [current_block_energy_mode_eq, h0, h1, h2, h3]
    rfl
  · have h0 := sleep_open_entry s 0 (by decide)
    have h1 := sleep_open_entry s 1 (by decide)
    have h2 := sleep_open_entry s 2 (by decide)
    have h3 := sleep_open_entry s 3 (by decide)
    rw [current_block_energy_mode_eq, h0, h1, h2, h3]
    rfl


theorem enter_sleep_eq (s : System) :
    enter_sleep s
      = if s.lowest_energy_mode.getD 0 0 > 0 then 0
        else if s.lowest_energy_mode.getD 1 0 > 0 then 0
        else if s.lowest_energy_mode.getD 2 0 > 0 then 1
        else if s.lowest_energy_mode.getD 3 0 > 0 then 2
        else 3 := rfl

theorem table_ok_sleep_open (s : System) : table_ok (sleep_open s) :=
  fun k hk => le_of_eq (sleep_open_entry s k hk).symm

theorem table_ok_step (c : SleepCall) (s s1 : System) (h : table_ok s)
    (hrun : c.run s = .ok s1) : table_ok s1 := by
  cases c with
  | block EM =>
    rw [SleepCall.run, sleep_block_mode_ok] at hrun
    cases hrun
    intro k hk
    show 0 ≤ (s.lowest_energy_mode.set EM 1).getD k 0
    rw [getD_set]
    split
    · decide
    · exact h k hk
  | unblock EM =>
    rw [SleepCall.run, sleep_unblock_mode_ok] at hrun
    cases hrun
    intro k hk
    show 0 ≤ (s.lowest_energy_mode.set EM 0).getD k 0
    rw [getD_set]
    split
    · decide
    · exact h k hk

/-- After `sleep_open` and any calls of the sleep gate no entry of the table is negative. -/
theorem table_ok_sleep_run (cs : List SleepCall) :
    ∀ (s s1 : System), table_ok s → sleep_run cs s = .ok s1 → table_ok s1 := by
  induction cs with
  | nil =>
    intro s s1 h hrun
    cases hrun
    exact h
  | cons c cs ih =>
    intro s s1 h hrun
    simp only [sleep_run] at hrun
    cases hc : c.run s with
    | error e => rw [hc] at hrun; cases hrun
    | ok s2 =>
      rw [hc, ok_bind] at hrun
      exact ih s2 s1 (table_ok_step c s s2 h hc) hrun

/-- On a table without negative entries the two scans of the table agree: the first blocked
level decides both results. -/
theorem sleep_levels (s : System) (h : table_ok s) :
    (blocked s 0 ∧ current_block_energy_mode s = 0 ∧ enter_sleep s = 0)
    ∨ (¬ blocked s 0 ∧ blocked s 1 ∧ current_block_energy_mode s = 1 ∧ enter_sleep s = 0)
    ∨ (¬ blocked s 0 ∧ ¬ blocked s 1 ∧ blocked s 2
        ∧ current_block_energy_mode s = 2 ∧ enter_sleep s = 1)
    ∨ (¬ blocked s 0 ∧ ¬ blocked s 1 ∧ ¬ blocked s 2 ∧ blocked s 3
        ∧ current_block_energy_mode s = 3 ∧ enter_sleep s = 2)
    ∨ (¬ blocked s 0 ∧ ¬ blocked s 1 ∧ ¬ blocked s 2 ∧ ¬ blocked s 3
        ∧ current_block_energy_mode s = 4 ∧ enter_sleep s = 3) := by
  have h0 := h 0 (by decide)
  have h1 := h 1 (by decide)
  have h2 := h 2 (by decide)
  have h3 := h 3 (by decide)
  rw [enter_sleep_eq, current_block_energy_mode_eq]
  unfold blocked
  generalize s.lowest_energy_mode.getD 0 0 = a at *
  generalize s.lowest_energy_mode.getD 1 0 = b at *
  generalize s.lowest_energy_mode.getD 2 0 = c at *
  generalize s.lowest_energy_mode.getD 3 0 = d at *
  rcases eq_or_lt_of_le h0 with rfl | p0
  · rcases eq_or_lt_of_le h1 with rfl | p1
    · rcases eq_or_lt_of_le h2 with rfl | p2
      · rcases eq_or_lt_of_le h3 with rfl | p3
        · simp
        · simp [p3, p3.ne.symm]
      · simp [p2, p2.ne.symm]
    · simp [p1, p1.ne.symm]
  · simp [p0, p0.ne.symm]

/-- C17: evaluation at an unblock without a block.  Right after `sleep_open` no block of
EM2 is outstanding, yet `sleep_unblock_mode(EM2)` returns: the entry is stored as 0 and the
assertion `lowest_energy_mode[EM] >= 0` that follows holds. -/
theorem unmatched_unblock_returns :
    ¬ blocked (sleep_open boot) EM2
    ∧ outstanding EM2 [SleepCall.unblock EM2] = -1
    ∧ ∃ s1, sleep_unblock_mode EM2 (sleep_open boot) = .ok s1
        ∧ s1.lowest_energy_mode = (sleep_open boot).lowest_energy_mode :=
  ⟨by decide, by decide, _, rfl, by decide⟩

/-- C19: the energy mode `enter_sleep` enters is at most EM3, so EM4 is never entered.  For
every block table, it is not deeper than any level whose entry is positive and is not such a
level other than EM0.  On a block table without negative entries (every table the firmware
reaches, see `table_ok_sleep_run`) the same holds of every level whose entry is nonzero. -/
theorem enter_sleep_safe (s : System) :
    enter_sleep s ≤ EM3
    ∧ (∀ k, k < MAX_ENERGY_MODES → 0 < s.lowest_energy_mode.getD k 0
        → enter_sleep s ≤ k ∧ (k ≠ EM0 → enter_sleep s ≠ k))
    ∧ (table_ok s → ∀ k, k < MAX_ENERGY_MODES → blocked s k
        → enter_sleep s ≤ k ∧ (k ≠ EM0 → enter_sleep s ≠ k)) := by
  have pos : ∀ k, k < MAX_ENERGY_MODES → 0 < s.lowest_energy_mode.getD k 0
      → enter_sleep s ≤ k ∧ (k ≠ EM0 → enter_sleep s ≠ k) := by
    intro k hk hpos
    rw [enter_sleep_eq]
    unfold MAX_ENERGY_MODES at hk
    unfold EM0
    split_ifs <;> interval_cases k <;> exact ⟨by omega, fun _ => by omega⟩
  refine ⟨?_, pos, ?_⟩
  · rw [enter_sleep_eq]
    unfold EM3
    split_ifs <;> omega
  · intro h k hk hb
    exact pos k hk (lt_of_le_of_ne (h k hk) (Ne.symm hb))

theorem enter_sleep_safe_witness :
    table_ok { boot with lowest_energy_mode := [0, 0, 1, 0, 0] }
    ∧ blocked { boot with lowest_energy_mode := [0, 0, 1, 0, 0] } EM2
    ∧ enter_sleep { boot with lowest_energy_mode := [0, 0, 1, 0, 0] } = EM1
    ∧ enter_sleep { boot with lowest_energy_mode := [0, 0, 1, 0, 0] } ≤ EM2
    ∧ (EM2 ≠ EM0 → enter_sleep { boot with lowest_energy_mode := [0, 0, 1, 0, 0] } ≠ EM2) :=
  ⟨by decide, by decide, by decide,
    (enter_sleep_safe { boot with lowest_energy_mode := [0, 0, 1, 0, 0] }).2.2 (by decide) EM2
      (by decide) (by decide)⟩

/-- C20: on a block table without negative entries, with `c = current_block_energy_mode()`,
`enter_sleep` makes no sleep call when `c` is 0 or 1, enters EM1 when `c = 2`, EM2 when
`c = 3` and EM3 when `c = 4`; the mode it enters is the deepest of EM0..EM3 such that
neither it nor a shallower level is blocked. -/
theorem enter_sleep_selection (s : System) (h : table_ok s) :
    enter_sleep s = current_block_energy_mode s - 1
    ∧ (current_block_energy_mode s = 0 ∨ current_block_energy_mode s = 1 → enter_sleep s = 0)
    ∧ (current_block_energy_mode s = 2 → enter_sleep s = EM1)
    ∧ (current_block_energy_mode s = 3 → enter_sleep s = EM2)
    ∧ (current_block_energy_mode s = 4 → enter_sleep s = EM3)
    ∧ (∀ k, k ≤ EM3 → (∀ j, j ≤ k → ¬ blocked s j) → k ≤ enter_sleep s)
    ∧ (enter_sleep s ≠ 0 → ∀ j, j ≤ enter_sleep s → ¬ blocked s j) := by
  unfold EM1 EM2 EM3
  rcases sleep_levels s h with ⟨b0, c, e⟩ | ⟨b0, b1, c, e⟩ | ⟨b0, b1, b2, c, e⟩
    | ⟨b0, b1, b2, b3, c, e⟩ | ⟨b0, b1, b2, b3, c, e⟩ <;> rw [c, e] <;>
  refine ⟨by omega, by omega, by omega, by omega, by omega, ?_, ?_⟩
  · intro k _ hfree
    exact absurd b0 (hfree 0 (Nat.zero_le k))
  · intro hne
    omega
  · intro k _ hfree
    by_contra hk
    exact hfree 1 (by omega) b1
  · intro hne
    omega
  · intro k _ hfree
    by_contra hk
    exact hfree 2 (by omega) b2
  · intro _ j hj
    interval_cases j <;> assumption
  · intro k _ hfree
    by_contra hk
    exact hfree 3 (by omega) b3
  · intro _ j hj
    interval_cases j <;> assumption
  · intro k hk _
    exact hk
  · intro _ j hj
    interval_cases j <;> assumption

theorem enter_sleep_selection_witness :
    table_ok { boot with lowest_energy_mode := [0, 0, 1, 0, 0] }
    ∧ current_block_energy_mode { boot with lowest_energy_mode := [0, 0, 1, 0, 0] } = 2
    ∧ enter_sleep { boot with lowest_energy_mode := [0, 0, 1, 0, 0] } = EM1
    ∧ enter_sleep { boot with lowest_energy_mode := [0, 0, 1, 0, 0] }
        = current_block_energy_mode { boot with lowest_energy_mode := [0, 0, 1, 0, 0] } - 1 :=
  ⟨by decide, by decide, by decide,
    (enter_sleep_selection { boot with lowest_energy_mode := [0, 0, 1, 0, 0] } (by decide)).1⟩

/-! ## Bus engine: transition table, completion, retries -/

@[simp] theorem set_i2c_regs_i2c_cmd (s : System) (p : I2C_Periph) (r : I2C_TypeDef) :
    (s.set_i2c_regs p r).i2c_cmd = s.i2c_cmd := by cases p <;> rfl

theorem i2c_ack_table (s : System) :
    (i2c_handles s.i2c_cmd.current_state I2cIrq.ACK = true → ∃ s1, i2c_ack s = .ok s1)
    ∧ (i2c_handles s.i2c_cmd.current_state I2cIrq.ACK = false
        → i2c_ack s = .error (Fault.assertion, s)) := by
  cases hst : s.i2c_cmd.current_state <;> simp only [i2c_handles, i2c_ack, hst] <;>
    refine ⟨fun h => ?_, fun h => ?_⟩ <;>
    first
      | exact Bool.noConfusion h
      | rfl
      | exact ⟨_, rfl⟩
      | (split <;> exact ⟨_, rfl⟩)

theorem i2c_nack_table (s : System) :
    (i2c_handles s.i2c_cmd.current_state I2cIrq.NACK = true → ∃ s1, i2c_nack s = .ok s1)
    ∧ (i2c_handles s.i2c_cmd.current_state I2cIrq.NACK = false
        → i2c_nack s = .error (Fault.assertion, s)) := by
  cases hst : s.i2c_cmd.current_state <;> simp only [i2c_handles, i2c_nack, hst] <;>
    refine ⟨fun h => ?_, fun h => ?_⟩ <;>
    first
      | exact Bool.noConfusion h
      | rfl
      | exact ⟨_, rfl⟩

theorem i2c_rxdatav_table (s : System) (b : Nat) :
    (i2c_handles s.i2c_cmd.current_state (I2cIrq.RXDATAV b) = true
        → ∃ s1, i2c_rxdatav s = .ok s1)
    ∧ (i2c_handles s.i2c_cmd.current_state (I2cIrq.RXDATAV b) = false
        → i2c_rxdatav s = .error (Fault.assertion, s)) := by
  cases hst : s.i2c_cmd.current_state <;> simp only [i2c_handles, i2c_rxdatav, hst] <;>
    refine ⟨fun h => ?_, fun h => ?_⟩ <;>
    first
      | exact Bool.noConfusion h
      | rfl
      | exact ⟨_, rfl⟩
      | (split <;> exact ⟨_, rfl⟩)

theorem i2c_mstop_table (s : System) :
    (i2c_handles s.i2c_cmd.current_state I2cIrq.MSTOP = true → ∃ s1, i2c_mstop s = .ok s1)
    ∧ (i2c_handles s.i2c_cmd.current_state I2cIrq.MSTOP = false
        → i2c_mstop s = .error (Fault.assertion, s)) := by
  cases hst : s.i2c_cmd.current_state
  case SEND_STOP_CMD =>
    exact ⟨fun _ => ⟨_, i2c_mstop_SEND_STOP_CMD s hst⟩, fun h => by cases h⟩
  all_goals
    simp only [i2c_handles, i2c_mstop, hst]
    exact ⟨fun h => Bool.noConfusion h, fun _ => rfl⟩

/-! ### The handlers never read what was written to `CMD` and `TXDATA` -/

@[simp] theorem forget_writes_i2c_cmd (s : System) : (forget_writes s).i2c_cmd = s.i2c_cmd := rfl

theorem forget_writes_idem (s : System) : forget_writes (forget_writes s) = forget_writes s := rfl

theorem forget_writes_CMD (p : I2C_Periph) (v : Nat) (s : System) :
    forget_writes (i2c_write_CMD p v s) = forget_writes s := by cases p <;> rfl

theorem forget_writes_TXDATA (p : I2C_Periph) (v : Nat) (s : System) :
    forget_writes (i2c_write_TXDATA p v s) = forget_writes s := by cases p <;> rfl

theorem forget_writes_set_i2c_state (st : i2c_states) (s : System) :
    forget_writes (set_i2c_state st s) = set_i2c_state st (forget_writes s) := rfl

theorem forget_writes_load (c : Cell) (s : System) : (forget_writes s).load c = s.load c := by
  cases c <;> rfl

theorem forget_writes_store (c : Cell) (v : Nat) (s : System) :
    (forget_writes s).store c v = forget_writes (s.store c v) := by cases c <;> rfl

theorem forget_writes_RXDATA (p : I2C_Periph) (s : System) :
    ((forget_writes s).i2c_regs p).RXDATA = (s.i2c_regs p).RXDATA := by cases p <;> rfl

theorem forget_writes_set_RXDATA (p : I2C_Periph) (b : Nat) (s : System) :
    (forget_writes s).set_i2c_regs p { (forget_writes s).i2c_regs p with RXDATA := b }
      = forget_writes (s.set_i2c_regs p { s.i2c_regs p with RXDATA := b }) := by
  cases p <;> rfl

theorem forget_writes_send_next_byte (s : System) :
    forget_writes (i2c_send_next_byte s)
      = forget_writes { s with i2c_cmd := { s.i2c_cmd with
          num_bytes := (s.i2c_cmd.num_bytes + U32 - 1) % U32 } } := by
  unfold i2c_send_next_byte
  exact forget_writes_TXDATA _ _ _

theorem i2c_receive_byte_eq (s : System) :
    i2c_receive_byte s
      = (({ s with i2c_cmd := { s.i2c_cmd with
              num_bytes := (s.i2c_cmd.num_bytes + U32 - 1) % U32 } }.store s.i2c_cmd.rx_data
          (s.load s.i2c_cmd.rx_data &&& not32 (0xff <<<
            ((SHIFT * ((s.i2c_cmd.num_bytes + U32 - 1) % U32)) % U32)))).store s.i2c_cmd.rx_data
            ((({ s with i2c_cmd := { s.i2c_cmd with
              num_bytes := (s.i2c_cmd.num_bytes + U32 - 1) % U32 } }.store s.i2c_cmd.rx_data
                (s.load s.i2c_cmd.rx_data &&& not32 (0xff <<<
                  ((SHIFT * ((s.i2c_cmd.num_bytes + U32 - 1) % U32)) % U32)))).load
                    s.i2c_cmd.rx_data)
              ||| (((s.i2c_regs s.i2c_cmd.i2c).RXDATA <<<
                  ((SHIFT * ((s.i2c_cmd.num_bytes + U32 - 1) % U32)) % U32)) % U32))) := by
  cases h : s.i2c_cmd.rx_data <;> cases h2 : s.i2c_cmd.i2c <;>
    simp only [i2c_receive_byte, h, h2, System.store, System.load, System.i2c_regs]

theorem forget_writes_store_load (s : System) (c : I2C_STATE_MACHINE) (rx rx2 : Cell) (a : Nat) :
    ({ forget_writes s with i2c_cmd := c }.store rx a).load rx2
      = ({ s with i2c_cmd := c }.store rx a).load rx2 := by
  cases rx <;> cases rx2 <;> rfl

theorem forget_writes_store_store (s : System) (c : I2C_STATE_MACHINE) (rx : Cell) (a b : Nat) :
    ({ forget_writes s with i2c_cmd := c }.store rx a).store rx b
      = forget_writes (({ s with i2c_cmd := c }.store rx a).store rx b) := by
  cases rx <;> rfl

theorem i2c_receive_byte_forget (s : System) :
    i2c_receive_byte (forget_writes s) = forget_writes (i2c_receive_byte s) := by
  rw [i2c_receive_byte_eq (forget_writes s), i2c_receive_byte_eq s]
  simp only [forget_writes_i2c_cmd, forget_writes_load, forget_writes_RXDATA,
    forget_writes_store_load]
  exact forget_writes_store_store _ _ _ _ _
theorem outcome_ok (s : System) : outcome (.ok s) = .ok (forget_writes s) := rfl

theorem outcome_pure (s : System) : outcome (pure s) = .ok (forget_writes s) := rfl

theorem outcome_assert (s : System) :
    outcome (do EFM_ASSERT false s; pure s) = .error (Fault.assertion, forget_writes s) := rfl

theorem i2c_ack_forget (s : System) :
    outcome (i2c_ack (forget_writes s)) = outcome (i2c_ack s) := by
  cases hst : s.i2c_cmd.current_state <;>
    simp only [i2c_ack, forget_writes_i2c_cmd, hst] <;>
    (try split) <;>
    simp only [outcome_pure, outcome_assert, forget_writes_set_i2c_state, forget_writes_TXDATA,
      forget_writes_CMD, forget_writes_idem, forget_writes_send_next_byte,
      forget_writes_i2c_cmd] <;>
    rfl

theorem i2c_nack_forget (s : System) :
    outcome (i2c_nack (forget_writes s)) = outcome (i2c_nack s) := by
  cases hst : s.i2c_cmd.current_state <;>
    simp only [i2c_nack, forget_writes_i2c_cmd, hst] <;>
    simp only [outcome_pure, outcome_assert, forget_writes_TXDATA, forget_writes_CMD,
      forget_writes_idem]

theorem i2c_rxdatav_forget (s : System) :
    outcome (i2c_rxdatav (forget_writes s)) = outcome (i2c_rxdatav s) := by
  cases hst : s.i2c_cmd.current_state <;>
    simp only [i2c_rxdatav, forget_writes_i2c_cmd, hst, i2c_receive_byte_forget] <;>
    (try split) <;>
    simp only [outcome_pure, outcome_assert, forget_writes_set_i2c_state, forget_writes_CMD,
      forget_writes_idem]

theorem i2c_mstop_forget (s : System) :
    outcome (i2c_mstop (forget_writes s)) = outcome (i2c_mstop s) := by
  cases hst : s.i2c_cmd.current_state
  case SEND_STOP_CMD =>
    rw [i2c_mstop_SEND_STOP_CMD s hst, i2c_mstop_SEND_STOP_CMD (forget_writes s) (by exact hst)]
    rfl
  all_goals
    simp only [i2c_mstop, forget_writes_i2c_cmd, hst]
    simp only [outcome_assert, forget_writes_idem]

/-- An interrupt handler does not read the values written to `CMD` and `TXDATA`. -/
theorem run_forget (q : I2cIrq) (s : System) :
    outcome (q.run (forget_writes s)) = outcome (q.run s) := by
  cases q with
  | ACK => exact i2c_ack_forget s
  | NACK => exact i2c_nack_forget s
  | RXDATAV b =>
    simp only [I2cIrq.run, forget_writes_i2c_cmd, forget_writes_set_RXDATA]
    exact i2c_rxdatav_forget _
  | MSTOP => exact i2c_mstop_forget s

theorem outcome_bind_congr (x y : Result System) (f : System → Result System)
    (hxy : outcome x = outcome y)
    (hf : ∀ a b, forget_writes a = forget_writes b → outcome (f a) = outcome (f b)) :
    outcome (x >>= f) = outcome (y >>= f) := by
  cases x with
  | error e =>
    cases y with
    | error e2 => exact hxy
    | ok b => cases hxy
  | ok a =>
    cases y with
    | error e2 => cases hxy
    | ok b =>
      rw [ok_bind, ok_bind]
      exact hf a b (Except.ok.inj hxy)

/-- Runs from two states that differ only in the values written to `CMD` and `TXDATA` have
the same outcome. -/
theorem i2c_run_congr (qs : List I2cIrq) :
    ∀ (s t : System), forget_writes s = forget_writes t
      → outcome (i2c_run qs s) = outcome (i2c_run qs t) := by
  induction qs with
  | nil =>
    intro s t h
    exact congrArg Except.ok h
  | cons q qs ih =>
    intro s t h
    rw [i2c_run_cons, i2c_run_cons]
    apply outcome_bind_congr _ _ _ _ ih
    rw [← run_forget q s, ← run_forget q t, h]

theorem i2c_nack_WAIT_CONVERSION (s : System)
    (h : s.i2c_cmd.current_state = i2c_states.WAIT_CONVERSION) :
    i2c_nack s = .ok (i2c_write_TXDATA s.i2c_cmd.i2c
        (((s.i2c_cmd.device_address <<< 1) % U32) ||| READ)
        (i2c_write_CMD s.i2c_cmd.i2c I2C_CMD_START s)) := by
  simp only [i2c_nack, h, i2c_write_CMD_i2c_cmd]; rfl

/-- NACKs delivered in `WAIT_CONVERSION` do not change the outcome of what follows. -/
theorem nack_run_outcome (k : Nat) (rest : List I2cIrq) :
    ∀ (s : System), s.i2c_cmd.current_state = i2c_states.WAIT_CONVERSION
      → outcome (i2c_run (List.replicate k I2cIrq.NACK ++ rest) s) = outcome (i2c_run rest s) := by
  induction k with
  | zero =>
    intro s _
    rfl
  | succ k ih =>
    intro s h
    rw [List.replicate_succ, List.cons_append, i2c_run_cons, I2cIrq.run,
      i2c_nack_WAIT_CONVERSION s h, ok_bind, ih _ (by simpa using h)]
    apply i2c_run_congr
    rw [forget_writes_TXDATA, forget_writes_CMD]

theorem i2c_run_two_acks (s : System)
    (h : s.i2c_cmd.current_state = i2c_states.SEND_DEVICE_ADDR) (hrw : s.i2c_cmd.rw = true) :
    ∃ s2, s2.i2c_cmd.current_state = i2c_states.WAIT_CONVERSION
      ∧ ∀ l, i2c_run (I2cIrq.ACK :: I2cIrq.ACK :: l) s = i2c_run l s2 := by
  refine ⟨i2c_write_TXDATA s.i2c_cmd.i2c (((s.i2c_cmd.device_address <<< 1) % U32) ||| READ)
      (i2c_write_CMD s.i2c_cmd.i2c I2C_CMD_START
        (set_i2c_state i2c_states.WAIT_CONVERSION
          (set_i2c_state i2c_states.SEND_REGISTER_ADDR
            (i2c_write_TXDATA s.i2c_cmd.i2c s.i2c_cmd.register_address s)))), ?_, ?_⟩
  · simp only [i2c_write_TXDATA_i2c_cmd, i2c_write_CMD_i2c_cmd, set_i2c_state]
  · intro l
    rw [i2c_run_cons, I2cIrq.run, i2c_ack_SEND_DEVICE_ADDR s h, ok_bind, i2c_run_cons,
      I2cIrq.run, i2c_ack_SEND_REGISTER_ADDR_read _ (by rfl)
        (by simpa only [set_i2c_state, i2c_write_TXDATA_i2c_cmd] using hrw), ok_bind]
    simp only [set_i2c_state, i2c_write_TXDATA_i2c_cmd]

theorem or_READ_lt (x : Nat) : ((x % U32) ||| READ) % U32 = (x % U32) ||| READ :=
  Nat.mod_eq_of_lt (Nat.or_lt_two_pow (Nat.mod_lt _ (by decide)) (by decide))

/-- C13: for every `k`, a read in which the read-address step is answered by `k` NACKs before
the interrupts `rest` has the same outcome as the read with `k = 0`: the same fault or
return and, up to the values written to `CMD` and `TXDATA`, the same final state (engine
state, receive cell, busy flag, pending events).  Each NACK in `WAIT_CONVERSION` returns,
writes START to `CMD` and `(device_address << 1) | READ` to `TXDATA` and changes nothing
else: the descriptor, with its state and byte count, is the same. -/
theorem nack_retries_are_transparent (s : System) (p : I2C_Periph)
    (device_address register_address num_bytes event_cb k : Nat) (rx_data tx_data : Cell)
    (rest : List I2cIrq)
    (hidle : (s.i2c_regs p).STATE &&& I2C_STATE_STATE_MASK = I2C_STATE_STATE_IDLE) :
    outcome (i2c_start p device_address register_address true rx_data tx_data num_bytes
          event_cb s
        >>= i2c_run (I2cIrq.ACK :: I2cIrq.ACK :: (List.replicate k I2cIrq.NACK ++ rest)))
      = outcome (i2c_start p device_address register_address true rx_data tx_data num_bytes
          event_cb s
        >>= i2c_run (I2cIrq.ACK :: I2cIrq.ACK :: rest))
    ∧ ∀ t, t.i2c_cmd.current_state = i2c_states.WAIT_CONVERSION →
        ∃ t1, I2cIrq.NACK.run t = .ok t1
          ∧ t1.i2c_cmd = t.i2c_cmd
          ∧ forget_writes t1 = forget_writes t
          ∧ (t1.i2c_regs t.i2c_cmd.i2c).CMD = (t.i2c_regs t.i2c_cmd.i2c).CMD ++ [I2C_CMD_START]
          ∧ (t1.i2c_regs t.i2c_cmd.i2c).TXDATA
              = (t.i2c_regs t.i2c_cmd.i2c).TXDATA
                ++ [((t.i2c_cmd.device_address <<< 1) % U32) ||| READ] := by
  constructor
  · rw [i2c_start_ok _ _ _ _ _ _ _ _ _ hidle, ok_bind, ok_bind]
    obtain ⟨s2, h2, hrun⟩ := i2c_run_two_acks _
      (by simp only [i2c_write_TXDATA_i2c_cmd, i2c_write_CMD_i2c_cmd] :
        (i2c_write_TXDATA p ((((device_address % U32) <<< 1) % U32) ||| WRITE)
          (i2c_write_CMD p I2C_CMD_START
            { s with
              lowest_energy_mode := s.lowest_energy_mode.set I2C_EM_BLOCK 1
              i2c_cmd :=
                { current_state := i2c_states.SEND_DEVICE_ADDR
                  i2c := p
                  device_address := device_address % U32
                  register_address := register_address % U32
                  rw := true
                  rx_data := rx_data
                  tx_data := tx_data
                  num_bytes := num_bytes % U32
                  sm_busy := true
                  event_cb := event_cb % U32 } })).i2c_cmd.current_state
          = i2c_states.SEND_DEVICE_ADDR)
      (by simp only [i2c_write_TXDATA_i2c_cmd, i2c_write_CMD_i2c_cmd])
    rw [hrun, hrun]
    exact nack_run_outcome k rest s2 h2
  · intro t ht
    refine ⟨_, i2c_nack_WAIT_CONVERSION t ht, ?_, ?_, ?_, ?_⟩
    · simp only [i2c_write_TXDATA_i2c_cmd, i2c_write_CMD_i2c_cmd]
    · rw [forget_writes_TXDATA, forget_writes_CMD]
    · cases t.i2c_cmd.i2c <;> rfl
    · cases t.i2c_cmd.i2c <;>
        simp only [i2c_write_TXDATA, i2c_write_CMD, System.set_i2c_regs, System.i2c_regs,
          or_READ_lt]

theorem nack_retries_are_transparent_witness :
    (boot.i2c_regs I2C_Periph.I2C0).STATE &&& I2C_STATE_STATE_MASK = I2C_STATE_STATE_IDLE
    ∧ waiting_read.i2c_cmd.current_state = i2c_states.WAIT_CONVERSION
    ∧ outcome (i2c_start I2C_Periph.I2C0 SI7021_DEVICE_ADDRESS SI7021_READ_TEMP_CMD true
          Cell.si7021_i2c_rx_data Cell.si7021_i2c_tx_data TWO_BYTES 8 boot
        >>= i2c_run (I2cIrq.ACK :: I2cIrq.ACK :: (List.replicate 2 I2cIrq.NACK
              ++ [I2cIrq.ACK, I2cIrq.RXDATAV 0x60, I2cIrq.RXDATAV 0x00, I2cIrq.MSTOP])))
      = outcome (i2c_start I2C_Periph.I2C0 SI7021_DEVICE_ADDRESS SI7021_READ_TEMP_CMD true
          Cell.si7021_i2c_rx_data Cell.si7021_i2c_tx_data TWO_BYTES 8 boot
        >>= i2c_run (I2cIrq.ACK :: I2cIrq.ACK
              :: [I2cIrq.ACK, I2cIrq.RXDATAV 0x60, I2cIrq.RXDATAV 0x00, I2cIrq.MSTOP]))
    ∧ ∃ t1, I2cIrq.NACK.run waiting_read = .ok t1 ∧ t1.i2c_cmd = waiting_read.i2c_cmd :=
  ⟨by decide, rfl,
    (nack_retries_are_transparent boot I2C_Periph.I2C0 SI7021_DEVICE_ADDRESS
      SI7021_READ_TEMP_CMD TWO_BYTES 8 2 Cell.si7021_i2c_rx_data Cell.si7021_i2c_tx_data
      [I2cIrq.ACK, I2cIrq.RXDATAV 0x60, I2cIrq.RXDATAV 0x00, I2cIrq.MSTOP] (by decide)).1,
    (((nack_retries_are_transparent boot I2C_Periph.I2C0 SI7021_DEVICE_ADDRESS
      SI7021_READ_TEMP_CMD TWO_BYTES 8 2 Cell.si7021_i2c_rx_data Cell.si7021_i2c_tx_data
      [] (by decide)).2 waiting_read rfl).imp fun _ h => ⟨h.1, h.2.1⟩)⟩

/-- C14: the interrupt handlers return on exactly the seven (state, interrupt) pairs of
`i2c_handles`, which are (SEND_DEVICE_ADDR, ACK), (SEND_REGISTER_ADDR, ACK),
(WAIT_CONVERSION, ACK), (WAIT_CONVERSION, NACK), (DATA_WRITE, ACK), (DATA_READ, RXDATAV) and
(SEND_STOP_CMD, MSTOP); on every other pair of a state and an interrupt the handler stops at
the fatal assertion with the transaction descriptor as it was. -/
theorem i2c_transition_table (q : I2cIrq) (s : System) :
    (i2c_handles s.i2c_cmd.current_state q = true → ∃ s1, q.run s = .ok s1)
    ∧ (i2c_handles s.i2c_cmd.current_state q = false
        → ∃ s1, q.run s = .error (Fault.assertion, s1) ∧ s1.i2c_cmd = s.i2c_cmd)
    ∧ ∀ st irq, i2c_handles st irq = true ↔
        (st = i2c_states.SEND_DEVICE_ADDR ∧ irq = I2cIrq.ACK)
        ∨ (st = i2c_states.SEND_REGISTER_ADDR ∧ irq = I2cIrq.ACK)
        ∨ (st = i2c_states.WAIT_CONVERSION ∧ irq = I2cIrq.ACK)
        ∨ (st = i2c_states.WAIT_CONVERSION ∧ irq = I2cIrq.NACK)
        ∨ (st = i2c_states.DATA_WRITE ∧ irq = I2cIrq.ACK)
        ∨ (st = i2c_states.DATA_READ ∧ ∃ b, irq = I2cIrq.RXDATAV b)
        ∨ (st = i2c_states.SEND_STOP_CMD ∧ irq = I2cIrq.MSTOP) := by
  refine ⟨?_, ?_, ?_⟩
  · cases q with
    | ACK => exact (i2c_ack_table s).1
    | NACK => exact (i2c_nack_table s).1
    | RXDATAV b =>
      intro h
      exact (i2c_rxdatav_table _ b).1 (by simpa only [set_i2c_regs_i2c_cmd] using h)
    | MSTOP => exact (i2c_mstop_table s).1
  · cases q with
    | ACK => exact fun h => ⟨s, (i2c_ack_table s).2 h, rfl⟩
    | NACK => exact fun h => ⟨s, (i2c_nack_table s).2 h, rfl⟩
    | RXDATAV b =>
      intro h
      exact ⟨_, (i2c_rxdatav_table _ b).2 (by simpa only [set_i2c_regs_i2c_cmd] using h),
        set_i2c_regs_i2c_cmd _ _ _⟩
    | MSTOP => exact fun h => ⟨s, (i2c_mstop_table s).2 h, rfl⟩
  · intro st irq
    cases st <;> cases irq <;> simp [i2c_handles]

theorem i2c_transition_table_witness :
    i2c_handles waiting_read.i2c_cmd.current_state I2cIrq.NACK = true
    ∧ i2c_handles waiting_read.i2c_cmd.current_state I2cIrq.MSTOP = false
    ∧ (∃ s1, I2cIrq.NACK.run waiting_read = .ok s1)
    ∧ ∃ s1, I2cIrq.MSTOP.run waiting_read = .error (Fault.assertion, s1)
        ∧ s1.i2c_cmd = waiting_read.i2c_cmd :=
  ⟨rfl, rfl, (i2c_transition_table I2cIrq.NACK waiting_read).1 rfl,
    (i2c_transition_table I2cIrq.MSTOP waiting_read).2.1 rfl⟩

theorem testBit_or_of_false (x e i : Nat) (h : e.testBit i = false) :
    (x ||| e).testBit i = x.testBit i := by
  rw [Nat.testBit_or, h, Bool.or_false]

theorem testBit_or_of_true (x e i : Nat) (h : e.testBit i = true) :
    (x ||| e).testBit i = true := by
  rw [Nat.testBit_or, h, Bool.or_true]

/-- C15: an MSTOP interrupt in state `SEND_STOP_CMD` returns with the state back at
`SEND_DEVICE_ADDR`, the state at reset and the one `i2c_start` sets; `i2c_busy` is false;
the entry of level `I2C_EM_BLOCK = EM2` of the block table is cleared and no other entry
changes; the pending set is the old one ORed with the completion event of the transaction:
every bit of the event is set and every other bit is as before. -/
theorem i2c_mstop_completion (s : System)
    (h : s.i2c_cmd.current_state = i2c_states.SEND_STOP_CMD) :
    ∃ s1, I2cIrq.MSTOP.run s = .ok s1
      ∧ s1.i2c_cmd.current_state = i2c_states.SEND_DEVICE_ADDR
      ∧ s1.i2c_cmd.current_state = boot.i2c_cmd.current_state
      ∧ i2c_busy s1 = false
      ∧ I2C_EM_BLOCK = EM2
      ∧ ¬ blocked s1 EM2
      ∧ (∀ k, k ≠ EM2 → s1.lowest_energy_mode.getD k 0 = s.lowest_energy_mode.getD k 0)
      ∧ get_scheduled_events s1 = get_scheduled_events s ||| (s.i2c_cmd.event_cb % U32)
      ∧ (∀ i, (s.i2c_cmd.event_cb % U32).testBit i = true
          → (get_scheduled_events s1).testBit i = true)
      ∧ (∀ i, (s.i2c_cmd.event_cb % U32).testBit i = false
          → (get_scheduled_events s1).testBit i = (get_scheduled_events s).testBit i) := by
  refine ⟨_, i2c_mstop_SEND_STOP_CMD s h, rfl, rfl, rfl, rfl, ?_, ?_, rfl, ?_, ?_⟩
  · show ¬ (s.lowest_energy_mode.set EM2 0).getD EM2 0 ≠ 0
    rw [getD_set_zero, if_pos rfl]
    exact fun hne => hne rfl
  · intro k hk
    show (s.lowest_energy_mode.set EM2 0).getD k 0 = s.lowest_energy_mode.getD k 0
    rw [getD_set_zero, if_neg (Ne.symm hk)]
  · intro i hi
    exact testBit_or_of_true _ _ _ hi
  · intro i hi
    exact testBit_or_of_false _ _ _ hi

theorem i2c_mstop_completion_witness :
    stopping_read.i2c_cmd.current_state = i2c_states.SEND_STOP_CMD
    ∧ i2c_busy stopping_read = true
    ∧ blocked stopping_read EM2
    ∧ get_scheduled_events stopping_read = 1
    ∧ ∃ s1, I2cIrq.MSTOP.run stopping_read = .ok s1
        ∧ s1.i2c_cmd.current_state = i2c_states.SEND_DEVICE_ADDR
        ∧ i2c_busy s1 = false
        ∧ ¬ blocked s1 EM2
        ∧ get_scheduled_events s1
            = get_scheduled_events stopping_read ||| (stopping_read.i2c_cmd.event_cb % U32) :=
  ⟨rfl, rfl, by decide, rfl,
    (i2c_mstop_completion stopping_read rfl).imp
      fun _ h => ⟨h.1, h.2.1, h.2.2.2.1, h.2.2.2.2.2.1, h.2.2.2.2.2.2.2.1⟩⟩

/-! ## Bus engine: the bytes of a write -/

/-- C11: evaluation at a two-byte write of the value 0x1234 to register 0xE6.  After
`si7021_write` and the interrupts ACK, ACK, ACK, ACK, MSTOP the transaction has ended
without an assertion and the bytes written to `TXDATA` are the address byte 0x80, the
register byte 0xE6 and the data bytes 0x00 and 0x34: the first data byte is 0x00, not 0x12.
The write path computes `(uint8_t)(*tx_data << (8 * num_bytes))`, which for the remaining
count 1 is 0 whatever the value. -/
theorem two_byte_write_sends_zero_first :
    (∃ s1, (si7021_write 8 TWO_BYTES 0xE6 { boot with si7021_i2c_tx_data := 0x1234 }
          >>= i2c_run [I2cIrq.ACK, I2cIrq.ACK, I2cIrq.ACK, I2cIrq.ACK, I2cIrq.MSTOP]) = .ok s1
      ∧ s1.I2C0.TXDATA = [0x80, 0xE6, 0x00, 0x34]
      ∧ i2c_busy s1 = false)
    ∧ ∀ v, ((v <<< ((SHIFT * 1) % U32)) % U32) % U8 = 0 := by
  refine ⟨⟨_, rfl, rfl, rfl⟩, ?_⟩
  intro v
  have h : (SHIFT * 1) % U32 = 8 := by decide
  rw [h, Nat.shiftLeft_eq]
  unfold U32 U8
  omega

/-! ## Transmit path: a message enqueued during a transfer -/

set_option maxRecDepth 100000 in
/-- C16: evaluation at two messages.  From the initialised ring buffer with the serial
peripheral idle and `BLE_TX_DONE_CB` registered, "hi" is enqueued and its first byte goes
out; a message of 63 bytes is then enqueued, which fits the 64 free bytes; the interrupts are
delivered until the transmission completes and `scheduled_ble_tx_done_cb` runs.  No
assertion is hit, the transmitter is idle, nothing is pending and the ring buffer reports
empty, yet the bytes written to `TXDATA` are those of "hi" alone: the second message is
lost. -/
theorem enqueued_message_is_lost :
    ∃ s1 s2, tx_run [TxStep.write [104, 105], TxStep.irq LeuartIrq.TXBL]
          { ble_circ_init boot with tx_done_evt := BLE_TX_DONE_CB } = .ok s1
      ∧ leuart_tx_busy s1 = true
      ∧ strlen (List.replicate 63 65) + 1 ≤ ble_circ_space s1
      ∧ tx_run [TxStep.write (List.replicate 63 65), TxStep.irq LeuartIrq.TXBL,
          TxStep.irq LeuartIrq.TXBL, TxStep.irq LeuartIrq.TXC, TxStep.tx_done] s1 = .ok s2
      ∧ s2.LEUART0.TXDATA = [104, 105]
      ∧ leuart_tx_busy s2 = false
      ∧ get_scheduled_events s2 = 0
      ∧ ble_circ_pop false s2 = .ok (true, s2) := by
  refine ⟨_, _, rfl, rfl, by decide, rfl, rfl, rfl, rfl, rfl⟩

/-! ## Event masks of the application -/

theorem event_masks_disjoint :
    ∀ a ∈ event_masks, ∀ b ∈ event_masks, a ≠ b → a &&& b = 0 := by decide

/-- C30: each of the seven scheduled-event masks of `app.h` is one bit of a 32-bit word, two
different masks of the list share no bit, the seven masks are different, and no bit
position is set in two of them. -/
theorem event_bits_unique :
    (∀ m ∈ event_masks, ∃ k, k < 32 ∧ m = 2 ^ k)
    ∧ event_masks.Pairwise (fun a b => a &&& b = 0)
    ∧ event_masks.Nodup
    ∧ event_masks.length = 7
    ∧ ∀ i, ∀ a ∈ event_masks, ∀ b ∈ event_masks,
        a.testBit i = true → b.testBit i = true → a = b := by
  refine ⟨?_, by decide, by decide, rfl, ?_⟩
  · intro m hm
    simp only [event_masks, List.mem_cons, List.mem_singleton, List.not_mem_nil, or_false] at hm
    rcases hm with h | h | h | h | h | h | h
    · exact ⟨0, by decide, h⟩
    · exact ⟨1, by decide, h⟩
    · exact ⟨2, by decide, h⟩
    · exact ⟨3, by decide, h⟩
    · exact ⟨4, by decide, h⟩
    · exact ⟨5, by decide, h⟩
    · exact ⟨6, by decide, h⟩
  · intro i a ha b hb hai hbi
    by_contra hne
    have h := event_masks_disjoint a ha b hb hne
    have hz : (a &&& b).testBit i = true := by
      rw [Nat.testBit_and, hai, hbi]
      rfl
    rw [h, Nat.zero_testBit] at hz
    exact Bool.noConfusion hz

/-! ## Event scheduler: order of the calls -/

theorem or_or_swap (x a b : Nat) : (x ||| a) ||| b = (x ||| b) ||| a := by
  apply Nat.eq_of_testBit_eq
  intro i
  simp only [Nat.testBit_or]
  cases x.testBit i <;> cases a.testBit i <;> cases b.testBit i <;> rfl

theorem or_mod_U32 (a b : Nat) : (a ||| b) % U32 = a % U32 ||| b % U32 := by
  apply Nat.eq_of_testBit_eq
  intro i
  simp only [U32, Nat.testBit_mod_two_pow, Nat.testBit_or]
  cases decide (i < 32) <;> rfl

theorem or_or_merge (x a b : Nat) : (x ||| a % U32) ||| b % U32 = x ||| (a ||| b) % U32 := by
  rw [or_mod_U32]
  apply Nat.eq_of_testBit_eq
  intro i
  simp only [Nat.testBit_or]
  cases x.testBit i <;> cases (a % U32).testBit i <;> cases (b % U32).testBit i <;> rfl

theorem or_or_self (x a : Nat) : (x ||| a) ||| a = x ||| a := by
  apply Nat.eq_of_testBit_eq
  intro i
  simp only [Nat.testBit_or]
  cases x.testBit i <;> cases a.testBit i <;> rfl

theorem and_and_swap (x a b : Nat) : (x &&& a) &&& b = (x &&& b) &&& a := by
  apply Nat.eq_of_testBit_eq
  intro i
  simp only [Nat.testBit_and]
  cases x.testBit i <;> cases a.testBit i <;> cases b.testBit i <;> rfl

theorem or_and_not32_swap (x a b : Nat) (h : a &&& b = 0) :
    (x ||| a % U32) &&& not32 b = (x &&& not32 b) ||| a % U32 := by
  apply Nat.eq_of_testBit_eq
  intro i
  have hi : (a &&& b).testBit i = false := by rw [h, Nat.zero_testBit]
  rw [Nat.testBit_and] at hi
  simp only [U32, Nat.testBit_mod_two_pow, Nat.testBit_or, Nat.testBit_and, testBit_not32]
  cases hx : x.testBit i <;> cases ha : a.testBit i <;> cases hb : b.testBit i <;>
    cases decide (i < 32) <;> simp_all

/-- C27: for all masks `a`, `b` and every state, `add(a); add(b)` gives the same state as
`add(b); add(a)` and as `add(a | b)`; `add(a)` twice gives the same as once;
`remove(a); remove(b)` gives the same as `remove(b); remove(a)`; and when `a` and `b` share
no bit, `add(a); remove(b)` gives the same as `remove(b); add(a)`. -/
theorem scheduler_calls_commute (a b : Nat) (s : System) :
    add_scheduled_event b (add_scheduled_event a s)
        = add_scheduled_event a (add_scheduled_event b s)
    ∧ add_scheduled_event b (add_scheduled_event a s) = add_scheduled_event (a ||| b) s
    ∧ add_scheduled_event a (add_scheduled_event a s) = add_scheduled_event a s
    ∧ remove_scheduled_event b (remove_scheduled_event a s)
        = remove_scheduled_event a (remove_scheduled_event b s)
    ∧ (a &&& b = 0 → remove_scheduled_event b (add_scheduled_event a s)
        = add_scheduled_event a (remove_scheduled_event b s)) := by
  refine ⟨?_, ?_, ?_, ?_, ?_⟩
  · exact congrArg (fun e => ({ s with event_scheduled := e } : System))
      (or_or_swap s.event_scheduled (a % U32) (b % U32))
  · exact congrArg (fun e => ({ s with event_scheduled := e } : System))
      (or_or_merge s.event_scheduled a b)
  · exact congrArg (fun e => ({ s with event_scheduled := e } : System))
      (or_or_self s.event_scheduled (a % U32))
  · exact congrArg (fun e => ({ s with event_scheduled := e } : System))
      (and_and_swap s.event_scheduled (not32 a) (not32 b))
  · intro h
    exact congrArg (fun e => ({ s with event_scheduled := e } : System))
      (or_and_not32_swap s.event_scheduled a b h)

theorem scheduler_calls_commute_witness :
    LETIMER0_UF_CB &&& BLE_TX_DONE_CB = 0
    ∧ remove_scheduled_event BLE_TX_DONE_CB (add_scheduled_event LETIMER0_UF_CB boot)
        = add_scheduled_event LETIMER0_UF_CB (remove_scheduled_event BLE_TX_DONE_CB boot) :=
  ⟨by decide, (scheduler_calls_commute LETIMER0_UF_CB BLE_TX_DONE_CB boot).2.2.2.2 (by decide)⟩

/-! ## Serial transmit engine: completion and transition table -/

theorem and_not32_pair (x : Nat) :
    (x &&& (not32 LEUART_IEN_TXC &&& not32 LEUART_IEN_TXBL)) &&& LEUART_IEN_TXBL = 0
    ∧ (x &&& (not32 LEUART_IEN_TXC &&& not32 LEUART_IEN_TXBL)) &&& LEUART_IEN_TXC = 0
    ∧ ∀ i, i < 32 → (LEUART_IEN_TXBL ||| LEUART_IEN_TXC).testBit i = false
        → (x &&& (not32 LEUART_IEN_TXC &&& not32 LEUART_IEN_TXBL)).testBit i = x.testBit i := by
  refine ⟨?_, ?_, ?_⟩
  · apply Nat.eq_of_testBit_eq
    intro i
    simp only [Nat.testBit_and, testBit_not32, Nat.zero_testBit]
    cases x.testBit i <;> cases LEUART_IEN_TXC.testBit i <;> cases LEUART_IEN_TXBL.testBit i <;>
      cases decide (i < 32) <;> rfl
  · apply Nat.eq_of_testBit_eq
    intro i
    simp only [Nat.testBit_and, testBit_not32, Nat.zero_testBit]
    cases x.testBit i <;> cases LEUART_IEN_TXC.testBit i <;> cases LEUART_IEN_TXBL.testBit i <;>
      cases decide (i < 32) <;> rfl
  · intro i hi h
    rw [Nat.testBit_or] at h
    simp only [Nat.testBit_and, testBit_not32, hi, decide_True, Bool.true_and]
    cases hx : x.testBit i <;> cases hc : LEUART_IEN_TXC.testBit i <;>
      cases hb : LEUART_IEN_TXBL.testBit i <;> simp_all

/-- C21: in state `CLOSE` the handler of the TXC interrupt returns, and so does
`LEUART0_IRQHandler` on a TXC flag that is enabled, as it is in the `CLOSE` states the engine
reaches, with the TXBL and TXC bits of `IEN` clear
and every other bit of `IEN` as before, `leuart0_tx_busy` false, the pending set equal to the
old one ORed with `tx_done_evt` (every bit of the event set, every other bit as before), the
entry of level `LEUART_TX_EM` of the block table, which `leuart_start` sets, cleared and no
other entry changed, and the state back at `INITIALIZATION`, the state at reset. -/
theorem leuart_txc_completion (s : System)
    (h : s.leuart_cmd.current_state = leuart_states.CLOSE) :
    ∃ s1, leuart_txc s = .ok s1
      ∧ (s.LEUART0.IEN &&& LEUART_IEN_TXC ≠ 0 → LeuartIrq.TXC.run s = .ok s1)
      ∧ s1.LEUART0.IEN &&& LEUART_IEN_TXBL = 0
      ∧ s1.LEUART0.IEN &&& LEUART_IEN_TXC = 0
      ∧ (∀ i, i < 32 → (LEUART_IEN_TXBL ||| LEUART_IEN_TXC).testBit i = false
          → s1.LEUART0.IEN.testBit i = s.LEUART0.IEN.testBit i)
      ∧ leuart_tx_busy s1 = false
      ∧ get_scheduled_events s1 = get_scheduled_events s ||| (s.tx_done_evt % U32)
      ∧ (∀ i, (s.tx_done_evt % U32).testBit i = true
          → (get_scheduled_events s1).testBit i = true)
      ∧ (∀ i, (s.tx_done_evt % U32).testBit i = false
          → (get_scheduled_events s1).testBit i = (get_scheduled_events s).testBit i)
      ∧ s1.lowest_energy_mode = s.lowest_energy_mode.set LEUART_TX_EM 0
      ∧ ¬ blocked s1 LEUART_TX_EM
      ∧ (∀ k, k ≠ LEUART_TX_EM
          → s1.lowest_energy_mode.getD k 0 = s.lowest_energy_mode.getD k 0)
      ∧ s1.leuart_cmd.current_state = leuart_states.INITIALIZATION
      ∧ s1.leuart_cmd.current_state = boot.leuart_cmd.current_state := by
  refine ⟨_, leuart_txc_CLOSE s h, ?_, (and_not32_pair _).1, (and_not32_pair _).2.1,
    (and_not32_pair _).2.2, rfl, rfl, ?_, ?_, rfl, ?_, ?_, rfl, rfl⟩
  · intro hen
    rw [leuart_irq_txc_enabled s hen]
    exact leuart_txc_CLOSE s h
  · intro i hi
    exact testBit_or_of_true _ _ _ hi
  · intro i hi
    exact testBit_or_of_false _ _ _ hi
  · show ¬ (s.lowest_energy_mode.set LEUART_TX_EM 0).getD LEUART_TX_EM 0 ≠ 0
    rw [getD_set_zero, if_pos rfl]
    exact fun hne => hne rfl
  · intro k hk
    show (s.lowest_energy_mode.set LEUART_TX_EM 0).getD k 0 = s.lowest_energy_mode.getD k 0
    rw [getD_set_zero, if_neg (Ne.symm hk)]

set_option maxRecDepth 100000 in
theorem leuart_txc_completion_witness :
    closing_tx.leuart_cmd.current_state = leuart_states.CLOSE
    ∧ leuart_tx_busy closing_tx = true
    ∧ blocked closing_tx LEUART_TX_EM
    ∧ get_scheduled_events closing_tx = 0
    ∧ closing_tx.LEUART0.IEN = LEUART_IEN_TXC
    ∧ ∃ s1, LeuartIrq.TXC.run closing_tx = .ok s1
        ∧ s1.LEUART0.IEN &&& LEUART_IEN_TXBL = 0
        ∧ s1.LEUART0.IEN &&& LEUART_IEN_TXC = 0
        ∧ leuart_tx_busy s1 = false
        ∧ get_scheduled_events s1
            = get_scheduled_events closing_tx ||| (closing_tx.tx_done_evt % U32)
        ∧ ¬ blocked s1 LEUART_TX_EM
        ∧ s1.leuart_cmd.current_state = leuart_states.INITIALIZATION :=
  ⟨rfl, rfl, by decide, rfl, rfl,
    (leuart_txc_completion closing_tx rfl).imp fun _ h =>
      ⟨h.2.1 (by decide), h.2.2.1, h.2.2.2.1, h.2.2.2.2.2.1, h.2.2.2.2.2.2.1,
        h.2.2.2.2.2.2.2.2.2.2.1, h.2.2.2.2.2.2.2.2.2.2.2.2.1⟩⟩

theorem leuart_txbl_table (s : System) :
    (leuart_handles s.leuart_cmd.current_state LeuartIrq.TXBL = true
        → ∃ s1, leuart_txbl s = .ok s1)
    ∧ (leuart_handles s.leuart_cmd.current_state LeuartIrq.TXBL = false
        → leuart_txbl s = .error (Fault.assertion, s)) := by
  cases hst : s.leuart_cmd.current_state <;> simp only [leuart_handles, leuart_txbl, hst] <;>
    refine ⟨fun h => ?_, fun h => ?_⟩ <;>
    first
      | exact Bool.noConfusion h
      | rfl
      | (split <;> exact ⟨_, rfl⟩)

theorem leuart_txc_table (s : System) :
    (leuart_handles s.leuart_cmd.current_state LeuartIrq.TXC = true
        → ∃ s1, leuart_txc s = .ok s1)
    ∧ (leuart_handles s.leuart_cmd.current_state LeuartIrq.TXC = false
        → leuart_txc s = .error (Fault.assertion, s)) := by
  cases hst : s.leuart_cmd.current_state
  case CLOSE =>
    exact ⟨fun _ => ⟨_, leuart_txc_CLOSE s hst⟩, fun h => Bool.noConfusion h⟩
  all_goals
    simp only [leuart_handles, leuart_txc, hst]
    exact ⟨fun h => Bool.noConfusion h, fun _ => rfl⟩

set_option maxRecDepth 100000 in
/-- C22, as stated, fails: when the transmission of "hi" has drained its bytes the engine is
in `CLOSE` with only TXC enabled; a TXBL interrupt delivered then does not reach the fatal
assertion: `LEUART0_IRQHandler` masks the flag with `IEN`, calls no handler and returns with
the state unchanged. -/
theorem masked_txbl_is_ignored :
    closing_tx.leuart_cmd.current_state = leuart_states.CLOSE
    ∧ closing_tx.LEUART0.IEN = LEUART_IEN_TXC
    ∧ leuart_handles closing_tx.leuart_cmd.current_state LeuartIrq.TXBL = false
    ∧ LeuartIrq.TXBL.run closing_tx = .ok closing_tx
    ∧ LeuartIrq.TXBL.run closing_tx ≠ .error (Fault.assertion, closing_tx) :=
  ⟨rfl, rfl, rfl, rfl, by
    intro h
    rw [show LeuartIrq.TXBL.run closing_tx = .ok closing_tx from rfl] at h
    cases h⟩

/-- C22, amended: an interrupt of the serial peripheral whose enable bit is clear in `IEN` is
ignored in every state: `LEUART0_IRQHandler` returns with the state unchanged.  When the
enable bit is set, the handler returns on exactly the pairs (DATA_TRANSMISSION, TXBL) and
(CLOSE, TXC); on TXBL in `INITIALIZATION` or `CLOSE` and on TXC in `INITIALIZATION` or
`DATA_TRANSMISSION` it stops at the fatal assertion in the state of the call: descriptor,
busy flag and interrupt enables are as they were. -/
theorem leuart_transition_table (q : LeuartIrq) (s : System) :
    (s.LEUART0.IEN &&& q.flag = 0 → q.run s = .ok s)
    ∧ (s.LEUART0.IEN &&& q.flag ≠ 0 → leuart_handles s.leuart_cmd.current_state q = true
        → ∃ s1, q.run s = .ok s1)
    ∧ (s.LEUART0.IEN &&& q.flag ≠ 0 → leuart_handles s.leuart_cmd.current_state q = false
        → q.run s = .error (Fault.assertion, s))
    ∧ (∀ st irq, leuart_handles st irq = true ↔
        (st = leuart_states.DATA_TRANSMISSION ∧ irq = LeuartIrq.TXBL)
        ∨ (st = leuart_states.CLOSE ∧ irq = LeuartIrq.TXC))
    ∧ ∀ st irq, leuart_handles st irq = false ↔
        (st = leuart_states.INITIALIZATION ∧ irq = LeuartIrq.TXBL)
        ∨ (st = leuart_states.CLOSE ∧ irq = LeuartIrq.TXBL)
        ∨ (st = leuart_states.INITIALIZATION ∧ irq = LeuartIrq.TXC)
        ∨ (st = leuart_states.DATA_TRANSMISSION ∧ irq = LeuartIrq.TXC) := by
  refine ⟨?_, ?_, ?_, ?_, ?_⟩
  · cases q with
    | TXBL => exact leuart_irq_txbl_masked s
    | TXC => exact leuart_irq_txc_masked s
  · cases q with
    | TXBL =>
      intro hen
      rw [leuart_irq_txbl_enabled s hen]
      exact (leuart_txbl_table s).1
    | TXC =>
      intro hen
      rw [leuart_irq_txc_enabled s hen]
      exact (leuart_txc_table s).1
  · cases q with
    | TXBL =>
      intro hen
      rw [leuart_irq_txbl_enabled s hen]
      exact (leuart_txbl_table s).2
    | TXC =>
      intro hen
      rw [leuart_irq_txc_enabled s hen]
      exact (leuart_txc_table s).2
  · intro st irq
    cases st <;> cases irq <;> simp [leuart_handles]
  · intro st irq
    cases st <;> cases irq <;> simp [leuart_handles]

set_option maxRecDepth 100000 in
theorem leuart_transition_table_witness :
    closing_tx.LEUART0.IEN &&& LeuartIrq.TXC.flag ≠ 0
    ∧ leuart_handles closing_tx.leuart_cmd.current_state LeuartIrq.TXC = true
    ∧ (∃ s1, LeuartIrq.TXC.run closing_tx = .ok s1)
    ∧ closing_tx.LEUART0.IEN &&& LeuartIrq.TXBL.flag = 0
    ∧ LeuartIrq.TXBL.run closing_tx = .ok closing_tx
    ∧ queued_tx.LEUART0.IEN &&& LeuartIrq.TXBL.flag ≠ 0
    ∧ leuart_handles
        { queued_tx with leuart_cmd :=
            { queued_tx.leuart_cmd with current_state := leuart_states.CLOSE } }.leuart_cmd.current_state
        LeuartIrq.TXBL = false
    ∧ LeuartIrq.TXBL.run
        { queued_tx with leuart_cmd :=
            { queued_tx.leuart_cmd with current_state := leuart_states.CLOSE } }
        = .error (Fault.assertion,
            { queued_tx with leuart_cmd :=
                { queued_tx.leuart_cmd with current_state := leuart_states.CLOSE } }) :=
  ⟨by decide, rfl, (leuart_transition_table LeuartIrq.TXC closing_tx).2.1 (by decide) rfl,
    by decide, (leuart_transition_table LeuartIrq.TXBL closing_tx).1 (by decide),
    by decide, rfl,
    (leuart_transition_table LeuartIrq.TXBL
      { queued_tx with leuart_cmd :=
          { queued_tx.leuart_cmd with current_state := leuart_states.CLOSE } }).2.2.1
      (by decide) rfl⟩

/-! ## Transmit ring buffer: the result of a pop -/

theorem pop_busy (test : Bool) (s : System)
    (hne : s.ble_cbuf.read_ptr ≠ s.ble_cbuf.write_ptr) (hbusy : leuart_tx_busy s = true) :
    ble_circ_pop test s = .ok (false, s) := by
  simp only [ble_circ_pop, hne, hbusy, if_false, if_true]
  rfl

theorem pop_of_empty (test : Bool) (s : System)
    (he : s.ble_cbuf.read_ptr = s.ble_cbuf.write_ptr) :
    ble_circ_pop test s = .ok (true, s) := by
  simp only [ble_circ_pop, he, if_true]
  rfl

theorem pop_loop_frame : ∀ (n i : Nat) (s s1 : System), pop_loop i n s = .ok s1 →
    s1 = { s with popped_string := s1.popped_string, ble_cbuf := s1.ble_cbuf } := by
  intro n
  induction n with
  | zero =>
    intro i s s1 h
    cases h
    rfl
  | succ n ih =>
    intro i s s1 h
    rw [pop_loop] at h
    split at h
    · have e := ih _ _ _ h
      exact e
    · cases h

theorem pop_loop_ok : ∀ (n i : Nat) (s : System), i + n ≤ CSIZE →
    ∃ s1, pop_loop i n s = .ok s1 := by
  intro n
  induction n with
  | zero =>
    intro i s _
    exact ⟨s, rfl⟩
  | succ n ih =>
    intro i s h
    rw [pop_loop, if_pos (by omega)]
    exact ih _ _ (by omega)

theorem copy_loop_frame : ∀ (n i : Nat) (s s1 : System), copy_loop i n s = .ok s1 →
    s1 = { s with test_struct := s1.test_struct } := by
  intro n
  induction n with
  | zero =>
    intro i s s1 h
    cases h
    rfl
  | succ n ih =>
    intro i s s1 h
    rw [copy_loop] at h
    split at h
    · have e := ih _ _ _ h
      exact e
    · cases h

theorem copy_loop_ok : ∀ (n i : Nat) (s : System), i + n ≤ CSIZE →
    ∃ s1, copy_loop i n s = .ok s1 := by
  intro n
  induction n with
  | zero =>
    intro i s _
    exact ⟨s, rfl⟩
  | succ n ih =>
    intro i s h
    rw [copy_loop, if_pos (by omega)]
    exact ih _ _ (by omega)

/-- The body of `ble_circ_pop` when the buffer is not empty and the engine is not busy. -/
theorem pop_unfold (test : Bool) (s : System)
    (hne : s.ble_cbuf.read_ptr ≠ s.ble_cbuf.write_ptr) (hbusy : leuart_tx_busy s = false) :
    ble_circ_pop test s
      = (pop_loop 0 ((s.ble_cbuf.cbuf.getD s.ble_cbuf.read_ptr 0 + U8 - 1) % U8)
            { s with ble_cbuf := update_circ_readindex s.ble_cbuf 1 } >>= fun s2 =>
          if (s.ble_cbuf.cbuf.getD s.ble_cbuf.read_ptr 0 + U8 - 1) % U8 < CSIZE then
            if test = true then
              copy_loop 0 ((s.ble_cbuf.cbuf.getD s.ble_cbuf.read_ptr 0 + U8 - 1) % U8 + 1)
                  { s2 with
                    popped_string :=
                      s2.popped_string.set
                        ((s.ble_cbuf.cbuf.getD s.ble_cbuf.read_ptr 0 + U8 - 1) % U8) 0 }
                >>= fun s4 => pure (false, s4)
            else
              leuart_start (CharPtr.popped 0)
                  ((s.ble_cbuf.cbuf.getD s.ble_cbuf.read_ptr 0 + U8 - 1) % U8)
                  { s2 with
                    popped_string :=
                      s2.popped_string.set
                        ((s.ble_cbuf.cbuf.getD s.ble_cbuf.read_ptr 0 + U8 - 1) % U8) 0 }
                >>= fun s4 => pure (false, s4)
          else .error (Fault.out_of_bounds, s2)) := by
  have hb : ¬ (leuart_tx_busy s = true) := by rw [hbusy]; exact Bool.false_ne_true
  unfold ble_circ_pop
  rw [if_neg hne, if_neg hb]

/-- The ways in which `ble_circ_pop` returns: the buffer is empty; the engine is busy; or
the head message, shorter than `CSIZE`, was moved to `popped_string` and then captured in
`result_str` or handed to `leuart_start`. -/
theorem pop_cases (test : Bool) (s : System) (r : Bool × System)
    (h : ble_circ_pop test s = .ok r) :
    (s.ble_cbuf.read_ptr = s.ble_cbuf.write_ptr ∧ r = (true, s))
    ∨ (s.ble_cbuf.read_ptr ≠ s.ble_cbuf.write_ptr ∧ r = (false, s))
    ∨ (s.ble_cbuf.read_ptr ≠ s.ble_cbuf.write_ptr ∧ ∃ s2 s4 L,
        pop_loop 0 L { s with ble_cbuf := update_circ_readindex s.ble_cbuf 1 } = .ok s2
        ∧ L < CSIZE ∧ r = (false, s4)
        ∧ (copy_loop 0 (L + 1) { s2 with popped_string := s2.popped_string.set L 0 } = .ok s4
          ∨ leuart_start (CharPtr.popped 0) L
              { s2 with popped_string := s2.popped_string.set L 0 } = .ok s4)) := by
  by_cases he : s.ble_cbuf.read_ptr = s.ble_cbuf.write_ptr
  · rw [pop_of_empty test s he] at h
    cases h
    exact Or.inl ⟨he, rfl⟩
  · by_cases hb : leuart_tx_busy s = true
    · rw [pop_busy test s he hb] at h
      cases h
      exact Or.inr (Or.inl ⟨he, rfl⟩)
    · rw [pop_unfold test s he (by simpa using hb)] at h
      obtain ⟨s2, h2, h⟩ := bind_ok _ _ _ h
      split at h
      · rename_i hL
        split at h
        · obtain ⟨s4, h4, h⟩ := bind_ok _ _ _ h
          cases h
          exact Or.inr (Or.inr ⟨he, s2, s4, _, h2, hL, rfl, Or.inl h4⟩)
        · obtain ⟨s4, h4, h⟩ := bind_ok _ _ _ h
          cases h
          exact Or.inr (Or.inr ⟨he, s2, s4, _, h2, hL, rfl, Or.inr h4⟩)
      · cases h

theorem pop_dequeues (test : Bool) (s : System)
    (hne : s.ble_cbuf.read_ptr ≠ s.ble_cbuf.write_ptr) (hbusy : leuart_tx_busy s = false) :
    ((s.ble_cbuf.cbuf.getD s.ble_cbuf.read_ptr 0 + U8 - 1) % U8 < CSIZE → test = true
        → ∃ s1, ble_circ_pop test s = .ok (false, s1))
    ∧ ((s.ble_cbuf.cbuf.getD s.ble_cbuf.read_ptr 0 + U8 - 1) % U8 < CSIZE → test = false
        → s.LEUART0.STATUS &&& LEUART_STATUS_TXIDLE ≠ 0
        → ∃ s1, ble_circ_pop test s = .ok (false, s1))
    ∧ (CSIZE ≤ (s.ble_cbuf.cbuf.getD s.ble_cbuf.read_ptr 0 + U8 - 1) % U8
        → ∃ e, ble_circ_pop test s = .error (Fault.out_of_bounds, e))
    ∧ ∀ r s1, ble_circ_pop test s = .ok (r, s1) → r = false := by
  refine ⟨?_, ?_, ?_, ?_⟩
  · intro hL ht
    obtain ⟨s2, h2⟩ := pop_loop_ok ((s.ble_cbuf.cbuf.getD s.ble_cbuf.read_ptr 0 + U8 - 1) % U8)
      0 { s with ble_cbuf := update_circ_readindex s.ble_cbuf 1 }
      (by rw [Nat.zero_add]; exact Nat.le_of_lt hL)
    obtain ⟨s4, h4⟩ := copy_loop_ok
      ((s.ble_cbuf.cbuf.getD s.ble_cbuf.read_ptr 0 + U8 - 1) % U8 + 1) 0
      { s2 with
        popped_string :=
          s2.popped_string.set ((s.ble_cbuf.cbuf.getD s.ble_cbuf.read_ptr 0 + U8 - 1) % U8) 0 }
      (by rw [Nat.zero_add]; exact hL)
    rw [pop_unfold test s hne hbusy, h2, ok_bind, if_pos hL, if_pos ht, h4, ok_bind]
    exact ⟨s4, rfl⟩
  · intro hL ht hidle
    obtain ⟨s2, h2⟩ := pop_loop_ok ((s.ble_cbuf.cbuf.getD s.ble_cbuf.read_ptr 0 + U8 - 1) % U8)
      0 { s with ble_cbuf := update_circ_readindex s.ble_cbuf 1 }
      (by rw [Nat.zero_add]; exact Nat.le_of_lt hL)
    have hf : ¬ (test = true) := by rw [ht]; exact Bool.false_ne_true
    have e2 := congrArg System.LEUART0 (pop_loop_frame _ _ _ _ h2)
    have hidle2 : s2.LEUART0.STATUS &&& LEUART_STATUS_TXIDLE ≠ 0 := by
      rw [e2]
      exact hidle
    rw [pop_unfold test s hne hbusy, h2, ok_bind, if_pos hL, if_neg hf,
      leuart_start_ok _ _ _ (by exact hidle2), ok_bind]
    exact ⟨_, rfl⟩
  · intro hL
    rw [pop_unfold test s hne hbusy]
    cases h2 : pop_loop 0 ((s.ble_cbuf.cbuf.getD s.ble_cbuf.read_ptr 0 + U8 - 1) % U8)
        { s with ble_cbuf := update_circ_readindex s.ble_cbuf 1 } with
    | error e =>
      have hstop : ∀ (n i : Nat) (t : System) (e : Fault × System),
          pop_loop i n t = .error e → e.1 = Fault.out_of_bounds := by
        intro n
        induction n with
        | zero => intro i t e h; cases h
        | succ n ih =>
          intro i t e h
          rw [pop_loop] at h
          split at h
          · exact ih _ _ _ h
          · cases h
            rfl
      have h1 := hstop _ _ _ _ h2
      obtain ⟨f, t⟩ := e
      cases h1
      exact ⟨t, rfl⟩
    | ok s2 =>
      rw [ok_bind, if_neg (Nat.not_lt.mpr hL)]
      exact ⟨s2, rfl⟩
  · intro r s1 h
    rcases pop_cases test s (r, s1) h with ⟨he, _⟩ | ⟨_, hr⟩ | ⟨_, _, _, _, _, _, hr, _⟩
    · exact absurd he hne
    · exact congrArg Prod.fst hr
    · exact congrArg Prod.fst hr

/-- C23: when the ring buffer is not empty and the serial engine is busy, `ble_circ_pop`, in
test mode or not, returns false and the state it returns in is the state of the call:
cursors, stored bytes, `popped_string`, the test-capture area and the descriptor of the
engine are unchanged. -/
theorem pop_while_busy_is_noop (test : Bool) (s : System)
    (hne : s.ble_cbuf.read_ptr ≠ s.ble_cbuf.write_ptr) (hbusy : leuart_tx_busy s = true) :
    ∃ s1, ble_circ_pop test s = .ok (false, s1)
      ∧ s1.ble_cbuf.read_ptr = s.ble_cbuf.read_ptr
      ∧ s1.ble_cbuf.write_ptr = s.ble_cbuf.write_ptr
      ∧ s1.ble_cbuf.cbuf = s.ble_cbuf.cbuf
      ∧ s1.popped_string = s.popped_string
      ∧ s1.test_struct = s.test_struct
      ∧ s1.leuart_cmd = s.leuart_cmd
      ∧ s1 = s :=
  ⟨s, pop_busy test s hne hbusy, rfl, rfl, rfl, rfl, rfl, rfl, rfl⟩

set_option maxRecDepth 100000 in
theorem pop_while_busy_is_noop_witness :
    queued_tx.ble_cbuf.read_ptr ≠ queued_tx.ble_cbuf.write_ptr
    ∧ leuart_tx_busy queued_tx = true
    ∧ ble_circ_pop false queued_tx = .ok (false, queued_tx)
    ∧ ble_circ_pop true queued_tx = .ok (false, queued_tx) :=
  ⟨by decide, rfl,
    (pop_while_busy_is_noop false queued_tx (by decide) rfl).elim
      fun _ h => h.2.2.2.2.2.2.2 ▸ h.1,
    pop_busy true queued_tx (by decide) rfl⟩

/-- C24: `ble_circ_pop` returns true exactly when the read cursor equals the write cursor at
the call, and then the state is unchanged.  Otherwise it returns false: with the state
unchanged when the serial engine is busy; after capturing the head message in test mode;
after handing the head message to the serial engine, whose start returns when the peripheral
reports TXIDLE.  The head message is moved when its length byte keeps the stores inside
`popped_string` and `result_str`, as every length byte written by a push that fits does;
with a larger length byte the call does not return: it stores outside the arrays. -/
theorem pop_result (test : Bool) (s : System) :
    (s.ble_cbuf.read_ptr = s.ble_cbuf.write_ptr → ble_circ_pop test s = .ok (true, s))
    ∧ (∀ r s1, ble_circ_pop test s = .ok (r, s1)
        → (r = true ↔ s.ble_cbuf.read_ptr = s.ble_cbuf.write_ptr))
    ∧ (s.ble_cbuf.read_ptr ≠ s.ble_cbuf.write_ptr → leuart_tx_busy s = true
        → ble_circ_pop test s = .ok (false, s))
    ∧ (s.ble_cbuf.read_ptr ≠ s.ble_cbuf.write_ptr → leuart_tx_busy s = false → test = true
        → (s.ble_cbuf.cbuf.getD s.ble_cbuf.read_ptr 0 + U8 - 1) % U8 < CSIZE
        → ∃ s1, ble_circ_pop test s = .ok (false, s1))
    ∧ (s.ble_cbuf.read_ptr ≠ s.ble_cbuf.write_ptr → leuart_tx_busy s = false → test = false
        → (s.ble_cbuf.cbuf.getD s.ble_cbuf.read_ptr 0 + U8 - 1) % U8 < CSIZE
        → s.LEUART0.STATUS &&& LEUART_STATUS_TXIDLE ≠ 0
        → ∃ s1, ble_circ_pop test s = .ok (false, s1))
    ∧ (s.ble_cbuf.read_ptr ≠ s.ble_cbuf.write_ptr → leuart_tx_busy s = false
        → CSIZE ≤ (s.ble_cbuf.cbuf.getD s.ble_cbuf.read_ptr 0 + U8 - 1) % U8
        → ∃ e, ble_circ_pop test s = .error (Fault.out_of_bounds, e)) := by
  refine ⟨pop_of_empty test s, ?_, pop_busy test s, ?_, ?_, ?_⟩
  · intro r s1 h
    by_cases he : s.ble_cbuf.read_ptr = s.ble_cbuf.write_ptr
    · rw [pop_of_empty test s he] at h
      cases h
      exact ⟨fun _ => he, fun _ => rfl⟩
    · by_cases hb : leuart_tx_busy s = true
      · rw [pop_busy test s he hb] at h
        cases h
        exact ⟨fun hf => Bool.noConfusion hf, fun hf => absurd hf he⟩
      · have hr := (pop_dequeues test s he (by simpa using hb)).2.2.2 r s1 h
        subst hr
        exact ⟨fun hf => Bool.noConfusion hf, fun hf => absurd hf he⟩
  · intro he hb ht hL
    exact (pop_dequeues test s he hb).1 hL ht
  · intro he hb ht hL hidle
    exact (pop_dequeues test s he hb).2.1 hL ht hidle
  · intro he hb hL
    exact (pop_dequeues test s he hb).2.2.1 hL

set_option maxRecDepth 100000 in
theorem pop_result_witness :
    (ble_circ_init boot).ble_cbuf.read_ptr = (ble_circ_init boot).ble_cbuf.write_ptr
    ∧ ble_circ_pop CIRC_TEST (ble_circ_init boot) = .ok (true, ble_circ_init boot)
    ∧ queued_tx.ble_cbuf.read_ptr ≠ queued_tx.ble_cbuf.write_ptr
    ∧ ble_circ_pop CIRC_TEST queued_tx = .ok (false, queued_tx) :=
  ⟨rfl, (pop_result CIRC_TEST (ble_circ_init boot)).1 rfl, by decide,
    (pop_result CIRC_TEST queued_tx).2.2.1 (by decide) rfl⟩

/-! ## Bus engine: a one-byte read -/

theorem low_byte_replaced (old b : Nat) (hold : old < U32) (hb : b < 256) :
    ((old &&& not32 (0xff <<< 0)) % U32 ||| (b <<< 0) % U32) % U32 = old / 256 * 256 + b := by
  have e : old / 256 * 256 + b = 2 ^ 8 * (old >>> 8) ||| b := by
    rw [← Nat.mul_add_lt_is_or (by simpa using hb), Nat.shiftRight_eq_div_pow]
    ring
  rw [e]
  apply Nat.eq_of_testBit_eq
  intro i
  simp only [U32, Nat.testBit_mod_two_pow, Nat.testBit_and, Nat.testBit_or, testBit_not32,
    Nat.testBit_shiftLeft, testBit_0xff, Nat.testBit_mul_pow_two, Nat.testBit_shiftRight]
  by_cases hi : 8 ≤ i
  · have hb0 := testBit_byte_high b i hb hi
    have hsub : 8 + (i - 8) = i := by omega
    by_cases hj : i < 32
    · simp [hb0, hi, hj, hsub]
    · have ho : old.testBit i = false := by
        apply Nat.testBit_lt_two_pow
        exact lt_of_lt_of_le hold (Nat.pow_le_pow_right (show 0 < 2 by decide) (by omega))
      simp [hb0, hi, hj, hsub, ho]
  · have : i < 32 := by omega
    simp [hi, this]

/-- C25, as stated, fails: from reset, a two-byte read that receives 0x60, 0x54 completes
with the receive cell 0x6054; the one-byte read of user register 1 that follows receives
0x3A and completes with the receive cell 0x603A, not 0x3A. -/
theorem one_byte_read_keeps_high_bytes :
    ∃ s1 s2, (i2c_start I2C_Periph.I2C0 SI7021_DEVICE_ADDRESS SI7021_READ_TEMP_CMD true
            Cell.si7021_i2c_rx_data Cell.si7021_i2c_tx_data TWO_BYTES 0 boot
          >>= i2c_run [I2cIrq.ACK, I2cIrq.ACK, I2cIrq.ACK, I2cIrq.RXDATAV 0x60,
                I2cIrq.RXDATAV 0x54, I2cIrq.MSTOP]) = .ok s1
      ∧ i2c_busy s1 = false
      ∧ s1.si7021_i2c_rx_data = 0x6054
      ∧ (i2c_start I2C_Periph.I2C0 SI7021_DEVICE_ADDRESS SI7021_UR1_READ_CMD true
            Cell.si7021_i2c_rx_data Cell.si7021_i2c_tx_data ONE_BYTE 0 s1
          >>= i2c_run [I2cIrq.ACK, I2cIrq.ACK, I2cIrq.ACK, I2cIrq.RXDATAV 0x3A,
                I2cIrq.MSTOP]) = .ok s2
      ∧ i2c_busy s2 = false
      ∧ s2.si7021_i2c_rx_data = 0x603A
      ∧ s2.si7021_i2c_rx_data ≠ 0x3A :=
  ⟨_, _, rfl, rfl, rfl, rfl, rfl, rfl, by decide⟩

/-- C25, amended: a completed one-byte read (`i2c_start` with `ONE_BYTE` on an idle
peripheral, then ACK, ACK, ACK, RXDATAV(b), MSTOP) hits no assertion and ends with `i2c_busy`
false; the low byte of the receive cell is the byte received and its higher bytes are those
it held before; so the cell equals the byte received when it held a value below 256
before. -/
theorem one_byte_read_result (s : System) (p : I2C_Periph) (register_address E b : Nat)
    (hidle : (s.i2c_regs p).STATE &&& I2C_STATE_STATE_MASK = I2C_STATE_STATE_IDLE)
    (hcell : s.si7021_i2c_rx_data < U32) (hb : b < 256) :
    ∃ s1, (i2c_start p SI7021_DEVICE_ADDRESS register_address true
            Cell.si7021_i2c_rx_data Cell.si7021_i2c_tx_data ONE_BYTE E s
          >>= i2c_run [I2cIrq.ACK, I2cIrq.ACK, I2cIrq.ACK, I2cIrq.RXDATAV b, I2cIrq.MSTOP])
          = .ok s1
      ∧ i2c_busy s1 = false
      ∧ s1.si7021_i2c_rx_data % 256 = b
      ∧ s1.si7021_i2c_rx_data / 256 = s.si7021_i2c_rx_data / 256
      ∧ (s.si7021_i2c_rx_data < 256 → s1.si7021_i2c_rx_data = b) := by
  have n0 : ¬ (ONE_BYTE % U32 + U32 - 1) % U32 > 0 := by decide
  have k0 : SHIFT * ((ONE_BYTE % U32 + U32 - 1) % U32) % U32 = 0 := by decide
  have hval := low_byte_replaced s.si7021_i2c_rx_data b hcell hb
  rw [i2c_start_ok _ _ _ _ _ _ _ _ _ hidle]
  cases p
  all_goals simp only [i2c_write_TXDATA, i2c_write_CMD, System.set_i2c_regs,
    System.i2c_regs]
  all_goals rw [ok_bind, i2c_run_cons, I2cIrq.run, i2c_ack_SEND_DEVICE_ADDR _ (by rfl)]
  all_goals simp only [i2c_write_TXDATA, i2c_write_CMD, set_i2c_state, System.set_i2c_regs,
    System.i2c_regs]
  all_goals rw [ok_bind, i2c_run_cons, I2cIrq.run,
    i2c_ack_SEND_REGISTER_ADDR_read _ (by rfl) (by rfl)]
  all_goals simp only [i2c_write_TXDATA, i2c_write_CMD, set_i2c_state, System.set_i2c_regs,
    System.i2c_regs]
  all_goals rw [ok_bind, i2c_run_cons, I2cIrq.run, i2c_ack_WAIT_CONVERSION _ (by rfl)]
  all_goals simp only [i2c_write_TXDATA, i2c_write_CMD, set_i2c_state, System.set_i2c_regs,
    System.i2c_regs]
  all_goals rw [ok_bind, i2c_run_cons, I2cIrq.run]
  all_goals simp only [i2c_write_TXDATA, i2c_write_CMD, set_i2c_state, System.set_i2c_regs,
    System.i2c_regs]
  all_goals rw [i2c_rxdatav_last _ (by rfl) (by exact n0)]
  all_goals simp only [i2c_write_TXDATA, i2c_write_CMD, set_i2c_state, System.set_i2c_regs,
    System.i2c_regs, i2c_receive_byte, System.load, System.store]
  all_goals rw [ok_bind, i2c_run_cons, I2cIrq.run, i2c_mstop_SEND_STOP_CMD _ (by rfl)]
  all_goals simp only [add_scheduled_event]
  all_goals rw [ok_bind]
  all_goals refine ⟨_, rfl, rfl, ?_, ?_, ?_⟩
  all_goals simp only [k0, hval]
  all_goals omega

theorem one_byte_read_result_witness :
    (({ boot with si7021_i2c_rx_data := 0x6054 } : System).i2c_regs I2C_Periph.I2C0).STATE
        &&& I2C_STATE_STATE_MASK = I2C_STATE_STATE_IDLE
    ∧ ({ boot with si7021_i2c_rx_data := 0x6054 } : System).si7021_i2c_rx_data < U32
    ∧ 0x3A < 256
    ∧ ∃ s1, (i2c_start I2C_Periph.I2C0 SI7021_DEVICE_ADDRESS SI7021_UR1_READ_CMD true
            Cell.si7021_i2c_rx_data Cell.si7021_i2c_tx_data ONE_BYTE 0
            { boot with si7021_i2c_rx_data := 0x6054 }
          >>= i2c_run [I2cIrq.ACK, I2cIrq.ACK, I2cIrq.ACK, I2cIrq.RXDATAV 0x3A, I2cIrq.MSTOP])
          = .ok s1
      ∧ i2c_busy s1 = false
      ∧ s1.si7021_i2c_rx_data % 256 = 0x3A
      ∧ s1.si7021_i2c_rx_data / 256 = 0x60 :=
  ⟨by decide, by decide, by decide,
    (one_byte_read_result { boot with si7021_i2c_rx_data := 0x6054 } I2C_Periph.I2C0
      SI7021_UR1_READ_CMD 0 0x3A (by decide) (by decide) (by decide)).imp
      fun _ h => ⟨h.1, h.2.1, h.2.2.1, h.2.2.2.1⟩⟩

/-! ## The sensor driver: the completion event of a read -/

/-- The read of the final project passes the caller's event on: on an idle peripheral
`si7021_read` returns with a read of device 0x40 in flight whose completion event is
`event_cb`, as a 32-bit value. -/
theorem si7021_read_event (event_cb byte_length register_address : Nat) (s : System)
    (hidle : (s.i2c_regs SI7021_I2C).STATE &&& I2C_STATE_STATE_MASK = I2C_STATE_STATE_IDLE) :
    ∃ s1, si7021_read event_cb byte_length register_address s = .ok s1
      ∧ s1.i2c_cmd.event_cb = event_cb % U32
      ∧ s1.i2c_cmd.device_address = 0x40
      ∧ s1.i2c_cmd.rw = true
      ∧ i2c_busy s1 = true := by
  unfold si7021_read
  rw [i2c_start_ok _ _ _ _ _ _ _ _ _ hidle]
  exact ⟨_, rfl, rfl, rfl, rfl, rfl⟩

/-- C26: evaluation at the event mask 0x10.  `si7021_read` of the UART lab does not use its
argument: for every `i2c_start` it makes the call with the event `SI7021_READ_CB`.  With the
bus engine of the final project reading two bytes in the place of the `i2c_start` of the
lab, `si7021_read(0x10)` from reset starts a read whose completion event is 0x08, and when
the read completes the pending set is 0x08, without the bit 0x10; `si7021_read` of the final
project, called with 0x10, records 0x10. -/
theorem uart_lab_read_ignores_event_cb :
    (∀ start event_cb s, UART_Lab.si7021_read start event_cb s
        = start I2C_Periph.I2C0 0x40 0xF3 true Cell.si7021_i2c_rx_data SI7021_READ_CB s)
    ∧ (∃ s1 s2, UART_Lab.si7021_read
          (fun i2c device_address register_address rw rx_data event_cb =>
            i2c_start i2c device_address register_address rw rx_data Cell.si7021_i2c_tx_data
              TWO_BYTES event_cb)
          BOOT_UP_CB boot = .ok s1
        ∧ s1.i2c_cmd.event_cb = SI7021_READ_CB
        ∧ s1.i2c_cmd.event_cb ≠ BOOT_UP_CB
        ∧ i2c_run [I2cIrq.ACK, I2cIrq.ACK, I2cIrq.ACK, I2cIrq.RXDATAV 0x60,
              I2cIrq.RXDATAV 0x54, I2cIrq.MSTOP] s1 = .ok s2
        ∧ get_scheduled_events s2 = SI7021_READ_CB
        ∧ get_scheduled_events s2 &&& BOOT_UP_CB = 0)
    ∧ ∃ s1, si7021_read BOOT_UP_CB TWO_BYTES SI7021_READ_TEMP_CMD boot = .ok s1
        ∧ s1.i2c_cmd.event_cb = BOOT_UP_CB :=
  ⟨fun _ _ _ => rfl, ⟨_, _, rfl, rfl, by decide, rfl, rfl, rfl⟩, ⟨_, rfl, rfl⟩⟩

/-! ## The deferred-work handlers and the bus engine -/

theorem while_i2c_busy_idle (irqs : List I2cIrq) :
    ∀ (s s1 : System), while_i2c_busy irqs s = .ok s1 → i2c_busy s1 = false := by
  induction irqs with
  | nil =>
    intro s s1 h
    unfold while_i2c_busy at h
    by_cases hb : i2c_busy s = true
    · rw [if_pos hb] at h
      cases h
    · rw [if_neg hb] at h
      cases h
      simpa using hb
  | cons q qs ih =>
    intro s s1 h
    unfold while_i2c_busy at h
    by_cases hb : i2c_busy s = true
    · rw [if_pos hb] at h
      obtain ⟨s2, _, h2⟩ := bind_ok _ _ _ h
      exact ih s2 s1 h2
    · rw [if_neg hb] at h
      cases h
      simpa using hb

theorem i2c_start_busy (i2c : I2C_Periph) (device_address register_address : Nat) (rw : Bool)
    (rx_data tx_data : Cell) (num_bytes event_cb : Nat) (s s1 : System)
    (h : i2c_start i2c device_address register_address rw rx_data tx_data num_bytes event_cb s
      = .ok s1) :
    i2c_busy s1 = true ∧ s1.i2c_cmd.current_state = i2c_states.SEND_DEVICE_ADDR
      ∧ s1.i2c_cmd.register_address = register_address % U32
      ∧ s1.i2c_cmd.event_cb = event_cb % U32 := by
  by_cases hidle : (s.i2c_regs i2c).STATE &&& I2C_STATE_STATE_MASK = I2C_STATE_STATE_IDLE
  · rw [i2c_start_ok _ _ _ _ _ _ _ _ _ hidle] at h
    cases h
    simp only [i2c_busy, i2c_write_TXDATA_i2c_cmd, i2c_write_CMD_i2c_cmd, and_self]
  · simp only [i2c_start, EFM_ASSERT, hidle, decide_False, bind, Except.bind] at h
    cases h

theorem push_i2c_cmd (string : List Nat) (s s1 : System)
    (h : ble_circ_push string s = .ok s1) : s1.i2c_cmd = s.i2c_cmd := by
  unfold ble_circ_push at h
  obtain ⟨_, h⟩ := assert_bind_ok _ _ _ _ h
  dsimp only at h
  split at h
  · cases h
    rfl
  · obtain ⟨hc, _⟩ := assert_bind_ok _ _ _ _ h
    cases hc

theorem pop_loop_i2c_cmd (n i : Nat) (s s1 : System) (h : pop_loop i n s = .ok s1) :
    s1.i2c_cmd = s.i2c_cmd := by
  have e := congrArg System.i2c_cmd (pop_loop_frame n i s s1 h)
  exact e

theorem copy_loop_i2c_cmd (n i : Nat) (s s1 : System) (h : copy_loop i n s = .ok s1) :
    s1.i2c_cmd = s.i2c_cmd := by
  have e := congrArg System.i2c_cmd (copy_loop_frame n i s s1 h)
  exact e

theorem leuart_start_i2c_cmd (string : CharPtr) (string_len : Nat) (s s1 : System)
    (h : leuart_start string string_len s = .ok s1) : s1.i2c_cmd = s.i2c_cmd := by
  by_cases hidle : s.LEUART0.STATUS &&& LEUART_STATUS_TXIDLE ≠ 0
  · rw [leuart_start_ok _ _ _ hidle] at h
    cases h
    rfl
  · simp only [leuart_start, not_not.mp hidle, if_true] at h
    cases h

theorem pop_i2c_cmd (test : Bool) (s : System) (r : Bool × System)
    (h : ble_circ_pop test s = .ok r) : r.2.i2c_cmd = s.i2c_cmd := by
  rcases pop_cases test s r h with ⟨_, hr⟩ | ⟨_, hr⟩ | ⟨_, s2, s4, L, h2, _, hr, h4 | h4⟩
  · rw [hr]
  · rw [hr]
  · rw [hr]
    have e2 := pop_loop_i2c_cmd _ _ _ _ h2
    have e4 := copy_loop_i2c_cmd _ _ _ _ h4
    exact e4.trans e2
  · rw [hr]
    have e2 := pop_loop_i2c_cmd _ _ _ _ h2
    have e4 := leuart_start_i2c_cmd _ _ _ _ h4
    exact e4.trans e2

theorem ble_write_i2c_cmd (string : List Nat) (s s1 : System)
    (h : ble_write string s = .ok s1) : s1.i2c_cmd = s.i2c_cmd := by
  unfold ble_write at h
  obtain ⟨s2, h2, h⟩ := bind_ok _ _ _ h
  obtain ⟨r, h3, h⟩ := bind_ok _ _ _ h
  cases h
  rw [pop_i2c_cmd _ _ _ h3, push_i2c_cmd _ _ _ h2]

theorem si7021_test_idle (irqs1 irqs2 irqs3 irqs4 : List I2cIrq)
    (temperature_in_range : Nat → Bool) (s : System) (r : Bool × System)
    (h : si7021_test irqs1 irqs2 irqs3 irqs4 temperature_in_range s = .ok r) :
    r.1 = true ∧ i2c_busy r.2 = false := by
  unfold si7021_test at h
  obtain ⟨s1, _, h⟩ := bind_ok _ _ _ h
  obtain ⟨s2, _, h⟩ := bind_ok _ _ _ h
  obtain ⟨_, h⟩ := assert_bind_ok _ _ _ _ h
  obtain ⟨s4, _, h⟩ := bind_ok _ _ _ h
  obtain ⟨s5, _, h⟩ := bind_ok _ _ _ h
  obtain ⟨s6, _, h⟩ := bind_ok _ _ _ h
  obtain ⟨s7, _, h⟩ := bind_ok _ _ _ h
  obtain ⟨_, h⟩ := assert_bind_ok _ _ _ _ h
  obtain ⟨s8, _, h⟩ := bind_ok _ _ _ h
  obtain ⟨s9, h9, h⟩ := bind_ok _ _ _ h
  obtain ⟨_, h⟩ := assert_bind_ok _ _ _ _ h
  cases h
  exact ⟨rfl, while_i2c_busy_idle _ _ _ h9⟩

theorem uf_cb_busy (SI7021_READ_TEMP_CB SI7021_READ_RH_CB : Nat) (irqs : List I2cIrq)
    (s s1 : System)
    (h : scheduled_letimer0_uf_cb SI7021_READ_TEMP_CB SI7021_READ_RH_CB irqs s = .ok s1) :
    i2c_busy s1 = true ∧ s1.i2c_cmd.current_state = i2c_states.SEND_DEVICE_ADDR
      ∧ s1.i2c_cmd.register_address = SI7021_READ_RH_CMD
      ∧ s1.i2c_cmd.event_cb = SI7021_READ_RH_CB % U32 := by
  unfold scheduled_letimer0_uf_cb at h
  obtain ⟨_, h⟩ := assert_bind_ok _ _ _ _ h
  obtain ⟨s2, _, h⟩ := bind_ok _ _ _ h
  obtain ⟨s3, _, h⟩ := bind_ok _ _ _ h
  exact i2c_start_busy _ _ _ _ _ _ _ _ _ _ h

theorem temp_cb_i2c_cmd (SI7021_READ_TEMP_CB : Nat) (output_str : List Nat) (s s1 : System)
    (h : scheduled_si7021_read_temp_cb SI7021_READ_TEMP_CB output_str s = .ok s1) :
    s1.i2c_cmd = s.i2c_cmd := by
  unfold scheduled_si7021_read_temp_cb at h
  obtain ⟨_, h⟩ := assert_bind_ok _ _ _ _ h
  exact ble_write_i2c_cmd _ (remove_scheduled_event SI7021_READ_TEMP_CB s) _ h

theorem rh_cb_i2c_cmd (SI7021_READ_RH_CB : Nat) (output_str : List Nat) (s s1 : System)
    (h : scheduled_si7021_read_rh_cb SI7021_READ_RH_CB output_str s = .ok s1) :
    s1.i2c_cmd = s.i2c_cmd := by
  unfold scheduled_si7021_read_rh_cb at h
  obtain ⟨_, h⟩ := assert_bind_ok _ _ _ _ h
  exact ble_write_i2c_cmd _ (remove_scheduled_event SI7021_READ_RH_CB s) _ h

theorem tx_done_cb_i2c_cmd (s s1 : System) (h : scheduled_ble_tx_done_cb s = .ok s1) :
    s1.i2c_cmd = s.i2c_cmd := by
  unfold scheduled_ble_tx_done_cb at h
  obtain ⟨_, h⟩ := assert_bind_ok _ _ _ _ h
  obtain ⟨r, hr, h⟩ := bind_ok _ _ _ h
  cases h
  exact pop_i2c_cmd _ (remove_scheduled_event BLE_TX_DONE_CB s) _ hr

theorem boot_up_cb_idle (irqs1 irqs2 irqs3 irqs4 : List I2cIrq)
    (temperature_in_range : Nat → Bool) (s s1 : System)
    (h : scheduled_boot_up_cb irqs1 irqs2 irqs3 irqs4 temperature_in_range s = .ok s1) :
    i2c_busy s1 = false := by
  unfold scheduled_boot_up_cb at h
  obtain ⟨_, h⟩ := assert_bind_ok _ _ _ _ h
  obtain ⟨s2, _, h⟩ := bind_ok _ _ _ h
  obtain ⟨r, hr, h⟩ := bind_ok _ _ _ h
  obtain ⟨_, h⟩ := assert_bind_ok _ _ _ _ h
  obtain ⟨s3, h3, h⟩ := bind_ok _ _ _ h
  obtain ⟨s4, h4, h⟩ := bind_ok _ _ _ h
  obtain ⟨s5, h5, h⟩ := bind_ok _ _ _ h
  have hi := (si7021_test_idle _ _ _ _ _ _ _ hr).2
  unfold i2c_busy at hi ⊢
  rw [ble_write_i2c_cmd _ _ _ h, ble_write_i2c_cmd _ _ _ h5, ble_write_i2c_cmd _ _ _ h4,
    ble_write_i2c_cmd _ _ _ h3]
  exact hi

set_option maxRecDepth 100000 in
/-- C28, as stated, fails: called on the initialised ring buffer with its event pending,
`scheduled_letimer0_uf_cb` starts the temperature read, waits until it has completed, starts
the humidity read and returns: at its return `i2c_busy` is true.  The handler of the
temperature event, which is then pending, runs with the humidity read in flight and returns
with `i2c_busy` true as well. -/
theorem uf_cb_returns_with_bus_busy :
    ∃ s1 s2, scheduled_letimer0_uf_cb SI7021_READ_CB 0x80 two_byte_read_irqs
          { ble_circ_init boot with event_scheduled := LETIMER0_UF_CB } = .ok s1
      ∧ i2c_busy s1 = true
      ∧ s1.i2c_cmd.register_address = SI7021_READ_RH_CMD
      ∧ s1.si7021_i2c_rx_data = 0x6054
      ∧ get_scheduled_events s1 = SI7021_READ_CB
      ∧ scheduled_si7021_read_temp_cb SI7021_READ_CB [84, 101, 109, 112, 10] s1 = .ok s2
      ∧ i2c_busy s2 = true :=
  ⟨_, _, rfl, rfl, rfl, rfl, rfl, rfl, rfl⟩

/-- C28, amended: when `scheduled_letimer0_uf_cb` returns, the humidity read it has
started last is in flight and `i2c_busy` is true; when `scheduled_si7021_read_temp_cb`,
`scheduled_si7021_read_rh_cb` or `scheduled_ble_tx_done_cb` returns, the descriptor of the
bus engine, and with it `i2c_busy`, is what it was at the call; when `scheduled_boot_up_cb`
returns, `i2c_busy` is false. -/
theorem handlers_and_bus_engine (SI7021_READ_TEMP_CB SI7021_READ_RH_CB : Nat)
    (irqs irqs1 irqs2 irqs3 irqs4 : List I2cIrq) (temperature_in_range : Nat → Bool)
    (output_str : List Nat) (s s1 : System) :
    (scheduled_letimer0_uf_cb SI7021_READ_TEMP_CB SI7021_READ_RH_CB irqs s = .ok s1
      → i2c_busy s1 = true ∧ s1.i2c_cmd.current_state = i2c_states.SEND_DEVICE_ADDR
        ∧ s1.i2c_cmd.register_address = SI7021_READ_RH_CMD
        ∧ s1.i2c_cmd.event_cb = SI7021_READ_RH_CB % U32)
    ∧ (scheduled_si7021_read_temp_cb SI7021_READ_TEMP_CB output_str s = .ok s1
      → s1.i2c_cmd = s.i2c_cmd ∧ i2c_busy s1 = i2c_busy s)
    ∧ (scheduled_si7021_read_rh_cb SI7021_READ_RH_CB output_str s = .ok s1
      → s1.i2c_cmd = s.i2c_cmd ∧ i2c_busy s1 = i2c_busy s)
    ∧ (scheduled_ble_tx_done_cb s = .ok s1
      → s1.i2c_cmd = s.i2c_cmd ∧ i2c_busy s1 = i2c_busy s)
    ∧ (scheduled_boot_up_cb irqs1 irqs2 irqs3 irqs4 temperature_in_range s = .ok s1
      → i2c_busy s1 = false) := by
  refine ⟨uf_cb_busy _ _ _ _ _, ?_, ?_, ?_, boot_up_cb_idle _ _ _ _ _ _ _⟩
  · intro h
    have e := temp_cb_i2c_cmd _ _ _ _ h
    exact ⟨e, congrArg I2C_STATE_MACHINE.sm_busy e⟩
  · intro h
    have e := rh_cb_i2c_cmd _ _ _ _ h
    exact ⟨e, congrArg I2C_STATE_MACHINE.sm_busy e⟩
  · intro h
    have e := tx_done_cb_i2c_cmd _ _ h
    exact ⟨e, congrArg I2C_STATE_MACHINE.sm_busy e⟩

set_option maxRecDepth 100000 in
theorem handlers_and_bus_engine_witness :
    scheduled_letimer0_uf_cb SI7021_READ_CB 0x80 two_byte_read_irqs
        { boot with event_scheduled := LETIMER0_UF_CB } = .ok after_uf_cb
    ∧ i2c_busy after_uf_cb = true
    ∧ scheduled_boot_up_cb (one_byte_read_irqs 0x3A) one_byte_write_irqs
        (one_byte_read_irqs 0xBA) two_byte_read_irqs (fun _ => true)
        { ble_circ_init boot with tx_done_evt := BLE_TX_DONE_CB, event_scheduled := BOOT_UP_CB }
        = .ok after_boot_up_cb
    ∧ leuart_tx_busy after_boot_up_cb = true
    ∧ i2c_busy after_boot_up_cb = false :=
  ⟨rfl,
    ((handlers_and_bus_engine SI7021_READ_CB 0x80 two_byte_read_irqs [] [] [] [] (fun _ => true)
      [] { boot with event_scheduled := LETIMER0_UF_CB } after_uf_cb).1 rfl).1,
    rfl, rfl,
    (handlers_and_bus_engine 0 0 [] (one_byte_read_irqs 0x3A) one_byte_write_irqs
      (one_byte_read_irqs 0xBA) two_byte_read_irqs (fun _ => true) []
      { ble_circ_init boot with tx_done_evt := BLE_TX_DONE_CB, event_scheduled := BOOT_UP_CB }
      after_boot_up_cb).2.2.2.2 rfl⟩

/-! ## Properties of the engines over whole transactions -/

/-! ## Bus engine: interrupts with no transaction in flight -/

/-- C31, as stated, fails: when the two-byte read from reset has completed, `i2c_busy` is
false and the engine is back in `SEND_DEVICE_ADDR`; an ACK interrupt delivered then hits no
assertion: it writes the register address 0xF3 to `TXDATA` and moves the engine to
`SEND_REGISTER_ADDR`. -/
theorem ack_accepted_while_idle :
    ∃ s1 s2, I2cIrq.MSTOP.run stopping_read = .ok s1
      ∧ i2c_busy s1 = false
      ∧ s1.i2c_cmd.current_state = i2c_states.SEND_DEVICE_ADDR
      ∧ I2cIrq.ACK.run s1 = .ok s2
      ∧ s2.I2C0.TXDATA = s1.I2C0.TXDATA ++ [0xF3]
      ∧ s2.i2c_cmd.current_state = i2c_states.SEND_REGISTER_ADDR
      ∧ s2 ≠ s1 :=
  ⟨_, _, rfl, rfl, rfl, rfl, rfl, rfl, by decide⟩

/-- The handlers in `SEND_DEVICE_ADDR` with the busy flag clear: NACK, RXDATAV and MSTOP stop
at the fatal assertion, ACK writes the register address of the descriptor and returns. -/
theorem send_device_addr_interrupts (s : System)
    (hst : s.i2c_cmd.current_state = i2c_states.SEND_DEVICE_ADDR)
    (hidle : i2c_busy s = false) :
    I2cIrq.NACK.run s = .error (Fault.assertion, s)
    ∧ I2cIrq.MSTOP.run s = .error (Fault.assertion, s)
    ∧ (∀ b, (I2cIrq.RXDATAV b).run s
        = .error (Fault.assertion,
            s.set_i2c_regs s.i2c_cmd.i2c { s.i2c_regs s.i2c_cmd.i2c with RXDATA := b }))
    ∧ ∃ s1, I2cIrq.ACK.run s = .ok s1
        ∧ s1.i2c_cmd.current_state = i2c_states.SEND_REGISTER_ADDR
        ∧ i2c_busy s1 = false
        ∧ (s1.i2c_regs s.i2c_cmd.i2c).TXDATA
            = (s.i2c_regs s.i2c_cmd.i2c).TXDATA ++ [s.i2c_cmd.register_address % U32]
        ∧ (s1.i2c_regs s.i2c_cmd.i2c).CMD = (s.i2c_regs s.i2c_cmd.i2c).CMD := by
  refine ⟨?_, ?_, ?_, ?_⟩
  · exact (i2c_nack_table s).2 (by rw [hst]; rfl)
  · exact (i2c_mstop_table s).2 (by rw [hst]; rfl)
  · intro b
    exact (i2c_rxdatav_table _ b).2 (by rw [set_i2c_regs_i2c_cmd, hst]; rfl)
  · refine ⟨_, i2c_ack_SEND_DEVICE_ADDR s hst, rfl, ?_, ?_, ?_⟩
    · simpa only [i2c_busy, set_i2c_state, i2c_write_TXDATA_i2c_cmd] using hidle
    · cases s.i2c_cmd.i2c <;> rfl
    · cases s.i2c_cmd.i2c <;> rfl

/-- C31, amended: after a completed transaction, that is in every state `s` whose descriptor
is the one the completing MSTOP interrupt left, no transaction is in flight (`i2c_busy` is
false, the engine is in `SEND_DEVICE_ADDR`); the NACK, RXDATAV and MSTOP interrupts stop at
the fatal assertion and change nothing (RXDATAV with the byte received in the `RXDATA`
register); the ACK interrupt returns: it writes the register address of the completed
transaction to `TXDATA` of its peripheral and moves the engine to `SEND_REGISTER_ADDR`,
`i2c_busy` still false. -/
theorem interrupts_while_idle (s s0 s1 : System)
    (hdone : I2cIrq.MSTOP.run s0 = .ok s1) (hd : s.i2c_cmd = s1.i2c_cmd) :
    i2c_busy s = false
    ∧ s.i2c_cmd.current_state = i2c_states.SEND_DEVICE_ADDR
    ∧ s.i2c_cmd.i2c = s0.i2c_cmd.i2c
    ∧ s.i2c_cmd.register_address = s0.i2c_cmd.register_address
    ∧ I2cIrq.NACK.run s = .error (Fault.assertion, s)
    ∧ I2cIrq.MSTOP.run s = .error (Fault.assertion, s)
    ∧ (∀ b, (I2cIrq.RXDATAV b).run s
        = .error (Fault.assertion,
            s.set_i2c_regs s.i2c_cmd.i2c { s.i2c_regs s.i2c_cmd.i2c with RXDATA := b }))
    ∧ ∃ s2, I2cIrq.ACK.run s = .ok s2
        ∧ s2.i2c_cmd.current_state = i2c_states.SEND_REGISTER_ADDR
        ∧ i2c_busy s2 = false
        ∧ (s2.i2c_regs s.i2c_cmd.i2c).TXDATA
            = (s.i2c_regs s.i2c_cmd.i2c).TXDATA ++ [s.i2c_cmd.register_address % U32]
        ∧ (s2.i2c_regs s.i2c_cmd.i2c).CMD = (s.i2c_regs s.i2c_cmd.i2c).CMD := by
  have hst0 : s0.i2c_cmd.current_state = i2c_states.SEND_STOP_CMD := by
    cases hst : s0.i2c_cmd.current_state
    case SEND_STOP_CMD => rfl
    all_goals
      have hf : I2cIrq.MSTOP.run s0 = .error (Fault.assertion, s0) :=
        (i2c_mstop_table s0).2 (by rw [hst]; rfl)
      rw [hf] at hdone
      cases hdone
  have h1 : I2cIrq.MSTOP.run s0 = _ := i2c_mstop_SEND_STOP_CMD s0 hst0
  rw [h1] at hdone
  cases hdone
  have hbusy : i2c_busy s = false := by
    unfold i2c_busy
    rw [hd]
    rfl
  have hst : s.i2c_cmd.current_state = i2c_states.SEND_DEVICE_ADDR := by
    rw [hd]
    rfl
  exact ⟨hbusy, hst, by rw [hd]; rfl, by rw [hd]; rfl, send_device_addr_interrupts s hst hbusy⟩

set_option maxRecDepth 100000 in
theorem interrupts_while_idle_witness :
    I2cIrq.MSTOP.run stopping_read = .ok completed_read
    ∧ completed_read.i2c_cmd = completed_read.i2c_cmd
    ∧ i2c_busy completed_read = false
    ∧ I2cIrq.NACK.run completed_read = .error (Fault.assertion, completed_read)
    ∧ I2cIrq.MSTOP.run completed_read = .error (Fault.assertion, completed_read)
    ∧ ∃ s2, I2cIrq.ACK.run completed_read = .ok s2
        ∧ s2.i2c_cmd.current_state = i2c_states.SEND_REGISTER_ADDR :=
  ⟨rfl, rfl,
    (interrupts_while_idle completed_read stopping_read completed_read rfl rfl).1,
    (interrupts_while_idle completed_read stopping_read completed_read rfl rfl).2.2.2.2.1,
    (interrupts_while_idle completed_read stopping_read completed_read rfl rfl).2.2.2.2.2.1,
    (interrupts_while_idle completed_read stopping_read completed_read
      rfl rfl).2.2.2.2.2.2.2.imp fun _ h => ⟨h.1, h.2.1⟩⟩

/-! ## Bus engine: what each step changes -/

theorem write_CMD_regs (p : I2C_Periph) (v : Nat) (s : System) :
    ((i2c_write_CMD p v s).i2c_regs p).CMD = (s.i2c_regs p).CMD ++ [v % U32]
    ∧ ((i2c_write_CMD p v s).i2c_regs p).TXDATA = (s.i2c_regs p).TXDATA
    ∧ (i2c_write_CMD p v s).lowest_energy_mode = s.lowest_energy_mode := by
  cases p <;> exact ⟨rfl, rfl, rfl⟩

theorem write_TXDATA_regs (p : I2C_Periph) (v : Nat) (s : System) :
    ((i2c_write_TXDATA p v s).i2c_regs p).TXDATA = (s.i2c_regs p).TXDATA ++ [v % U32]
    ∧ ((i2c_write_TXDATA p v s).i2c_regs p).CMD = (s.i2c_regs p).CMD
    ∧ (i2c_write_TXDATA p v s).lowest_energy_mode = s.lowest_energy_mode := by
  cases p <;> exact ⟨rfl, rfl, rfl⟩

theorem store_frame (c : Cell) (v : Nat) (s : System) :
    (s.store c v).i2c_cmd = s.i2c_cmd
    ∧ (s.store c v).lowest_energy_mode = s.lowest_energy_mode
    ∧ ∀ p, (s.store c v).i2c_regs p = s.i2c_regs p := by
  cases c <;> exact ⟨rfl, rfl, fun p => by cases p <;> rfl⟩

theorem set_RXDATA_frame (p : I2C_Periph) (b : Nat) (s : System) :
    ((s.set_i2c_regs p { s.i2c_regs p with RXDATA := b }).i2c_regs p).CMD = (s.i2c_regs p).CMD
    ∧ ((s.set_i2c_regs p { s.i2c_regs p with RXDATA := b }).i2c_regs p).TXDATA
        = (s.i2c_regs p).TXDATA
    ∧ (s.set_i2c_regs p { s.i2c_regs p with RXDATA := b }).lowest_energy_mode
        = s.lowest_energy_mode := by
  cases p <;> exact ⟨rfl, rfl, rfl⟩

theorem with_i2c_cmd_regs (s : System) (c : I2C_STATE_MACHINE) (p : I2C_Periph) :
    ({ s with i2c_cmd := c } : System).i2c_regs p = s.i2c_regs p := by
  cases p <;> rfl

/-- The write of a command: the descriptor and the table stay, the command log of the
peripheral of the transaction grows by the command. -/
theorem write_CMD_frame (v : Nat) (s : System) :
    (i2c_write_CMD s.i2c_cmd.i2c v s).i2c_cmd = s.i2c_cmd
    ∧ cmd_log (i2c_write_CMD s.i2c_cmd.i2c v s) = cmd_log s ++ [v % U32]
    ∧ txdata_log (i2c_write_CMD s.i2c_cmd.i2c v s) = txdata_log s
    ∧ (i2c_write_CMD s.i2c_cmd.i2c v s).lowest_energy_mode = s.lowest_energy_mode := by
  have h := write_CMD_regs s.i2c_cmd.i2c v s
  refine ⟨i2c_write_CMD_i2c_cmd _ _ _, ?_, ?_, h.2.2⟩
  · unfold cmd_log; rw [i2c_write_CMD_i2c_cmd]; exact h.1
  · unfold txdata_log; rw [i2c_write_CMD_i2c_cmd]; exact h.2.1

theorem write_TXDATA_frame (v : Nat) (s : System) :
    (i2c_write_TXDATA s.i2c_cmd.i2c v s).i2c_cmd = s.i2c_cmd
    ∧ cmd_log (i2c_write_TXDATA s.i2c_cmd.i2c v s) = cmd_log s
    ∧ txdata_log (i2c_write_TXDATA s.i2c_cmd.i2c v s) = txdata_log s ++ [v % U32]
    ∧ (i2c_write_TXDATA s.i2c_cmd.i2c v s).lowest_energy_mode = s.lowest_energy_mode := by
  have h := write_TXDATA_regs s.i2c_cmd.i2c v s
  refine ⟨i2c_write_TXDATA_i2c_cmd _ _ _, ?_, ?_, h.2.2⟩
  · unfold cmd_log; rw [i2c_write_TXDATA_i2c_cmd]; exact h.2.1
  · unfold txdata_log; rw [i2c_write_TXDATA_i2c_cmd]; exact h.1

theorem write_CMD_frame_at (p : I2C_Periph) (v : Nat) (s : System) (hp : s.i2c_cmd.i2c = p) :
    cmd_log (i2c_write_CMD p v s) = cmd_log s ++ [v % U32]
    ∧ txdata_log (i2c_write_CMD p v s) = txdata_log s := by
  subst hp
  exact ⟨(write_CMD_frame v s).2.1, (write_CMD_frame v s).2.2.1⟩

theorem write_TXDATA_frame_at (p : I2C_Periph) (v : Nat) (s : System) (hp : s.i2c_cmd.i2c = p) :
    cmd_log (i2c_write_TXDATA p v s) = cmd_log s
    ∧ txdata_log (i2c_write_TXDATA p v s) = txdata_log s ++ [v % U32] := by
  subst hp
  exact ⟨(write_TXDATA_frame v s).2.1, (write_TXDATA_frame v s).2.2.1⟩

/-- A change of the descriptor that keeps the peripheral keeps the logs and the table. -/
theorem with_i2c_cmd_frame (s : System) (c : I2C_STATE_MACHINE) (hc : c.i2c = s.i2c_cmd.i2c) :
    cmd_log ({ s with i2c_cmd := c } : System) = cmd_log s
    ∧ txdata_log ({ s with i2c_cmd := c } : System) = txdata_log s := by
  unfold cmd_log txdata_log
  show (({ s with i2c_cmd := c } : System).i2c_regs c.i2c).CMD = _
    ∧ (({ s with i2c_cmd := c } : System).i2c_regs c.i2c).TXDATA = _
  rw [with_i2c_cmd_regs, hc]
  exact ⟨rfl, rfl⟩

theorem set_i2c_state_frame (st : i2c_states) (s : System) :
    (set_i2c_state st s).i2c_cmd = { s.i2c_cmd with current_state := st }
    ∧ cmd_log (set_i2c_state st s) = cmd_log s
    ∧ txdata_log (set_i2c_state st s) = txdata_log s
    ∧ (set_i2c_state st s).lowest_energy_mode = s.lowest_energy_mode :=
  ⟨rfl, (with_i2c_cmd_frame s _ rfl).1, (with_i2c_cmd_frame s _ rfl).2, rfl⟩

theorem with_i2c_cmd_load (s : System) (c : I2C_STATE_MACHINE) (x : Cell) :
    ({ s with i2c_cmd := c } : System).load x = s.load x := by
  cases x <;> rfl

theorem write_TXDATA_load (p : I2C_Periph) (v : Nat) (s : System) (x : Cell) :
    (i2c_write_TXDATA p v s).load x = s.load x := by
  cases p <;> cases x <;> rfl

theorem write_CMD_load (p : I2C_Periph) (v : Nat) (s : System) (x : Cell) :
    (i2c_write_CMD p v s).load x = s.load x := by
  cases p <;> cases x <;> rfl

theorem tx_byte_lt (s : System) (k : Nat) : tx_byte s k % U32 = tx_byte s k :=
  Nat.mod_eq_of_lt (lt_trans (Nat.mod_lt _ (show 0 < U8 by decide)) (by decide))

/-- Two states with the same transmit cell form the same bytes. -/
theorem tx_byte_congr (s t : System) (hc : t.i2c_cmd.tx_data = s.i2c_cmd.tx_data)
    (hl : ∀ x, t.load x = s.load x) (k : Nat) : tx_byte t k = tx_byte s k := by
  unfold tx_byte
  rw [hc, hl]

/-- The statements of `i2c_send_next_byte`: the counter goes down by one, the byte formed with
the new counter is written to `TXDATA`, nothing to `CMD`. -/
theorem send_next_byte_frame (s : System) :
    (i2c_send_next_byte s).i2c_cmd
        = { s.i2c_cmd with num_bytes := (s.i2c_cmd.num_bytes + U32 - 1) % U32 }
    ∧ cmd_log (i2c_send_next_byte s) = cmd_log s
    ∧ txdata_log (i2c_send_next_byte s)
        = txdata_log s ++ [tx_byte s ((s.i2c_cmd.num_bytes + U32 - 1) % U32)]
    ∧ (i2c_send_next_byte s).lowest_energy_mode = s.lowest_energy_mode
    ∧ ∀ x, (i2c_send_next_byte s).load x = s.load x := by
  unfold i2c_send_next_byte
  generalize hs1 : ({ s with i2c_cmd := { s.i2c_cmd with
    num_bytes := (s.i2c_cmd.num_bytes + U32 - 1) % U32 } } : System) = s1
  have hc : s1.i2c_cmd = { s.i2c_cmd with
      num_bytes := (s.i2c_cmd.num_bytes + U32 - 1) % U32 } := by rw [← hs1]
  have hl : cmd_log s1 = cmd_log s ∧ txdata_log s1 = txdata_log s := by
    rw [← hs1]; exact with_i2c_cmd_frame s _ rfl
  have ht : s1.lowest_energy_mode = s.lowest_energy_mode := by rw [← hs1]
  have hld : ∀ x, s1.load x = s.load x := by
    intro x; rw [← hs1]; exact with_i2c_cmd_load s _ x
  have hv : ((s1.load s1.i2c_cmd.tx_data <<< ((SHIFT * s1.i2c_cmd.num_bytes) % U32)) % U32) % U8
      = tx_byte s ((s.i2c_cmd.num_bytes + U32 - 1) % U32) := by
    unfold tx_byte
    rw [hld, hc]
  dsimp only
  rw [hv]
  have h := write_TXDATA_frame (tx_byte s ((s.i2c_cmd.num_bytes + U32 - 1) % U32)) s1
  rw [tx_byte_lt] at h
  exact ⟨h.1.trans hc, h.2.1.trans hl.1, h.2.2.1.trans (by rw [hl.2]), h.2.2.2.trans ht,
    fun x => (write_TXDATA_load _ _ _ x).trans (hld x)⟩

/-- The statements of `i2c_receive_byte`: the counter goes down by one, nothing is written to
`CMD` or `TXDATA`. -/
theorem receive_byte_frame (s : System) :
    (i2c_receive_byte s).i2c_cmd
        = { s.i2c_cmd with num_bytes := (s.i2c_cmd.num_bytes + U32 - 1) % U32 }
    ∧ cmd_log (i2c_receive_byte s) = cmd_log s
    ∧ txdata_log (i2c_receive_byte s) = txdata_log s
    ∧ (i2c_receive_byte s).lowest_energy_mode = s.lowest_energy_mode := by
  rw [i2c_receive_byte_eq]
  generalize hs1 : ({ s with i2c_cmd := { s.i2c_cmd with
    num_bytes := (s.i2c_cmd.num_bytes + U32 - 1) % U32 } } : System) = s1
  have hc : s1.i2c_cmd = { s.i2c_cmd with
      num_bytes := (s.i2c_cmd.num_bytes + U32 - 1) % U32 } := by rw [← hs1]
  have hl : cmd_log s1 = cmd_log s ∧ txdata_log s1 = txdata_log s := by
    rw [← hs1]; exact with_i2c_cmd_frame s _ rfl
  have ht : s1.lowest_energy_mode = s.lowest_energy_mode := by rw [← hs1]
  generalize (s.load s.i2c_cmd.rx_data &&& not32 (0xff <<<
            ((SHIFT * ((s.i2c_cmd.num_bytes + U32 - 1) % U32)) % U32))) = a
  generalize ((s1.store s.i2c_cmd.rx_data a).load s.i2c_cmd.rx_data
      ||| (((s.i2c_regs s.i2c_cmd.i2c).RXDATA <<<
          ((SHIFT * ((s.i2c_cmd.num_bytes + U32 - 1) % U32)) % U32)) % U32)) = b
  have f1 := store_frame s.i2c_cmd.rx_data a s1
  have f2 := store_frame s.i2c_cmd.rx_data b (s1.store s.i2c_cmd.rx_data a)
  have hcc : ((s1.store s.i2c_cmd.rx_data a).store s.i2c_cmd.rx_data b).i2c_cmd = s1.i2c_cmd :=
    f2.1.trans f1.1
  refine ⟨hcc.trans hc, ?_, ?_, (f2.2.1.trans f1.2.1).trans ht⟩
  · unfold cmd_log at hl ⊢
    rw [hcc, f2.2.2, f1.2.2]; exact hl.1
  · unfold txdata_log at hl ⊢
    rw [hcc, f2.2.2, f1.2.2]; exact hl.2

/-! ## Bus engine and the block table -/

theorem i2c_ack_frame (s s1 : System) (h : i2c_ack s = .ok s1) :
    s1.lowest_energy_mode = s.lowest_energy_mode ∧ i2c_busy s1 = i2c_busy s := by
  have e1 := send_next_byte_frame s
  cases hst : s.i2c_cmd.current_state <;> simp only [i2c_ack, hst] at h <;>
    (try split at h) <;> cases h <;>
    simp only [i2c_busy, i2c_write_TXDATA_i2c_cmd, i2c_write_CMD_i2c_cmd,
      (write_TXDATA_regs _ _ _).2.2, (write_CMD_regs _ _ _).2.2, set_i2c_state, e1.1, e1.2.2.2.1,
      and_self]

theorem i2c_nack_frame (s s1 : System) (h : i2c_nack s = .ok s1) :
    s1.lowest_energy_mode = s.lowest_energy_mode ∧ i2c_busy s1 = i2c_busy s := by
  cases hst : s.i2c_cmd.current_state <;> simp only [i2c_nack, hst] at h <;> cases h
  simp only [i2c_busy, i2c_write_TXDATA_i2c_cmd, i2c_write_CMD_i2c_cmd,
    (write_TXDATA_regs _ _ _).2.2, (write_CMD_regs _ _ _).2.2, and_self]

theorem i2c_rxdatav_frame (s s1 : System) (h : i2c_rxdatav s = .ok s1) :
    s1.lowest_energy_mode = s.lowest_energy_mode ∧ i2c_busy s1 = i2c_busy s := by
  have e1 := receive_byte_frame s
  cases hst : s.i2c_cmd.current_state <;> simp only [i2c_rxdatav, hst] at h <;>
    (try split at h) <;> cases h <;>
    simp only [i2c_busy, i2c_write_CMD_i2c_cmd, (write_CMD_regs _ _ _).2.2, set_i2c_state,
      e1.1, e1.2.2.2, and_self]

theorem i2c_mstop_frame (s s1 : System) (h : i2c_mstop s = .ok s1) :
    s1.lowest_energy_mode = s.lowest_energy_mode.set I2C_EM_BLOCK 0 ∧ i2c_busy s1 = false := by
  cases hst : s.i2c_cmd.current_state
  case SEND_STOP_CMD =>
    rw [i2c_mstop_SEND_STOP_CMD s hst] at h
    cases h
    exact ⟨rfl, rfl⟩
  all_goals
    simp only [i2c_mstop, hst] at h
    cases h

/-- A step of the bus engine that returns changes the block table and the busy flag as
`table_effect` and `busy_effect` say. -/
theorem bus_step_effect (c : BusStep) (s s1 : System) (h : c.run s = .ok s1) :
    s1.lowest_energy_mode = c.table_effect s.lowest_energy_mode
      ∧ i2c_busy s1 = c.busy_effect (i2c_busy s) := by
  cases c with
  | start i2c device_address register_address rw rx_data tx_data num_bytes event_cb =>
    have h : i2c_start i2c device_address register_address rw rx_data tx_data num_bytes
        event_cb s = .ok s1 := h
    by_cases hidle : (s.i2c_regs i2c).STATE &&& I2C_STATE_STATE_MASK = I2C_STATE_STATE_IDLE
    · rw [i2c_start_ok _ _ _ _ _ _ _ _ _ hidle] at h
      cases h
      simp only [i2c_busy, i2c_write_TXDATA_i2c_cmd, i2c_write_CMD_i2c_cmd,
        (write_TXDATA_regs _ _ _).2.2, (write_CMD_regs _ _ _).2.2, BusStep.table_effect,
        BusStep.busy_effect, and_self]
    · simp only [i2c_start, EFM_ASSERT, hidle, decide_False, bind, Except.bind] at h
      cases h
  | irq q =>
    cases q with
    | ACK => exact i2c_ack_frame s s1 h
    | NACK => exact i2c_nack_frame s s1 h
    | RXDATAV b =>
      have h2 := i2c_rxdatav_frame _ s1 h
      exact ⟨h2.1.trans (set_RXDATA_frame _ _ _).2.2,
        h2.2.trans (by simp only [i2c_busy, set_i2c_regs_i2c_cmd]; rfl)⟩
    | MSTOP => exact i2c_mstop_frame s s1 h

theorem sleep_open_loop_length (n : Nat) : ∀ (i : Nat) (t : List Int),
    (sleep_open_loop i n t).length = t.length := by
  induction n with
  | zero => intro i t; rfl
  | succ n ih =>
    intro i t
    show (sleep_open_loop (i + 1) n (t.set i 0)).length = t.length
    rw [ih, List.length_set]

/-- The invariant of the bus engine on the block table: the table has its five entries, the
entry of `I2C_EM_BLOCK` is nonzero exactly when the engine is busy, and no other entry is
nonzero. -/
theorem bus_step_invariant (c : BusStep) (s s1 : System) (h : c.run s = .ok s1)
    (hlen : s.lowest_energy_mode.length = MAX_ENERGY_MODES)
    (hinv : (blocked s I2C_EM_BLOCK ↔ i2c_busy s = true)
      ∧ ∀ k, k ≠ I2C_EM_BLOCK → ¬ blocked s k) :
    s1.lowest_energy_mode.length = MAX_ENERGY_MODES
      ∧ (blocked s1 I2C_EM_BLOCK ↔ i2c_busy s1 = true)
      ∧ ∀ k, k ≠ I2C_EM_BLOCK → ¬ blocked s1 k := by
  obtain ⟨ht, hb⟩ := bus_step_effect c s s1 h
  have hl : I2C_EM_BLOCK < s.lowest_energy_mode.length := by rw [hlen]; decide
  cases c with
  | start i2c device_address register_address rw rx_data tx_data num_bytes event_cb =>
    simp only [BusStep.table_effect, BusStep.busy_effect] at ht hb
    refine ⟨by rw [ht, List.length_set]; exact hlen, ?_, ?_⟩
    · unfold blocked
      rw [ht, getD_set, if_pos ⟨rfl, hl⟩, hb]
      simp
    · intro k hk
      unfold blocked
      rw [ht, getD_set, if_neg (fun h => hk h.1.symm)]
      exact hinv.2 k hk
  | irq q =>
    cases q with
    | MSTOP =>
      simp only [BusStep.table_effect, BusStep.busy_effect] at ht hb
      refine ⟨by rw [ht, List.length_set]; exact hlen, ?_, ?_⟩
      · unfold blocked
        rw [ht, getD_set, if_pos ⟨rfl, hl⟩, hb]
        simp
      · intro k hk
        unfold blocked
        rw [ht, getD_set, if_neg (fun h => hk h.1.symm)]
        exact hinv.2 k hk
    | ACK =>
      simp only [BusStep.table_effect, BusStep.busy_effect] at ht hb
      unfold blocked at hinv ⊢
      rw [ht, hb]
      exact ⟨hlen, hinv⟩
    | NACK =>
      simp only [BusStep.table_effect, BusStep.busy_effect] at ht hb
      unfold blocked at hinv ⊢
      rw [ht, hb]
      exact ⟨hlen, hinv⟩
    | RXDATAV b =>
      simp only [BusStep.table_effect, BusStep.busy_effect] at ht hb
      unfold blocked at hinv ⊢
      rw [ht, hb]
      exact ⟨hlen, hinv⟩

theorem bus_run_invariant (cs : List BusStep) : ∀ (s s1 : System), bus_run cs s = .ok s1 →
    s.lowest_energy_mode.length = MAX_ENERGY_MODES →
    ((blocked s I2C_EM_BLOCK ↔ i2c_busy s = true) ∧ ∀ k, k ≠ I2C_EM_BLOCK → ¬ blocked s k) →
    s1.lowest_energy_mode
        = cs.foldl (fun t c => c.table_effect t) s.lowest_energy_mode
      ∧ i2c_busy s1 = cs.foldl (fun b c => c.busy_effect b) (i2c_busy s)
      ∧ (blocked s1 I2C_EM_BLOCK ↔ i2c_busy s1 = true)
      ∧ ∀ k, k ≠ I2C_EM_BLOCK → ¬ blocked s1 k := by
  induction cs with
  | nil =>
    intro s s1 h hlen hinv
    cases h
    exact ⟨rfl, rfl, hinv⟩
  | cons c cs ih =>
    intro s s1 h hlen hinv
    obtain ⟨s2, h2, h3⟩ := bind_ok _ _ _ h
    obtain ⟨hl2, hi2⟩ := bus_step_invariant c s s2 h2 hlen hinv
    obtain ⟨ht, hb⟩ := bus_step_effect c s s2 h2
    have r := ih s2 s1 h3 hl2 hi2
    rw [ht, hb] at r
    exact r

/-- C35: in every state reached from `sleep_open` and an idle engine through calls of
`i2c_start` and interrupts that all return, the block table is the initial one with one
`[I2C_EM_BLOCK] = 1` for each `i2c_start` and one `[I2C_EM_BLOCK] = 0` for each MSTOP, in the
order of the steps, and nothing else; the busy flag is set by each `i2c_start` and cleared by
each MSTOP; level `I2C_EM_BLOCK` is blocked if and only if `i2c_busy` is true; and no other
level is blocked. -/
theorem bus_block_iff_busy (cs : List BusStep) (s0 s : System)
    (hlen : s0.lowest_energy_mode.length = MAX_ENERGY_MODES) (hidle : i2c_busy s0 = false)
    (h : bus_run cs (sleep_open s0) = .ok s) :
    I2C_EM_BLOCK = EM2
      ∧ s.lowest_energy_mode
          = cs.foldl (fun t c => c.table_effect t) (sleep_open s0).lowest_energy_mode
      ∧ i2c_busy s = cs.foldl (fun b c => c.busy_effect b) false
      ∧ (blocked s EM2 ↔ i2c_busy s = true)
      ∧ ∀ k, k ≠ EM2 → ¬ blocked s k := by
  have hl : (sleep_open s0).lowest_energy_mode.length = MAX_ENERGY_MODES :=
    (sleep_open_loop_length _ _ _).trans hlen
  have hz : ∀ k, ¬ blocked (sleep_open s0) k := by
    intro k
    by_cases hk : k < MAX_ENERGY_MODES
    · exact fun hb => hb (sleep_open_entry s0 k hk)
    · intro hb
      apply hb
      exact List.getD_eq_default _ _ (by rw [hl]; exact Nat.le_of_not_lt hk)
  have hb0 : i2c_busy (sleep_open s0) = false := hidle
  have r := bus_run_invariant cs (sleep_open s0) s h hl
    ⟨⟨fun hb => absurd hb (hz _), fun hb => by rw [hb0] at hb; cases hb⟩, fun k _ => hz k⟩
  rw [hb0] at r
  exact ⟨rfl, r⟩

theorem bus_block_iff_busy_witness :
    boot.lowest_energy_mode.length = MAX_ENERGY_MODES ∧ i2c_busy boot = false
      ∧ ∃ s, bus_run [BusStep.start I2C_Periph.I2C0 0x40 0xF3 true Cell.si7021_i2c_rx_data
          Cell.si7021_i2c_tx_data 1 8, BusStep.irq I2cIrq.ACK, BusStep.irq I2cIrq.ACK,
          BusStep.irq I2cIrq.ACK, BusStep.irq (I2cIrq.RXDATAV 0x3A)] (sleep_open boot) = .ok s
        ∧ blocked s EM2 ∧ i2c_busy s = true :=
  ⟨rfl, rfl, _, rfl,
    ((bus_block_iff_busy [BusStep.start I2C_Periph.I2C0 0x40 0xF3 true Cell.si7021_i2c_rx_data
          Cell.si7021_i2c_tx_data 1 8, BusStep.irq I2cIrq.ACK, BusStep.irq I2cIrq.ACK,
          BusStep.irq I2cIrq.ACK, BusStep.irq (I2cIrq.RXDATAV 0x3A)] boot _ rfl rfl
        rfl).2.2.2.1).2 rfl, rfl⟩

/-! ## Bus engine: the steps of a transaction -/

theorem pred_U32 (m : Nat) (h : m + 1 < U32) : (m + 1 + U32 - 1) % U32 = m := by
  unfold U32 at *
  omega

theorem i2c_run_append (qs : List I2cIrq) : ∀ (rs : List I2cIrq) (s s1 : System),
    i2c_run qs s = .ok s1 → i2c_run (qs ++ rs) s = i2c_run rs s1 := by
  induction qs with
  | nil =>
    intro rs s s1 h
    cases h
    rfl
  | cons q qs ih =>
    intro rs s s1 h
    obtain ⟨s2, h2, h3⟩ := bind_ok _ _ _ h
    show (q.run s >>= i2c_run (qs ++ rs)) = _
    rw [h2, ok_bind]
    exact ih rs s2 s1 h3

/-- `i2c_start` on an idle peripheral: the descriptor is filled, START is written to `CMD`
and the address byte to `TXDATA`. -/
theorem start_step (p : I2C_Periph) (device_address register_address : Nat) (rw : Bool)
    (rx_data tx_data : Cell) (num_bytes event_cb : Nat) (s : System)
    (hidle : (s.i2c_regs p).STATE &&& I2C_STATE_STATE_MASK = I2C_STATE_STATE_IDLE) :
    ∃ s1, i2c_start p device_address register_address rw rx_data tx_data num_bytes event_cb s
        = .ok s1
      ∧ s1.i2c_cmd.current_state = i2c_states.SEND_DEVICE_ADDR
      ∧ s1.i2c_cmd.rw = rw
      ∧ s1.i2c_cmd.num_bytes = num_bytes % U32
      ∧ i2c_busy s1 = true
      ∧ cmd_log s1 = (s.i2c_regs p).CMD ++ [I2C_CMD_START]
      ∧ txdata_log s1
          = (s.i2c_regs p).TXDATA ++ [(((device_address % U32) <<< 1) % U32 ||| WRITE) % U32] := by
  refine ⟨_, i2c_start_ok _ _ _ _ _ _ _ _ _ hidle, ?_, ?_, ?_, ?_, ?_, ?_⟩
  · simp only [i2c_write_TXDATA_i2c_cmd, i2c_write_CMD_i2c_cmd]
  · simp only [i2c_write_TXDATA_i2c_cmd, i2c_write_CMD_i2c_cmd]
  · simp only [i2c_write_TXDATA_i2c_cmd, i2c_write_CMD_i2c_cmd]
  · simp only [i2c_busy, i2c_write_TXDATA_i2c_cmd, i2c_write_CMD_i2c_cmd]
  · unfold cmd_log
    simp only [i2c_write_TXDATA_i2c_cmd, i2c_write_CMD_i2c_cmd]
    rw [(write_TXDATA_regs _ _ _).2.1, (write_CMD_regs _ _ _).1, with_i2c_cmd_regs]
    cases p <;> rfl
  · unfold txdata_log
    simp only [i2c_write_TXDATA_i2c_cmd, i2c_write_CMD_i2c_cmd]
    rw [(write_TXDATA_regs _ _ _).1, (write_CMD_regs _ _ _).2.1, with_i2c_cmd_regs]
    cases p <;> rfl

theorem ack_device_step (s : System)
    (hst : s.i2c_cmd.current_state = i2c_states.SEND_DEVICE_ADDR) :
    ∃ s1, I2cIrq.ACK.run s = .ok s1
      ∧ s1.i2c_cmd = { s.i2c_cmd with current_state := i2c_states.SEND_REGISTER_ADDR }
      ∧ cmd_log s1 = cmd_log s
      ∧ txdata_log s1 = txdata_log s ++ [s.i2c_cmd.register_address % U32] := by
  refine ⟨_, i2c_ack_SEND_DEVICE_ADDR s hst, ?_, ?_, ?_⟩
  · rw [(set_i2c_state_frame _ _).1, (write_TXDATA_frame _ _).1]
  · rw [(set_i2c_state_frame _ _).2.1, (write_TXDATA_frame _ _).2.1]
  · rw [(set_i2c_state_frame _ _).2.2.1, (write_TXDATA_frame _ _).2.2.1]

theorem ack_register_read_step (s : System)
    (hst : s.i2c_cmd.current_state = i2c_states.SEND_REGISTER_ADDR)
    (hrw : s.i2c_cmd.rw = true) :
    ∃ s1, I2cIrq.ACK.run s = .ok s1
      ∧ s1.i2c_cmd = { s.i2c_cmd with current_state := i2c_states.WAIT_CONVERSION }
      ∧ cmd_log s1 = cmd_log s ++ [I2C_CMD_START]
      ∧ txdata_log s1
          = txdata_log s ++ [(((s.i2c_cmd.device_address <<< 1) % U32) ||| READ) % U32] := by
  refine ⟨_, i2c_ack_SEND_REGISTER_ADDR_read s hst hrw, ?_, ?_, ?_⟩
  · rw [i2c_write_TXDATA_i2c_cmd, i2c_write_CMD_i2c_cmd, (set_i2c_state_frame _ _).1]
  · have a := write_TXDATA_frame (((s.i2c_cmd.device_address <<< 1) % U32) ||| READ)
      (i2c_write_CMD s.i2c_cmd.i2c I2C_CMD_START (set_i2c_state i2c_states.WAIT_CONVERSION s))
    have b := write_CMD_frame I2C_CMD_START (set_i2c_state i2c_states.WAIT_CONVERSION s)
    rw [i2c_write_CMD_i2c_cmd] at a
    exact a.2.1.trans (b.2.1.trans (by rw [(set_i2c_state_frame _ _).2.1]; rfl))
  · have a := write_TXDATA_frame (((s.i2c_cmd.device_address <<< 1) % U32) ||| READ)
      (i2c_write_CMD s.i2c_cmd.i2c I2C_CMD_START (set_i2c_state i2c_states.WAIT_CONVERSION s))
    have b := write_CMD_frame I2C_CMD_START (set_i2c_state i2c_states.WAIT_CONVERSION s)
    rw [i2c_write_CMD_i2c_cmd] at a
    exact a.2.2.1.trans
      (congrArg (fun l => l ++ [(((s.i2c_cmd.device_address <<< 1) % U32) ||| READ) % U32])
        (b.2.2.1.trans (set_i2c_state_frame _ _).2.2.1))

theorem ack_wait_step (s : System)
    (hst : s.i2c_cmd.current_state = i2c_states.WAIT_CONVERSION) :
    ∃ s1, I2cIrq.ACK.run s = .ok s1
      ∧ s1.i2c_cmd = { s.i2c_cmd with current_state := i2c_states.DATA_READ }
      ∧ cmd_log s1 = cmd_log s
      ∧ txdata_log s1 = txdata_log s :=
  ⟨_, i2c_ack_WAIT_CONVERSION s hst, (set_i2c_state_frame _ _).1, (set_i2c_state_frame _ _).2.1,
    (set_i2c_state_frame _ _).2.2.1⟩

theorem rxdatav_more_step (s : System) (b m : Nat)
    (hst : s.i2c_cmd.current_state = i2c_states.DATA_READ)
    (hn : s.i2c_cmd.num_bytes = m + 2) (hlt : m + 2 < U32) :
    ∃ s1, (I2cIrq.RXDATAV b).run s = .ok s1
      ∧ s1.i2c_cmd = { s.i2c_cmd with num_bytes := m + 1 }
      ∧ cmd_log s1 = cmd_log s ++ [I2C_CMD_ACK]
      ∧ txdata_log s1 = txdata_log s := by
  have e0 := set_RXDATA_frame s.i2c_cmd.i2c b s
  have c0 := set_i2c_regs_i2c_cmd s s.i2c_cmd.i2c { s.i2c_regs s.i2c_cmd.i2c with RXDATA := b }
  show ∃ s1, i2c_rxdatav (s.set_i2c_regs s.i2c_cmd.i2c
      { s.i2c_regs s.i2c_cmd.i2c with RXDATA := b }) = .ok s1 ∧ _
  generalize s.set_i2c_regs s.i2c_cmd.i2c { s.i2c_regs s.i2c_cmd.i2c with RXDATA := b } = t
    at e0 c0 ⊢
  have l0 : cmd_log t = cmd_log s ∧ txdata_log t = txdata_log s := by
    unfold cmd_log txdata_log
    rw [c0]
    exact ⟨e0.1, e0.2.1⟩
  have r := receive_byte_frame t
  rw [c0, hn, pred_U32 (m + 1) hlt] at r
  have hpos : (i2c_receive_byte t).i2c_cmd.num_bytes > 0 := by
    rw [r.1]; exact Nat.succ_pos m
  refine ⟨_, i2c_rxdatav_more t (by rw [c0]; exact hst) hpos, ?_, ?_, ?_⟩
  · rw [i2c_write_CMD_i2c_cmd, r.1]
  · rw [(write_CMD_frame _ _).2.1, r.2.1, l0.1]; rfl
  · rw [(write_CMD_frame _ _).2.2.1, r.2.2.1, l0.2]

theorem rxdatav_last_step (s : System) (b : Nat)
    (hst : s.i2c_cmd.current_state = i2c_states.DATA_READ)
    (hn : s.i2c_cmd.num_bytes = 1) :
    ∃ s1, (I2cIrq.RXDATAV b).run s = .ok s1
      ∧ s1.i2c_cmd = { s.i2c_cmd with
          num_bytes := 0, current_state := i2c_states.SEND_STOP_CMD }
      ∧ cmd_log s1 = cmd_log s ++ [I2C_CMD_NACK, I2C_CMD_STOP]
      ∧ txdata_log s1 = txdata_log s := by
  have e0 := set_RXDATA_frame s.i2c_cmd.i2c b s
  have c0 := set_i2c_regs_i2c_cmd s s.i2c_cmd.i2c { s.i2c_regs s.i2c_cmd.i2c with RXDATA := b }
  show ∃ s1, i2c_rxdatav (s.set_i2c_regs s.i2c_cmd.i2c
      { s.i2c_regs s.i2c_cmd.i2c with RXDATA := b }) = .ok s1 ∧ _
  generalize s.set_i2c_regs s.i2c_cmd.i2c { s.i2c_regs s.i2c_cmd.i2c with RXDATA := b } = t
    at e0 c0 ⊢
  have l0 : cmd_log t = cmd_log s ∧ txdata_log t = txdata_log s := by
    unfold cmd_log txdata_log
    rw [c0]
    exact ⟨e0.1, e0.2.1⟩
  have r := receive_byte_frame t
  rw [c0, hn, pred_U32 0 (by decide)] at r
  have hpos : ¬ (i2c_receive_byte t).i2c_cmd.num_bytes > 0 := by
    rw [r.1]; exact Nat.lt_irrefl 0
  refine ⟨_, i2c_rxdatav_last t (by rw [c0]; exact hst) hpos, ?_, ?_, ?_⟩
  · rw [(set_i2c_state_frame _ _).1, i2c_write_CMD_i2c_cmd, i2c_write_CMD_i2c_cmd, r.1]
  · have a := write_CMD_frame I2C_CMD_NACK (i2c_receive_byte t)
    have a2 := write_CMD_frame_at (i2c_receive_byte t).i2c_cmd.i2c I2C_CMD_STOP
      (i2c_write_CMD (i2c_receive_byte t).i2c_cmd.i2c I2C_CMD_NACK (i2c_receive_byte t))
      (by rw [i2c_write_CMD_i2c_cmd])
    have e : cmd_log (i2c_write_CMD (i2c_receive_byte t).i2c_cmd.i2c I2C_CMD_NACK
        (i2c_receive_byte t)) = cmd_log s ++ [I2C_CMD_NACK] :=
      a.2.1.trans (by rw [r.2.1, l0.1]; rfl)
    exact (set_i2c_state_frame _ _).2.1.trans
      (a2.1.trans (by rw [e, List.append_assoc]; rfl))
  · have a := write_CMD_frame I2C_CMD_NACK (i2c_receive_byte t)
    have a2 := write_CMD_frame_at (i2c_receive_byte t).i2c_cmd.i2c I2C_CMD_STOP
      (i2c_write_CMD (i2c_receive_byte t).i2c_cmd.i2c I2C_CMD_NACK (i2c_receive_byte t))
      (by rw [i2c_write_CMD_i2c_cmd])
    exact (set_i2c_state_frame _ _).2.2.1.trans
      (a2.2.trans (a.2.2.1.trans (r.2.2.1.trans l0.2)))

/-- The first bytes of a read: while more than one byte is outstanding, each RXDATAV is
answered with the ACK command and the state stays `DATA_READ`. -/
theorem read_prefix (bs : List Nat) : ∀ (s : System) (m : Nat),
    s.i2c_cmd.current_state = i2c_states.DATA_READ →
    s.i2c_cmd.num_bytes = bs.length + (m + 1) → bs.length + (m + 1) < U32 →
    ∃ s1, i2c_run (bs.map I2cIrq.RXDATAV) s = .ok s1
      ∧ s1.i2c_cmd.current_state = i2c_states.DATA_READ
      ∧ s1.i2c_cmd.num_bytes = m + 1
      ∧ cmd_log s1 = cmd_log s ++ List.replicate bs.length I2C_CMD_ACK
      ∧ txdata_log s1 = txdata_log s := by
  induction bs with
  | nil =>
    intro s m hst hn _
    refine ⟨s, rfl, hst, ?_, ?_, rfl⟩
    · rw [hn]; exact Nat.zero_add _
    · exact (List.append_nil _).symm
  | cons b bs ih =>
    intro s m hst hn hlt
    have hn2 : s.i2c_cmd.num_bytes = (bs.length + m) + 2 := by
      rw [hn, List.length_cons]; omega
    have hlt2 : (bs.length + m) + 2 < U32 := by
      rw [List.length_cons] at hlt; omega
    obtain ⟨s1, h1, c1, l1, t1⟩ := rxdatav_more_step s b (bs.length + m) hst hn2 hlt2
    obtain ⟨s2, h2, st2, n2, l2, t2⟩ := ih s1 m (by rw [c1]; exact hst)
      (by rw [c1]; show bs.length + m + 1 = _; omega) (by omega)
    refine ⟨s2, ?_, st2, n2, ?_, t2.trans t1⟩
    · show ((I2cIrq.RXDATAV b).run s >>= i2c_run (bs.map I2cIrq.RXDATAV)) = _
      rw [h1, ok_bind]; exact h2
    · rw [l2, l1, List.append_assoc]; rfl

/-- C32: a read transaction of `n = |bs| + 1` bytes on an idle peripheral, whose address
phase is acknowledged (`i2c_start`, then ACK, ACK, ACK), is in `DATA_READ` with the byte
count `n`.  From there, after any `k ≤ n - 1` RXDATAV interrupts the engine is still in
`DATA_READ`, the byte count is `n - k`, and `k` ACK commands and nothing else have been
written to `CMD`; after the `n`-th RXDATAV the commands written are `n - 1` times ACK, then
NACK, then STOP, nothing was written to `TXDATA`, the state is `SEND_STOP_CMD`, the byte
count is zero, and one more RXDATAV hits the assertion. -/
theorem read_ack_sequence (bs : List Nat) (b : Nat) (s : System) (p : I2C_Periph)
    (device_address register_address : Nat) (rx_data tx_data : Cell) (event_cb : Nat)
    (hidle : (s.i2c_regs p).STATE &&& I2C_STATE_STATE_MASK = I2C_STATE_STATE_IDLE)
    (hlt : bs.length + 1 < U32) :
    ∃ s0, (i2c_start p device_address register_address true rx_data tx_data (bs.length + 1)
              event_cb s >>= i2c_run [I2cIrq.ACK, I2cIrq.ACK, I2cIrq.ACK]) = .ok s0
      ∧ s0.i2c_cmd.current_state = i2c_states.DATA_READ
      ∧ s0.i2c_cmd.num_bytes = bs.length + 1
      ∧ (∀ k, k ≤ bs.length →
          ∃ sk, i2c_run ((bs.take k).map I2cIrq.RXDATAV) s0 = .ok sk
            ∧ sk.i2c_cmd.current_state = i2c_states.DATA_READ
            ∧ sk.i2c_cmd.num_bytes = bs.length + 1 - k
            ∧ cmd_log sk = cmd_log s0 ++ List.replicate k I2C_CMD_ACK)
      ∧ ∃ s1, i2c_run ((bs ++ [b]).map I2cIrq.RXDATAV) s0 = .ok s1
          ∧ s1.i2c_cmd.current_state = i2c_states.SEND_STOP_CMD
          ∧ s1.i2c_cmd.num_bytes = 0
          ∧ cmd_log s1 = cmd_log s0
              ++ (List.replicate bs.length I2C_CMD_ACK ++ [I2C_CMD_NACK, I2C_CMD_STOP])
          ∧ txdata_log s1 = txdata_log s0
          ∧ ∀ b2, ∃ e, (I2cIrq.RXDATAV b2).run s1 = .error (Fault.assertion, e) := by
  obtain ⟨sa, ha, sta, rwa, na, _, _, _⟩ := start_step p device_address register_address true
    rx_data tx_data (bs.length + 1) event_cb s hidle
  obtain ⟨sb, hb, cb, _, _⟩ := ack_device_step sa sta
  obtain ⟨sc, hc, cc, _, _⟩ := ack_register_read_step sb (by rw [cb]) (by rw [cb]; exact rwa)
  obtain ⟨s0, h0, c0, _, _⟩ := ack_wait_step sc (by rw [cc])
  have st0 : s0.i2c_cmd.current_state = i2c_states.DATA_READ := by rw [c0]
  have n0 : s0.i2c_cmd.num_bytes = bs.length + 1 := by
    rw [c0, cc, cb]
    exact na.trans (Nat.mod_eq_of_lt hlt)
  refine ⟨s0, ?_, st0, n0, ?_, ?_⟩
  · rw [ha, ok_bind, i2c_run_cons, hb, ok_bind, i2c_run_cons, hc, ok_bind, i2c_run_cons, h0,
      ok_bind]
    rfl
  · intro k hk
    have hl : (bs.take k).length = k := by rw [List.length_take]; exact Nat.min_eq_left hk
    obtain ⟨sk, h1, st1, n1, l1, _⟩ := read_prefix (bs.take k) s0 (bs.length - k) st0
      (by rw [n0, hl]; omega) (by rw [hl]; omega)
    refine ⟨sk, h1, st1, ?_, ?_⟩
    · rw [n1]; omega
    · rw [l1, hl]
  · obtain ⟨s2, h2, st2, n2, l2, t2⟩ := read_prefix bs s0 0 st0 n0 hlt
    obtain ⟨s1, h1, c1, l1, t1⟩ := rxdatav_last_step s2 b st2 n2
    refine ⟨s1, ?_, by rw [c1], by rw [c1], ?_, t1.trans t2, ?_⟩
    · rw [List.map_append, i2c_run_append _ _ _ _ h2]
      show ((I2cIrq.RXDATAV b).run s2 >>= i2c_run []) = _
      rw [h1, ok_bind]
      rfl
    · rw [l1, l2, List.append_assoc]
    · intro b2
      refine ⟨_, (i2c_rxdatav_table _ b2).2 ?_⟩
      rw [set_i2c_regs_i2c_cmd, c1]
      rfl

theorem read_ack_sequence_witness :
    (boot.i2c_regs I2C_Periph.I2C0).STATE &&& I2C_STATE_STATE_MASK = I2C_STATE_STATE_IDLE
      ∧ [0x12, 0x34].length + 1 < U32
      ∧ ∃ s0, (i2c_start I2C_Periph.I2C0 0x40 0xF3 true Cell.si7021_i2c_rx_data
                Cell.si7021_i2c_tx_data 3 8 boot
              >>= i2c_run [I2cIrq.ACK, I2cIrq.ACK, I2cIrq.ACK]) = .ok s0
        ∧ ∃ s1, i2c_run [I2cIrq.RXDATAV 0x12, I2cIrq.RXDATAV 0x34, I2cIrq.RXDATAV 0x56] s0
              = .ok s1
          ∧ s1.i2c_cmd.current_state = i2c_states.SEND_STOP_CMD
          ∧ cmd_log s1 = cmd_log s0
              ++ [I2C_CMD_ACK, I2C_CMD_ACK, I2C_CMD_NACK, I2C_CMD_STOP] := by
  obtain ⟨s0, h0, _, _, _, s1, h1, st1, _, l1, _⟩ :=
    read_ack_sequence [0x12, 0x34] 0x56 boot I2C_Periph.I2C0 0x40 0xF3 Cell.si7021_i2c_rx_data
      Cell.si7021_i2c_tx_data 8 (by decide) (by decide)
  exact ⟨by decide, by decide, s0, h0, s1, h1, st1, l1⟩

/-! ## Bus engine: the write path -/

theorem i2c_ack_SEND_REGISTER_ADDR_write (s : System)
    (h : s.i2c_cmd.current_state = i2c_states.SEND_REGISTER_ADDR) (hrw : s.i2c_cmd.rw = false) :
    i2c_ack s = .ok (set_i2c_state i2c_states.DATA_WRITE (i2c_send_next_byte s)) := by
  simp only [i2c_ack, h, hrw]; rfl

theorem i2c_ack_DATA_WRITE_more (s : System)
    (h : s.i2c_cmd.current_state = i2c_states.DATA_WRITE) (hn : ¬ s.i2c_cmd.num_bytes ≤ 0) :
    i2c_ack s = .ok (i2c_send_next_byte s) := by
  simp only [i2c_ack, h]
  rw [if_neg hn]; rfl

theorem i2c_ack_DATA_WRITE_done (s : System)
    (h : s.i2c_cmd.current_state = i2c_states.DATA_WRITE) (hn : s.i2c_cmd.num_bytes ≤ 0) :
    i2c_ack s = .ok (i2c_write_CMD s.i2c_cmd.i2c I2C_CMD_STOP
      (set_i2c_state i2c_states.SEND_STOP_CMD s)) := by
  simp only [i2c_ack, h]
  rw [if_pos hn]; rfl

theorem ack_register_write_step (s : System) (m : Nat)
    (hst : s.i2c_cmd.current_state = i2c_states.SEND_REGISTER_ADDR)
    (hrw : s.i2c_cmd.rw = false) (hn : s.i2c_cmd.num_bytes = m + 1) (hlt : m + 1 < U32) :
    ∃ s1, I2cIrq.ACK.run s = .ok s1
      ∧ s1.i2c_cmd = { s.i2c_cmd with
          num_bytes := m, current_state := i2c_states.DATA_WRITE }
      ∧ cmd_log s1 = cmd_log s
      ∧ txdata_log s1 = txdata_log s ++ [tx_byte s m]
      ∧ ∀ x, s1.load x = s.load x := by
  have f := send_next_byte_frame s
  rw [hn, pred_U32 m hlt] at f
  refine ⟨_, i2c_ack_SEND_REGISTER_ADDR_write s hst hrw, ?_, ?_, ?_, ?_⟩
  · rw [(set_i2c_state_frame _ _).1, f.1]
  · exact (set_i2c_state_frame _ _).2.1.trans f.2.1
  · exact (set_i2c_state_frame _ _).2.2.1.trans f.2.2.1
  · intro x
    exact (with_i2c_cmd_load _ _ x).trans (f.2.2.2.2 x)

theorem ack_write_step (s : System) (m : Nat)
    (hst : s.i2c_cmd.current_state = i2c_states.DATA_WRITE)
    (hn : s.i2c_cmd.num_bytes = m + 1) (hlt : m + 1 < U32) :
    ∃ s1, I2cIrq.ACK.run s = .ok s1
      ∧ s1.i2c_cmd = { s.i2c_cmd with num_bytes := m }
      ∧ cmd_log s1 = cmd_log s
      ∧ txdata_log s1 = txdata_log s ++ [tx_byte s m]
      ∧ ∀ x, s1.load x = s.load x := by
  have f := send_next_byte_frame s
  rw [hn, pred_U32 m hlt] at f
  exact ⟨_, i2c_ack_DATA_WRITE_more s hst (by rw [hn]; omega), f.1, f.2.1, f.2.2.1, f.2.2.2.2⟩

theorem ack_write_stop_step (s : System)
    (hst : s.i2c_cmd.current_state = i2c_states.DATA_WRITE)
    (hn : s.i2c_cmd.num_bytes = 0) :
    ∃ s1, I2cIrq.ACK.run s = .ok s1
      ∧ s1.i2c_cmd = { s.i2c_cmd with current_state := i2c_states.SEND_STOP_CMD }
      ∧ cmd_log s1 = cmd_log s ++ [I2C_CMD_STOP]
      ∧ txdata_log s1 = txdata_log s := by
  have a := write_CMD_frame_at s.i2c_cmd.i2c I2C_CMD_STOP
    (set_i2c_state i2c_states.SEND_STOP_CMD s) rfl
  refine ⟨_, i2c_ack_DATA_WRITE_done s hst (by rw [hn]), ?_, ?_, ?_⟩
  · rw [i2c_write_CMD_i2c_cmd, (set_i2c_state_frame _ _).1]
  · exact a.1.trans (by rw [(set_i2c_state_frame _ _).2.1]; rfl)
  · exact a.2.trans (set_i2c_state_frame _ _).2.2.1

theorem add_scheduled_event_regs (e : Nat) (s : System) (p : I2C_Periph) :
    (add_scheduled_event e s).i2c_regs p = s.i2c_regs p := by
  cases p <;> rfl

theorem mstop_step (s : System)
    (hst : s.i2c_cmd.current_state = i2c_states.SEND_STOP_CMD) :
    ∃ s1, I2cIrq.MSTOP.run s = .ok s1
      ∧ i2c_busy s1 = false
      ∧ s1.i2c_cmd.current_state = i2c_states.SEND_DEVICE_ADDR
      ∧ cmd_log s1 = cmd_log s
      ∧ txdata_log s1 = txdata_log s := by
  refine ⟨_, i2c_mstop_SEND_STOP_CMD s hst, rfl, rfl, ?_, ?_⟩
  · show ((add_scheduled_event _ _).i2c_regs s.i2c_cmd.i2c).CMD
      = (s.i2c_regs s.i2c_cmd.i2c).CMD
    rw [add_scheduled_event_regs]
    generalize s.i2c_cmd.i2c = p
    cases p <;> rfl
  · show ((add_scheduled_event _ _).i2c_regs s.i2c_cmd.i2c).TXDATA
      = (s.i2c_regs s.i2c_cmd.i2c).TXDATA
    rw [add_scheduled_event_regs]
    generalize s.i2c_cmd.i2c = p
    cases p <;> rfl

/-- The data phase of a write: while the counter is not zero, each ACK decrements it and
writes the byte formed with the new counter. -/
theorem write_drain (j : Nat) : ∀ (s : System) (m : Nat),
    s.i2c_cmd.current_state = i2c_states.DATA_WRITE →
    s.i2c_cmd.num_bytes = j + m → j + m < U32 →
    ∃ s1, i2c_run (List.replicate j I2cIrq.ACK) s = .ok s1
      ∧ s1.i2c_cmd = { s.i2c_cmd with num_bytes := m }
      ∧ cmd_log s1 = cmd_log s
      ∧ txdata_log s1
          = txdata_log s ++ (List.range j).map (fun i => tx_byte s (m + j - 1 - i))
      ∧ ∀ x, s1.load x = s.load x := by
  induction j with
  | zero =>
    intro s m hst hn _
    refine ⟨s, rfl, ?_, rfl, (List.append_nil _).symm, fun _ => rfl⟩
    rw [Nat.zero_add] at hn
    rw [← hn]
  | succ j ih =>
    intro s m hst hn hlt
    obtain ⟨s1, h1, c1, l1, t1, d1⟩ := ack_write_step s (j + m) hst (by rw [hn]; omega)
      (by omega)
    obtain ⟨s2, h2, c2, l2, t2, d2⟩ := ih s1 m (by rw [c1]; exact hst) (by rw [c1]) (by omega)
    have hb : ∀ k, tx_byte s1 k = tx_byte s k := tx_byte_congr s s1 (by rw [c1]) d1
    refine ⟨s2, ?_, ?_, l2.trans l1, ?_, fun x => (d2 x).trans (d1 x)⟩
    · show (I2cIrq.ACK.run s >>= i2c_run (List.replicate j I2cIrq.ACK)) = _
      rw [h1, ok_bind]; exact h2
    · rw [c2, c1]
    · rw [t2, t1, List.append_assoc, List.range_succ_eq_map, List.map_cons, List.map_map]
      refine congrArg (fun l => txdata_log s ++ l) ?_
      refine congr (congrArg List.cons ?_) (List.map_congr_left ?_)
      · exact congrArg (tx_byte s) (by omega)
      · intro i _
        rw [hb]
        exact congrArg (tx_byte s) (by show m + j - 1 - i = m + (j + 1) - 1 - (i + 1); omega)

/-- The register byte acknowledged and `j` further ACKs in a write with more than `j` bytes
outstanding: `j + 1` data bytes are written, formed with the counters from the first
decremented value downwards. -/
theorem write_data (j : Nat) (s : System) (m : Nat)
    (hst : s.i2c_cmd.current_state = i2c_states.SEND_REGISTER_ADDR)
    (hrw : s.i2c_cmd.rw = false)
    (hn : s.i2c_cmd.num_bytes = j + 1 + m) (hlt : j + 1 + m < U32) :
    ∃ s1, i2c_run (List.replicate (j + 1) I2cIrq.ACK) s = .ok s1
      ∧ s1.i2c_cmd = { s.i2c_cmd with
          num_bytes := m, current_state := i2c_states.DATA_WRITE }
      ∧ cmd_log s1 = cmd_log s
      ∧ txdata_log s1
          = txdata_log s ++ (List.range (j + 1)).map (fun i => tx_byte s (m + j - i)) := by
  obtain ⟨s1, h1, c1, l1, t1, d1⟩ := ack_register_write_step s (j + m) hst hrw
    (by rw [hn]; omega) (by omega)
  obtain ⟨s2, h2, c2, l2, t2, _⟩ := write_drain j s1 m (by rw [c1]) (by rw [c1]) (by omega)
  have hb : ∀ k, tx_byte s1 k = tx_byte s k := tx_byte_congr s s1 (by rw [c1]) d1
  refine ⟨s2, ?_, ?_, l2.trans l1, ?_⟩
  · show (I2cIrq.ACK.run s >>= i2c_run (List.replicate j I2cIrq.ACK)) = _
    rw [h1, ok_bind]; exact h2
  · rw [c2, c1]
  · rw [t2, t1, List.append_assoc, List.range_succ_eq_map, List.map_cons, List.map_map]
    refine congrArg (fun l => txdata_log s ++ l) ?_
    refine congr (congrArg List.cons ?_) (List.map_congr_left ?_)
    · exact congrArg (tx_byte s) (by omega)
    · intro i hi
      rw [hb]
      have hi2 : i < j := List.mem_range.mp hi
      exact congrArg (tx_byte s) (by show m + j - 1 - i = m + j - (i + 1); omega)

/-- C34: a write transaction of `n ≥ 1` bytes on an idle peripheral whose address byte is
acknowledged (`i2c_start`, then ACK) has written the address byte and the register byte and
waits in `SEND_REGISTER_ADDR` with the byte count `n`.  From there, after `j` ACKs,
`1 ≤ j ≤ n`, the engine is in `DATA_WRITE`, the byte count is `n - j`, nothing was written to
`CMD` and exactly `j` data bytes were written to `TXDATA`, the `i`-th of them (from 0) formed
with the already decremented counter `n - 1 - i`; the ACK after the `n`-th data byte finds the
counter at zero, writes no data byte, writes STOP to `CMD` and moves to `SEND_STOP_CMD` with
the counter still zero; the MSTOP that follows returns and leaves the engine not busy. -/
theorem write_byte_count (n : Nat) (s : System) (p : I2C_Periph)
    (device_address register_address : Nat) (rx_data tx_data : Cell) (event_cb : Nat)
    (hidle : (s.i2c_regs p).STATE &&& I2C_STATE_STATE_MASK = I2C_STATE_STATE_IDLE)
    (hn : 1 ≤ n) (hlt : n < U32) :
    ∃ s0, (i2c_start p device_address register_address false rx_data tx_data n event_cb s
              >>= i2c_run [I2cIrq.ACK]) = .ok s0
      ∧ s0.i2c_cmd.current_state = i2c_states.SEND_REGISTER_ADDR
      ∧ s0.i2c_cmd.num_bytes = n
      ∧ txdata_log s0 = (s.i2c_regs p).TXDATA
          ++ [(((device_address % U32) <<< 1) % U32 ||| WRITE) % U32, register_address % U32]
      ∧ (∀ j, 1 ≤ j → j ≤ n →
          ∃ sj, i2c_run (List.replicate j I2cIrq.ACK) s0 = .ok sj
            ∧ sj.i2c_cmd.current_state = i2c_states.DATA_WRITE
            ∧ sj.i2c_cmd.num_bytes = n - j
            ∧ cmd_log sj = cmd_log s0
            ∧ txdata_log sj
                = txdata_log s0 ++ (List.range j).map (fun i => tx_byte s0 (n - 1 - i)))
      ∧ ∃ s1, i2c_run (List.replicate (n + 1) I2cIrq.ACK) s0 = .ok s1
          ∧ s1.i2c_cmd.current_state = i2c_states.SEND_STOP_CMD
          ∧ s1.i2c_cmd.num_bytes = 0
          ∧ cmd_log s1 = cmd_log s0 ++ [I2C_CMD_STOP]
          ∧ txdata_log s1
              = txdata_log s0 ++ (List.range n).map (fun i => tx_byte s0 (n - 1 - i))
          ∧ ∃ s2, i2c_run [I2cIrq.MSTOP] s1 = .ok s2
              ∧ i2c_busy s2 = false
              ∧ cmd_log s2 = cmd_log s1
              ∧ txdata_log s2 = txdata_log s1 := by
  obtain ⟨sa, ha, sta, rwa, na, _, _, ta⟩ := start_step p device_address register_address false
    rx_data tx_data n event_cb s hidle
  obtain ⟨s0, h0, c0, _, t0⟩ := ack_device_step sa sta
  have st0 : s0.i2c_cmd.current_state = i2c_states.SEND_REGISTER_ADDR := by rw [c0]
  have rw0 : s0.i2c_cmd.rw = false := by rw [c0]; exact rwa
  have n0 : s0.i2c_cmd.num_bytes = n := by
    rw [c0]; exact na.trans (Nat.mod_eq_of_lt hlt)
  have key : ∀ j, 1 ≤ j → j ≤ n →
      ∃ sj, i2c_run (List.replicate j I2cIrq.ACK) s0 = .ok sj
        ∧ sj.i2c_cmd = { s0.i2c_cmd with
            num_bytes := n - j, current_state := i2c_states.DATA_WRITE }
        ∧ cmd_log sj = cmd_log s0
        ∧ txdata_log sj
            = txdata_log s0 ++ (List.range j).map (fun i => tx_byte s0 (n - 1 - i)) := by
    intro j hj1 hjn
    obtain ⟨j2, rfl⟩ : ∃ j2, j = j2 + 1 := ⟨j - 1, by omega⟩
    obtain ⟨sj, h1, c1, l1, t1⟩ := write_data j2 s0 (n - (j2 + 1)) st0 rw0
      (by rw [n0]; omega) (by omega)
    refine ⟨sj, h1, c1, l1, t1.trans (congrArg (fun l => txdata_log s0 ++ l) ?_)⟩
    refine List.map_congr_left ?_
    intro i hi
    have hi2 : i < j2 + 1 := List.mem_range.mp hi
    exact congrArg (tx_byte s0) (by omega)
  have hreg : sa.i2c_cmd.register_address = register_address % U32 := by
    have e := i2c_start_ok p device_address register_address false rx_data tx_data n event_cb s
      hidle
    rw [e] at ha
    cases ha
    simp only [i2c_write_TXDATA_i2c_cmd, i2c_write_CMD_i2c_cmd]
  refine ⟨s0, ?_, st0, n0, ?_, ?_, ?_⟩
  · rw [ha, ok_bind, i2c_run_cons, h0, ok_bind]
    rfl
  · rw [t0, ta, hreg, Nat.mod_mod, List.append_assoc]
    rfl
  · intro j hj1 hjn
    obtain ⟨sj, h1, c1, l1, t1⟩ := key j hj1 hjn
    exact ⟨sj, h1, by rw [c1], by rw [c1], l1, t1⟩
  · obtain ⟨sn, h1, c1, l1, t1⟩ := key n hn (Nat.le_refl n)
    obtain ⟨s1, h2, c2, l2, t2⟩ := ack_write_stop_step sn (by rw [c1])
      (by rw [c1]; exact Nat.sub_self n)
    obtain ⟨s2, h3, b3, _, l3, t3⟩ := mstop_step s1 (by rw [c2])
    refine ⟨s1, ?_, by rw [c2], ?_, ?_, t2.trans t1, s2, ?_, b3, l3, t3⟩
    · have e : List.replicate (n + 1) I2cIrq.ACK
          = List.replicate n I2cIrq.ACK ++ [I2cIrq.ACK] := List.replicate_succ' n I2cIrq.ACK
      rw [e, i2c_run_append _ _ _ _ h1]
      show (I2cIrq.ACK.run sn >>= i2c_run []) = _
      rw [h2, ok_bind]
      rfl
    · rw [c2, c1]
      exact Nat.sub_self n
    · rw [l2, l1]
    · show (I2cIrq.MSTOP.run s1 >>= i2c_run []) = _
      rw [h3, ok_bind]
      rfl

theorem write_byte_count_witness :
    (boot.i2c_regs I2C_Periph.I2C0).STATE &&& I2C_STATE_STATE_MASK = I2C_STATE_STATE_IDLE
      ∧ 1 ≤ 2 ∧ 2 < U32
      ∧ ∃ s0, (i2c_start I2C_Periph.I2C0 0x40 0xE6 false Cell.si7021_i2c_rx_data
                Cell.si7021_i2c_tx_data 2 8 boot >>= i2c_run [I2cIrq.ACK]) = .ok s0
        ∧ ∃ s1, i2c_run [I2cIrq.ACK, I2cIrq.ACK, I2cIrq.ACK] s0 = .ok s1
          ∧ s1.i2c_cmd.current_state = i2c_states.SEND_STOP_CMD
          ∧ cmd_log s1 = cmd_log s0 ++ [I2C_CMD_STOP]
          ∧ txdata_log s1 = txdata_log s0 ++ [tx_byte s0 1, tx_byte s0 0] := by
  obtain ⟨s0, h0, _, _, _, _, s1, h1, st1, _, l1, t1, _⟩ :=
    write_byte_count 2 boot I2C_Periph.I2C0 0x40 0xE6 Cell.si7021_i2c_rx_data
      Cell.si7021_i2c_tx_data 8 (by decide) (by decide) (by decide)
  exact ⟨by decide, by decide, by decide, s0, h0, s1, h1, st1, l1, t1⟩

/-! ## Serial transmit engine: the drain of a message -/

theorem or_TXC_armed (x : Nat) :
    ((x &&& not32 LEUART_IEN_TXBL) ||| LEUART_IEN_TXC) &&& LEUART_IEN_TXBL = 0
    ∧ ((x &&& not32 LEUART_IEN_TXBL) ||| LEUART_IEN_TXC) &&& LEUART_IEN_TXC = LEUART_IEN_TXC := by
  constructor
  · apply Nat.eq_of_testBit_eq
    intro i
    simp only [Nat.testBit_and, Nat.testBit_or, testBit_not32, Nat.zero_testBit]
    have h : (LEUART_IEN_TXC.testBit i && LEUART_IEN_TXBL.testBit i) = false := by
      rw [← Nat.testBit_and]
      exact Nat.zero_testBit i
    cases x.testBit i <;> cases hc : LEUART_IEN_TXC.testBit i <;>
      cases hb : LEUART_IEN_TXBL.testBit i <;> cases decide (i < 32) <;> simp_all
  · exact or_and_self_right _ _

/-- C33: after `leuart_start(s, n)` on an idle peripheral, for every `k ≤ n` the first `k`
TXBL interrupts return with the first `k` bytes of the string appended to `TXDATA`, in
order, and the engine in `DATA_TRANSMISSION`; the next TXBL interrupt after `n` of them
writes nothing, clears the TXBL enable, sets the TXC enable and moves the engine to `CLOSE`:
the bytes written for the message are its `n` bytes, for every `n`. -/
theorem serial_drain (string : CharPtr) (n : Nat) (s : System)
    (hidle : s.LEUART0.STATUS &&& LEUART_STATUS_TXIDLE ≠ 0) (hn : n < U32) :
    ∃ s1, leuart_start string n s = .ok s1
      ∧ s1.LEUART0.TXDATA = s.LEUART0.TXDATA
      ∧ (∀ k, k ≤ n → ∃ sk, leuart_run (List.replicate k LeuartIrq.TXBL) s1 = .ok sk
          ∧ sk.LEUART0.TXDATA = s.LEUART0.TXDATA ++ CharPtr.bytes s k string
          ∧ sk.leuart_cmd.current_state = leuart_states.DATA_TRANSMISSION
          ∧ sk.leuart_cmd.string_count = k
          ∧ sk.LEUART0.IEN = s1.LEUART0.IEN)
      ∧ ∃ s2, leuart_run (List.replicate (n + 1) LeuartIrq.TXBL) s1 = .ok s2
          ∧ s2.LEUART0.TXDATA = s.LEUART0.TXDATA ++ CharPtr.bytes s n string
          ∧ s2.leuart_cmd.current_state = leuart_states.CLOSE
          ∧ s2.LEUART0.IEN &&& LEUART_IEN_TXBL = 0
          ∧ s2.LEUART0.IEN &&& LEUART_IEN_TXC = LEUART_IEN_TXC := by
  have hs1 := leuart_start_ok string n s hidle
  rw [Nat.mod_eq_of_lt hn] at hs1
  obtain ⟨s1, h1, c1, p1, t1, i1⟩ : ∃ s1, leuart_start string n s = .ok s1
      ∧ s1.leuart_cmd = ⟨leuart_states.DATA_TRANSMISSION, string, n, 0⟩
      ∧ s1.popped_string = s.popped_string
      ∧ s1.LEUART0.TXDATA = s.LEUART0.TXDATA
      ∧ s1.LEUART0.IEN = s.LEUART0.IEN ||| LEUART_IEN_TXBL :=
    ⟨_, hs1, rfl, rfl, rfl, rfl⟩
  have hen1 : s1.LEUART0.IEN &&& LEUART_IEN_TXBL ≠ 0 := by
    rw [i1, or_and_self_right]; decide
  have hprefix : ∀ k, k ≤ n → ∃ sk,
      leuart_run (List.replicate k LeuartIrq.TXBL) s1 = .ok sk
      ∧ sk.LEUART0.TXDATA = s.LEUART0.TXDATA ++ CharPtr.bytes s k string
      ∧ sk.leuart_cmd.current_state = leuart_states.DATA_TRANSMISSION
      ∧ sk.leuart_cmd.string_count = k
      ∧ sk.LEUART0.IEN = s1.LEUART0.IEN
      ∧ sk.leuart_cmd.string_len = n := by
    intro k hk
    have hd := leuart_txbl_drain k s1 (by rw [c1]) (by rw [c1]; simpa using hk)
      (by rw [c1]; exact hn) hen1
    refine ⟨_, hd, ?_, by simp [c1], by simp [c1], rfl, by simp [c1]⟩
    simp only [t1, c1, bytes_frame s s1 p1]
  refine ⟨s1, h1, t1, fun k hk => ?_, ?_⟩
  · obtain ⟨sk, a, b, c, d, e, _⟩ := hprefix k hk
    exact ⟨sk, a, b, c, d, e⟩
  · obtain ⟨sn, a, b, c, d, e, f⟩ := hprefix n (Nat.le_refl n)
    have hc := leuart_txbl_close sn c (by rw [d, f]; exact Nat.lt_irrefl n)
    obtain ⟨s2, h2, t2, c2, i2⟩ : ∃ s2, leuart_txbl sn = .ok s2
        ∧ s2.LEUART0.TXDATA = sn.LEUART0.TXDATA
        ∧ s2.leuart_cmd.current_state = leuart_states.CLOSE
        ∧ s2.LEUART0.IEN = (sn.LEUART0.IEN &&& not32 LEUART_IEN_TXBL) ||| LEUART_IEN_TXC :=
      ⟨_, hc, rfl, rfl, rfl⟩
    refine ⟨s2, ?_, t2.trans b, c2, ?_, ?_⟩
    · rw [List.replicate_succ', leuart_run_append _ _ _ _ a, leuart_run_one,
        leuart_irq_txbl_enabled sn (by rw [e]; exact hen1)]
      exact h2
    · rw [i2]
      exact (or_TXC_armed _).1
    · rw [i2]
      exact (or_TXC_armed _).2

theorem serial_drain_witness :
    boot.LEUART0.STATUS &&& LEUART_STATUS_TXIDLE ≠ 0 ∧ 2 < U32
    ∧ ∃ s1, leuart_start (CharPtr.const [104, 105] 0) 2 boot = .ok s1
      ∧ (∃ sk, leuart_run (List.replicate 2 LeuartIrq.TXBL) s1 = .ok sk
          ∧ sk.LEUART0.TXDATA
              = boot.LEUART0.TXDATA ++ CharPtr.bytes boot 2 (CharPtr.const [104, 105] 0)
          ∧ sk.leuart_cmd.current_state = leuart_states.DATA_TRANSMISSION)
      ∧ ∃ s2, leuart_run (List.replicate (2 + 1) LeuartIrq.TXBL) s1 = .ok s2
          ∧ s2.LEUART0.TXDATA
              = boot.LEUART0.TXDATA ++ CharPtr.bytes boot 2 (CharPtr.const [104, 105] 0)
          ∧ s2.leuart_cmd.current_state = leuart_states.CLOSE :=
  ⟨by decide, by decide,
    (serial_drain (CharPtr.const [104, 105] 0) 2 boot (by decide) (by decide)).imp
      fun _ h => ⟨h.1, (h.2.2.1 2 (Nat.le_refl 2)).imp fun _ g => ⟨g.1, g.2.1, g.2.2.1⟩,
        h.2.2.2.imp fun _ g => ⟨g.1, g.2.1, g.2.2.1⟩⟩⟩

/-! ## Event scheduler: bit by bit -/

theorem sched_run_append (cs ds : List SchedCall) :
    ∀ s : System, sched_run (cs ++ ds) s = sched_run ds (sched_run cs s) := by
  induction cs with
  | nil => intro s; rfl
  | cons c cs ih =>
    intro s
    exact ih (c.run s)

theorem last_add_snoc (b : Nat) (cs : List SchedCall) (c : SchedCall) :
    (∃ pre e post, cs ++ [c] = pre ++ SchedCall.add e :: post
        ∧ (SchedCall.add e).touches b = true ∧ ∀ d ∈ post, d.touches b = false)
    ↔ ((∃ e, c = SchedCall.add e) ∧ c.touches b = true)
      ∨ (c.touches b = false
        ∧ ∃ pre e post, cs = pre ++ SchedCall.add e :: post
          ∧ (SchedCall.add e).touches b = true ∧ ∀ d ∈ post, d.touches b = false) := by
  constructor
  · rintro ⟨pre, e, post, heq, hb, hpost⟩
    rcases List.eq_nil_or_concat post with rfl | ⟨post1, d, rfl⟩
    · have h := List.append_inj' heq (by simp)
      have hc : c = SchedCall.add e := by simpa using h.2
      left
      exact ⟨⟨e, hc⟩, hc ▸ hb⟩
    · have heq2 : cs ++ [c] = (pre ++ SchedCall.add e :: post1) ++ [d] := by
        rw [heq]
        simp
      have h := List.append_inj' heq2 (by simp)
      have hc : c = d := by simpa using h.2
      right
      refine ⟨hc ▸ hpost d (by simp), pre, e, post1, h.1, hb, fun x hx => hpost x ?_⟩
      simp [hx]
  · rintro (⟨⟨e, rfl⟩, hb⟩ | ⟨hc, pre, e, post, rfl, hb, hpost⟩)
    · exact ⟨cs, e, [], rfl, hb, fun d hd => by cases hd⟩
    · refine ⟨pre, e, post ++ [c], by simp, hb, fun d hd => ?_⟩
      rcases List.mem_append.mp hd with h | h
      · exact hpost d h
      · rw [List.mem_singleton.mp h]
        exact hc

theorem run_testBit (c : SchedCall) (s : System) (b : Nat) (hb : b < 32) :
    (c.run s).event_scheduled.testBit b
      = match c with
        | SchedCall.add _ => (s.event_scheduled.testBit b || c.touches b)
        | SchedCall.remove _ => (s.event_scheduled.testBit b && !c.touches b) := by
  cases c with
  | add e =>
    simp only [SchedCall.run, add_scheduled_event, SchedCall.touches, SchedCall.mask,
      Nat.testBit_or]
  | remove e =>
    simp only [SchedCall.run, remove_scheduled_event, SchedCall.touches, SchedCall.mask,
      Nat.testBit_and, testBit_not32, U32, Nat.testBit_mod_two_pow, hb, decide_True,
      Bool.true_and]

theorem sched_run_lt (cs : List SchedCall) :
    ∀ s : System, s.event_scheduled < U32 → (sched_run cs s).event_scheduled < U32 := by
  induction cs with
  | nil => intro s h; exact h
  | cons c cs ih =>
    intro s h
    cases c with
    | add e => exact ih _ (Nat.or_lt_two_pow h (Nat.mod_lt _ (by decide)))
    | remove e => exact ih _ (lt_of_le_of_lt Nat.and_le_left h)

/-- C36: starting from `scheduler_open`, after every sequence of `add_scheduled_event` and
`remove_scheduled_event` calls, for every bit position `b` of the 32-bit word, bit `b` of
`get_scheduled_events()` is set if and only if the sequence has an `add` whose mask contains
`b` and no later call whose mask contains `b`; no bit above the word is set; a bit removed
and then added again is pending; and `get_scheduled_events` reads the pending set of the
state it is called in. -/
theorem scheduler_bit_characterisation (cs : List SchedCall) (s : System) (b : Nat)
    (hb : b < 32) :
    ((get_scheduled_events (sched_run cs (scheduler_open s))).testBit b = true
      ↔ ∃ pre e post, cs = pre ++ SchedCall.add e :: post
          ∧ (SchedCall.add e).touches b = true ∧ ∀ d ∈ post, d.touches b = false)
    ∧ get_scheduled_events (sched_run cs (scheduler_open s)) < U32
    ∧ (∀ e, (e % U32).testBit b = true →
        (get_scheduled_events (sched_run (cs ++ [SchedCall.remove e, SchedCall.add e])
          (scheduler_open s))).testBit b = true)
    ∧ get_scheduled_events (sched_run cs (scheduler_open s))
        = (sched_run cs (scheduler_open s)).event_scheduled := by
  have main : ∀ cs : List SchedCall,
      ((sched_run cs (scheduler_open s)).event_scheduled.testBit b = true
        ↔ ∃ pre e post, cs = pre ++ SchedCall.add e :: post
            ∧ (SchedCall.add e).touches b = true ∧ ∀ d ∈ post, d.touches b = false) := by
    intro cs
    induction cs using List.reverseRecOn with
    | nil =>
      constructor
      · intro h
        simp [sched_run, scheduler_open] at h
      · rintro ⟨pre, e, post, h, _⟩
        simp at h
    | append_singleton cs c ih =>
      rw [sched_run_append, last_add_snoc, ← ih]
      show (c.run _).event_scheduled.testBit b = true ↔ _
      rw [run_testBit c _ b hb]
      cases c with
      | add e =>
        cases hx : (sched_run cs (scheduler_open s)).event_scheduled.testBit b <;>
          cases hc : (SchedCall.add e).touches b <;> simp
      | remove e =>
        cases hx : (sched_run cs (scheduler_open s)).event_scheduled.testBit b <;>
          cases hc : (SchedCall.remove e).touches b <;> simp
  refine ⟨main cs, sched_run_lt cs _ (show 0 < U32 by decide), ?_, rfl⟩
  intro e he
  exact (main _).mpr ⟨cs ++ [SchedCall.remove e], e, [], by simp, he, fun d hd => by cases hd⟩

theorem scheduler_bit_characterisation_witness :
    2 < 32
    ∧ (get_scheduled_events (sched_run
          [SchedCall.add LETIMER0_UF_CB, SchedCall.remove LETIMER0_UF_CB,
           SchedCall.add LETIMER0_UF_CB] (scheduler_open boot))).testBit 2 = true
    ∧ ((get_scheduled_events (sched_run
          [SchedCall.add LETIMER0_UF_CB, SchedCall.remove LETIMER0_UF_CB]
          (scheduler_open boot))).testBit 2 = true
        ↔ ∃ pre e post,
            [SchedCall.add LETIMER0_UF_CB, SchedCall.remove LETIMER0_UF_CB]
              = pre ++ SchedCall.add e :: post
            ∧ (SchedCall.add e).touches 2 = true ∧ ∀ d ∈ post, d.touches 2 = false) :=
  ⟨by decide,
    (scheduler_bit_characterisation [SchedCall.add LETIMER0_UF_CB] boot 2
      (by decide)).2.2.1 LETIMER0_UF_CB (by decide),
    (scheduler_bit_characterisation
      [SchedCall.add LETIMER0_UF_CB, SchedCall.remove LETIMER0_UF_CB] boot 2 (by decide)).1⟩

/-! ## Bus engine: the bytes of the receive cell that a read replaces -/

theorem low_two_bytes_replaced (old b1 b0 : Nat) (hold : old < U32) (h1 : b1 < 256)
    (h0 : b0 < 256) :
    (((((old &&& not32 (0xff <<< 8)) % U32 ||| (b1 <<< 8) % U32) % U32)
        &&& not32 (0xff <<< 0)) % U32 ||| (b0 <<< 0) % U32) % U32
      = old / 65536 * 65536 + b1 * 256 + b0 := by
  have e : old / 65536 * 65536 + b1 * 256 + b0 = (2 ^ 16 * (old >>> 16) ||| 2 ^ 8 * b1) ||| b0 := by
    have hb : 2 ^ 8 * b1 + b0 < 2 ^ 16 := by omega
    have e1 : 2 ^ 8 * b1 ||| b0 = 2 ^ 8 * b1 + b0 :=
      (Nat.mul_add_lt_is_or (by simpa using h0) b1).symm
    rw [Nat.or_assoc, e1, ← Nat.mul_add_lt_is_or hb, Nat.shiftRight_eq_div_pow]
    ring
  rw [e]
  apply Nat.eq_of_testBit_eq
  intro i
  simp only [U32, Nat.testBit_mod_two_pow, Nat.testBit_and, Nat.testBit_or, testBit_not32,
    Nat.testBit_shiftLeft, testBit_0xff, Nat.testBit_mul_pow_two, Nat.testBit_shiftRight]
  by_cases hi : 8 ≤ i
  · have hb0 := testBit_byte_high b0 i h0 hi
    by_cases hj : 16 ≤ i
    · have hb1 := testBit_byte_high b1 (i - 8) h1 (by omega)
      have hsub : 16 + (i - 16) = i := by omega
      by_cases hk : i < 32
      · have d1 : ¬ i - 8 < 8 := by omega
        have d2 : ¬ i < 8 := by omega
        simp [hb0, hb1, hi, hj, hk, hsub, d1, d2]
      · have ho : old.testBit i = false := by
          apply Nat.testBit_lt_two_pow
          exact lt_of_lt_of_le hold (Nat.pow_le_pow_right (show 0 < 2 by decide) (by omega))
        simp [hb0, hb1, hi, hj, hk, hsub, ho]
    · have : i < 32 := by omega
      have d1 : i - 8 < 8 := by omega
      have d2 : ¬ i < 8 := by omega
      simp [hb0, hi, hj, this, d1, d2]
  · have : i < 32 := by omega
    have hj : ¬ 16 ≤ i := by omega
    simp [hi, hj, this]

theorem one_byte_read_cell (s : System) (p : I2C_Periph)
    (device_address register_address E b : Nat)
    (hidle : (s.i2c_regs p).STATE &&& I2C_STATE_STATE_MASK = I2C_STATE_STATE_IDLE)
    (hcell : s.si7021_i2c_rx_data < U32) (hb : b < 256) :
    ∃ s1, (i2c_start p device_address register_address true
            Cell.si7021_i2c_rx_data Cell.si7021_i2c_tx_data ONE_BYTE E s
          >>= i2c_run [I2cIrq.ACK, I2cIrq.ACK, I2cIrq.ACK, I2cIrq.RXDATAV b, I2cIrq.MSTOP])
          = .ok s1
      ∧ i2c_busy s1 = false
      ∧ s1.si7021_i2c_rx_data = s.si7021_i2c_rx_data / 256 * 256 + b := by
  have n0 : ¬ (ONE_BYTE % U32 + U32 - 1) % U32 > 0 := by decide
  have k0 : SHIFT * ((ONE_BYTE % U32 + U32 - 1) % U32) % U32 = 0 := by decide
  have hval := low_byte_replaced s.si7021_i2c_rx_data b hcell hb
  rw [i2c_start_ok _ _ _ _ _ _ _ _ _ hidle]
  cases p
  all_goals simp only [i2c_write_TXDATA, i2c_write_CMD, System.set_i2c_regs,
    System.i2c_regs]
  all_goals rw [ok_bind, i2c_run_cons, I2cIrq.run, i2c_ack_SEND_DEVICE_ADDR _ (by rfl)]
  all_goals simp only [i2c_write_TXDATA, i2c_write_CMD, set_i2c_state, System.set_i2c_regs,
    System.i2c_regs]
  all_goals rw [ok_bind, i2c_run_cons, I2cIrq.run,
    i2c_ack_SEND_REGISTER_ADDR_read _ (by rfl) (by rfl)]
  all_goals simp only [i2c_write_TXDATA, i2c_write_CMD, set_i2c_state, System.set_i2c_regs,
    System.i2c_regs]
  all_goals rw [ok_bind, i2c_run_cons, I2cIrq.run, i2c_ack_WAIT_CONVERSION _ (by rfl)]
  all_goals simp only [i2c_write_TXDATA, i2c_write_CMD, set_i2c_state, System.set_i2c_regs,
    System.i2c_regs]
  all_goals rw [ok_bind, i2c_run_cons, I2cIrq.run]
  all_goals simp only [i2c_write_TXDATA, i2c_write_CMD, set_i2c_state, System.set_i2c_regs,
    System.i2c_regs]
  all_goals rw [i2c_rxdatav_last _ (by rfl) (by exact n0)]
  all_goals simp only [i2c_write_TXDATA, i2c_write_CMD, set_i2c_state, System.set_i2c_regs,
    System.i2c_regs, i2c_receive_byte, System.load, System.store]
  all_goals rw [ok_bind, i2c_run_cons, I2cIrq.run, i2c_mstop_SEND_STOP_CMD _ (by rfl)]
  all_goals simp only [add_scheduled_event]
  all_goals rw [ok_bind]
  all_goals refine ⟨_, rfl, rfl, ?_⟩
  all_goals simp only [k0, hval]

theorem two_byte_read_cell (s : System) (p : I2C_Periph)
    (device_address register_address E b1 b0 : Nat)
    (hidle : (s.i2c_regs p).STATE &&& I2C_STATE_STATE_MASK = I2C_STATE_STATE_IDLE)
    (hcell : s.si7021_i2c_rx_data < U32) (h1 : b1 < 256) (h0 : b0 < 256) :
    ∃ s1, (i2c_start p device_address register_address true
            Cell.si7021_i2c_rx_data Cell.si7021_i2c_tx_data TWO_BYTES E s
          >>= i2c_run [I2cIrq.ACK, I2cIrq.ACK, I2cIrq.ACK, I2cIrq.RXDATAV b1,
                I2cIrq.RXDATAV b0, I2cIrq.MSTOP]) = .ok s1
      ∧ i2c_busy s1 = false
      ∧ s1.si7021_i2c_rx_data = s.si7021_i2c_rx_data / 65536 * 65536 + b1 * 256 + b0 := by
  have n1 : (TWO_BYTES % U32 + U32 - 1) % U32 > 0 := by decide
  have n0 : ¬ ((TWO_BYTES % U32 + U32 - 1) % U32 + U32 - 1) % U32 > 0 := by decide
  have k1 : SHIFT * ((TWO_BYTES % U32 + U32 - 1) % U32) % U32 = 8 := by decide
  have k0 : SHIFT * (((TWO_BYTES % U32 + U32 - 1) % U32 + U32 - 1) % U32) % U32 = 0 := by
    decide
  have hval := low_two_bytes_replaced s.si7021_i2c_rx_data b1 b0 hcell h1 h0
  rw [i2c_start_ok _ _ _ _ _ _ _ _ _ hidle]
  cases p
  all_goals simp only [i2c_write_TXDATA, i2c_write_CMD, System.set_i2c_regs,
    System.i2c_regs]
  all_goals rw [ok_bind, i2c_run_cons, I2cIrq.run, i2c_ack_SEND_DEVICE_ADDR _ (by rfl)]
  all_goals simp only [i2c_write_TXDATA, i2c_write_CMD, set_i2c_state, System.set_i2c_regs,
    System.i2c_regs]
  all_goals rw [ok_bind, i2c_run_cons, I2cIrq.run,
    i2c_ack_SEND_REGISTER_ADDR_read _ (by rfl) (by rfl)]
  all_goals simp only [i2c_write_TXDATA, i2c_write_CMD, set_i2c_state, System.set_i2c_regs,
    System.i2c_regs]
  all_goals rw [ok_bind, i2c_run_cons, I2cIrq.run, i2c_ack_WAIT_CONVERSION _ (by rfl)]
  all_goals simp only [i2c_write_TXDATA, i2c_write_CMD, set_i2c_state, System.set_i2c_regs,
    System.i2c_regs]
  all_goals rw [ok_bind, i2c_run_cons, I2cIrq.run]
  all_goals simp only [i2c_write_TXDATA, i2c_write_CMD, set_i2c_state, System.set_i2c_regs,
    System.i2c_regs]
  all_goals rw [i2c_rxdatav_more _ (by rfl) (by exact n1)]
  all_goals simp only [i2c_write_TXDATA, i2c_write_CMD, set_i2c_state, System.set_i2c_regs,
    System.i2c_regs, i2c_receive_byte, System.load, System.store]
  all_goals rw [ok_bind, i2c_run_cons, I2cIrq.run]
  all_goals simp only [i2c_write_TXDATA, i2c_write_CMD, set_i2c_state, System.set_i2c_regs,
    System.i2c_regs]
  all_goals rw [i2c_rxdatav_last _ (by rfl) (by exact n0)]
  all_goals simp only [i2c_write_TXDATA, i2c_write_CMD, set_i2c_state, System.set_i2c_regs,
    System.i2c_regs, i2c_receive_byte, System.load, System.store]
  all_goals rw [ok_bind, i2c_run_cons, I2cIrq.run, i2c_mstop_SEND_STOP_CMD _ (by rfl)]
  all_goals simp only [add_scheduled_event]
  all_goals rw [ok_bind]
  all_goals refine ⟨_, rfl, rfl, ?_⟩
  all_goals simp only [k1, k0, hval]

/-- C37: a completed read of one byte leaves the receive cell with its low byte equal to
the byte received and everything above it as before; a completed read of two bytes leaves
the cell with its two low bytes equal to the bytes received, the first received in the
higher position, and everything above them as before. -/
theorem read_replaces_low_bytes (s : System) (p : I2C_Periph)
    (device_address register_address E b1 b0 : Nat)
    (hidle : (s.i2c_regs p).STATE &&& I2C_STATE_STATE_MASK = I2C_STATE_STATE_IDLE)
    (hcell : s.si7021_i2c_rx_data < U32) (h1 : b1 < 256) (h0 : b0 < 256) :
    (∃ s1, (i2c_start p device_address register_address true
            Cell.si7021_i2c_rx_data Cell.si7021_i2c_tx_data ONE_BYTE E s
          >>= i2c_run [I2cIrq.ACK, I2cIrq.ACK, I2cIrq.ACK, I2cIrq.RXDATAV b0, I2cIrq.MSTOP])
          = .ok s1
      ∧ i2c_busy s1 = false
      ∧ s1.si7021_i2c_rx_data % 256 = b0
      ∧ s1.si7021_i2c_rx_data / 256 = s.si7021_i2c_rx_data / 256)
    ∧ ∃ s2, (i2c_start p device_address register_address true
            Cell.si7021_i2c_rx_data Cell.si7021_i2c_tx_data TWO_BYTES E s
          >>= i2c_run [I2cIrq.ACK, I2cIrq.ACK, I2cIrq.ACK, I2cIrq.RXDATAV b1,
                I2cIrq.RXDATAV b0, I2cIrq.MSTOP]) = .ok s2
      ∧ i2c_busy s2 = false
      ∧ s2.si7021_i2c_rx_data % 65536 = b1 * 256 + b0
      ∧ s2.si7021_i2c_rx_data % 65536 / 256 = b1
      ∧ s2.si7021_i2c_rx_data % 256 = b0
      ∧ s2.si7021_i2c_rx_data / 65536 = s.si7021_i2c_rx_data / 65536 := by
  obtain ⟨s1, r1, i1, c1⟩ :=
    one_byte_read_cell s p device_address register_address E b0 hidle hcell h0
  obtain ⟨s2, r2, i2, c2⟩ :=
    two_byte_read_cell s p device_address register_address E b1 b0 hidle hcell h1 h0
  refine ⟨⟨s1, r1, i1, ?_, ?_⟩, s2, r2, i2, ?_, ?_, ?_, ?_⟩
  all_goals omega

theorem read_replaces_low_bytes_witness :
    (({ boot with si7021_i2c_rx_data := 0xA1B2C3D4 } : System).i2c_regs I2C_Periph.I2C0).STATE
        &&& I2C_STATE_STATE_MASK = I2C_STATE_STATE_IDLE
    ∧ ({ boot with si7021_i2c_rx_data := 0xA1B2C3D4 } : System).si7021_i2c_rx_data < U32
    ∧ 0x60 < 256 ∧ 0x54 < 256
    ∧ (∃ s1, (i2c_start I2C_Periph.I2C0 SI7021_DEVICE_ADDRESS SI7021_UR1_READ_CMD true
            Cell.si7021_i2c_rx_data Cell.si7021_i2c_tx_data ONE_BYTE 0
            { boot with si7021_i2c_rx_data := 0xA1B2C3D4 }
          >>= i2c_run [I2cIrq.ACK, I2cIrq.ACK, I2cIrq.ACK, I2cIrq.RXDATAV 0x54, I2cIrq.MSTOP])
          = .ok s1
      ∧ i2c_busy s1 = false
      ∧ s1.si7021_i2c_rx_data % 256 = 0x54
      ∧ s1.si7021_i2c_rx_data / 256 = 0xA1B2C3)
    ∧ ∃ s2, (i2c_start I2C_Periph.I2C0 SI7021_DEVICE_ADDRESS SI7021_UR1_READ_CMD true
            Cell.si7021_i2c_rx_data Cell.si7021_i2c_tx_data TWO_BYTES 0
            { boot with si7021_i2c_rx_data := 0xA1B2C3D4 }
          >>= i2c_run [I2cIrq.ACK, I2cIrq.ACK, I2cIrq.ACK, I2cIrq.RXDATAV 0x60,
                I2cIrq.RXDATAV 0x54, I2cIrq.MSTOP]) = .ok s2
      ∧ i2c_busy s2 = false
      ∧ s2.si7021_i2c_rx_data % 65536 = 0x60 * 256 + 0x54
      ∧ s2.si7021_i2c_rx_data / 65536 = 0xA1B2 :=
  ⟨by decide, by decide, by decide, by decide,
    (read_replaces_low_bytes { boot with si7021_i2c_rx_data := 0xA1B2C3D4 } I2C_Periph.I2C0
      SI7021_DEVICE_ADDRESS SI7021_UR1_READ_CMD 0 0x60 0x54 (by decide) (by decide) (by decide)
      (by decide)).1,
    (read_replaces_low_bytes { boot with si7021_i2c_rx_data := 0xA1B2C3D4 } I2C_Periph.I2C0
      SI7021_DEVICE_ADDRESS SI7021_UR1_READ_CMD 0 0x60 0x54 (by decide) (by decide) (by decide)
      (by decide)).2.imp fun _ h => ⟨h.1, h.2.1, h.2.2.1, h.2.2.2.2.2⟩⟩

/-! ## Transmit ring buffer: the cursors -/

theorem masked_lt (x : Nat) : x &&& (CSIZE - 1) < CSIZE := by
  rw [mask_eq_mod]
  exact Nat.mod_lt _ (by decide)

theorem space_range (s : System) (hm : s.ble_cbuf.size_mask = CSIZE - 1) :
    1 ≤ ble_circ_space s ∧ ble_circ_space s ≤ CSIZE := by
  unfold ble_circ_space
  rw [hm]
  have h := masked_lt ((s.ble_cbuf.write_ptr + U32 - s.ble_cbuf.read_ptr) % U32)
  unfold CSIZE U32 U8 at *
  omega

theorem push_loop_cursors (string : List Nat) :
    ∀ (n i : Nat) (b : BLE_CIRCULAR_BUF),
      (push_loop string i n b).size_mask = b.size_mask
      ∧ (push_loop string i n b).read_ptr = b.read_ptr
      ∧ (b.size_mask = CSIZE - 1 → b.write_ptr < CSIZE
          → (push_loop string i n b).write_ptr < CSIZE) := by
  intro n
  induction n with
  | zero =>
    intro i b
    exact ⟨rfl, rfl, fun _ h => h⟩
  | succ n ih =>
    intro i b
    obtain ⟨h1, h2, h3⟩ := ih (i + 1)
      (update_circ_wrtindex { b with cbuf := b.cbuf.set b.write_ptr (string.getD i 0 % U8) } 1)
    refine ⟨h1, h2, fun hm _ => h3 hm ?_⟩
    show ((b.write_ptr + 1) % U32) &&& b.size_mask < CSIZE
    rw [hm]
    exact masked_lt _

theorem push_cursors (string : List Nat) (s s1 : System) (h : ble_circ_push string s = .ok s1)
    (hok : cursors_ok s) : cursors_ok s1 := by
  obtain ⟨hm, hr, hw⟩ := hok
  unfold ble_circ_push at h
  obtain ⟨_, h⟩ := assert_bind_ok _ _ _ _ h
  dsimp only at h
  split at h
  · cases h
    obtain ⟨h1, h2, h3⟩ := push_loop_cursors string (strlen string % U8) 0
      (update_circ_wrtindex
        { s.ble_cbuf with
          cbuf := s.ble_cbuf.cbuf.set s.ble_cbuf.write_ptr ((strlen string % U8 + 1) % U8) } 1)
    refine ⟨h1.trans hm, lt_of_eq_of_lt h2 hr, h3 hm ?_⟩
    show ((s.ble_cbuf.write_ptr + 1) % U32) &&& s.ble_cbuf.size_mask < CSIZE
    rw [hm]
    exact masked_lt _
  · obtain ⟨hc, _⟩ := assert_bind_ok _ _ _ _ h
    cases hc

theorem pop_loop_cursors :
    ∀ (n i : Nat) (s s1 : System), pop_loop i n s = .ok s1 →
      s1.ble_cbuf.size_mask = s.ble_cbuf.size_mask
      ∧ s1.ble_cbuf.write_ptr = s.ble_cbuf.write_ptr
      ∧ (s.ble_cbuf.size_mask = CSIZE - 1 → s.ble_cbuf.read_ptr < CSIZE
          → s1.ble_cbuf.read_ptr < CSIZE) := by
  intro n
  induction n with
  | zero =>
    intro i s s1 h
    cases h
    exact ⟨rfl, rfl, fun _ h => h⟩
  | succ n ih =>
    intro i s s1 h
    rw [pop_loop] at h
    split at h
    · obtain ⟨h1, h2, h3⟩ := ih _ _ _ h
      refine ⟨h1, h2, fun hm _ => h3 hm ?_⟩
      show ((s.ble_cbuf.read_ptr + 1) % U32) &&& s.ble_cbuf.size_mask < CSIZE
      rw [hm]
      exact masked_lt _
    · cases h

theorem leuart_start_ble_cbuf (string : CharPtr) (string_len : Nat) (s s1 : System)
    (h : leuart_start string string_len s = .ok s1) : s1.ble_cbuf = s.ble_cbuf := by
  by_cases hidle : s.LEUART0.STATUS &&& LEUART_STATUS_TXIDLE ≠ 0
  · rw [leuart_start_ok _ _ _ hidle] at h
    cases h
    rfl
  · simp only [leuart_start, not_not.mp hidle, if_true] at h
    cases h

theorem pop_cursors (test : Bool) (s : System) (r : Bool × System)
    (h : ble_circ_pop test s = .ok r) (hok : cursors_ok s) : cursors_ok r.2 := by
  obtain ⟨hm, hr, hw⟩ := hok
  have hstep : ((s.ble_cbuf.read_ptr + 1) % U32) &&& s.ble_cbuf.size_mask < CSIZE := by
    rw [hm]
    exact masked_lt _
  rcases pop_cases test s r h with ⟨_, e⟩ | ⟨_, e⟩ | ⟨_, s2, s4, L, h2, _, e, h4 | h4⟩
  · rw [e]
    exact ⟨hm, hr, hw⟩
  · rw [e]
    exact ⟨hm, hr, hw⟩
  · obtain ⟨h1, h2, h3⟩ := pop_loop_cursors _ _ _ _ h2
    have e4 : s4.ble_cbuf = s2.ble_cbuf := by
      have e := congrArg System.ble_cbuf (copy_loop_frame _ _ _ _ h4)
      exact e
    rw [e]
    unfold cursors_ok
    rw [e4]
    exact ⟨h1.trans hm, h3 hm hstep, lt_of_eq_of_lt h2 hw⟩
  · obtain ⟨h1, h2, h3⟩ := pop_loop_cursors _ _ _ _ h2
    have e4 : s4.ble_cbuf = s2.ble_cbuf := by
      have e := leuart_start_ble_cbuf _ _ _ _ h4
      exact e
    rw [e]
    unfold cursors_ok
    rw [e4]
    exact ⟨h1.trans hm, h3 hm hstep, lt_of_eq_of_lt h2 hw⟩

theorem ring_run_cursors (cs : List RingCall) :
    ∀ (s s1 : System), cursors_ok s → ring_run cs s = .ok s1 → cursors_ok s1 := by
  induction cs with
  | nil =>
    intro s s1 hok h
    cases h
    exact hok
  | cons c cs ih =>
    intro s s1 hok h
    obtain ⟨s2, h2, h⟩ := bind_ok _ _ _ h
    refine ih s2 s1 ?_ h
    cases c with
    | push string => exact push_cursors string s s2 h2 hok
    | pop test =>
      obtain ⟨r, hr, h3⟩ := bind_ok _ _ _ h2
      cases h3
      exact pop_cursors test s r hr hok

/-- The cursor invariant on the runs that return: after `ble_circ_init` and any sequence of
`ble_circ_push` and `ble_circ_pop` calls (pops in either mode) that hits no assertion and
makes no store outside an array, the read and write cursors are below `CSIZE`,
`ble_circ_space()` is at least 1 and at most `CSIZE`, and the opening assertion of
`ble_circ_push`, `ble_circ_space() != 0`, holds. -/
theorem cursor_invariant (cs : List RingCall) (s0 s : System)
    (h : ring_run cs (ble_circ_init s0) = .ok s) :
    s.ble_cbuf.read_ptr < CSIZE ∧ s.ble_cbuf.write_ptr < CSIZE
    ∧ 1 ≤ ble_circ_space s ∧ ble_circ_space s ≤ CSIZE
    ∧ EFM_ASSERT (decide (ble_circ_space s ≠ 0)) s = .ok () := by
  have hok : cursors_ok s :=
    ring_run_cursors cs _ s ⟨rfl, show 0 < CSIZE by decide, show 0 < CSIZE by decide⟩ h
  have hsp := space_range s hok.1
  refine ⟨hok.2.1, hok.2.2, hsp.1, hsp.2, ?_⟩
  have hne : ble_circ_space s ≠ 0 := by omega
  simp only [EFM_ASSERT, hne, ne_eq, not_false_eq_true, decide_True, if_true]

set_option maxRecDepth 100000 in
theorem cursor_invariant_witness :
    ring_run [RingCall.push (List.replicate 63 65), RingCall.pop true, RingCall.push [104, 105]]
        (ble_circ_init boot) = .ok ring_demo
      ∧ ring_demo.ble_cbuf.read_ptr < CSIZE ∧ ring_demo.ble_cbuf.write_ptr < CSIZE
      ∧ 1 ≤ ble_circ_space ring_demo ∧ ble_circ_space ring_demo ≤ CSIZE
      ∧ EFM_ASSERT (decide (ble_circ_space ring_demo ≠ 0)) ring_demo = .ok () :=
  ⟨rfl, cursor_invariant [RingCall.push (List.replicate 63 65), RingCall.pop true,
    RingCall.push [104, 105]] boot ring_demo rfl⟩

set_option maxRecDepth 100000 in
/-- C38: evaluation at a pop that follows a push of 255 bytes.  After `ble_circ_init`, the
push of "hi" and the push of 255 bytes 0xFF hit no assertion (the packet size of the second
wraps to 0 in its `uint8_t`, as in C3) and leave both cursors below `CSIZE`; the array is
overwritten, and the byte at the read cursor, which the pop takes for the length of the
head message, is 0xFF.  The pop, in test mode or not, hits no assertion either: it stores
past the end of `popped_string`, and the run has no state to go on from, whatever the
cursors then are. -/
theorem pop_after_long_push_leaves_array :
    ∃ s1 s2, ble_circ_push [104, 105] (ble_circ_init boot) = .ok s1
      ∧ ble_circ_push (List.replicate 255 255) s1 = .ok s2
      ∧ s2.ble_cbuf.read_ptr < CSIZE ∧ s2.ble_cbuf.write_ptr < CSIZE
      ∧ s2.ble_cbuf.read_ptr ≠ s2.ble_cbuf.write_ptr
      ∧ leuart_tx_busy s2 = false
      ∧ s2.ble_cbuf.cbuf.getD s2.ble_cbuf.read_ptr 0 = 255
      ∧ CSIZE ≤ (s2.ble_cbuf.cbuf.getD s2.ble_cbuf.read_ptr 0 + U8 - 1) % U8
      ∧ (∃ e, ble_circ_pop true s2 = .error (Fault.out_of_bounds, e))
      ∧ (∃ e, ble_circ_pop false s2 = .error (Fault.out_of_bounds, e))
      ∧ ∃ e, ring_run [RingCall.push [104, 105], RingCall.push (List.replicate 255 255),
          RingCall.pop true] (ble_circ_init boot) = .error (Fault.out_of_bounds, e) :=
  ⟨_, _, rfl, rfl, by decide, by decide, by decide, rfl, rfl, by decide, ⟨_, rfl⟩, ⟨_, rfl⟩,
    ⟨_, rfl⟩⟩

/-! ## Energy Mode lab: the cycle of the blocked level -/

theorem sleep_open_table (s : System) (h : s.lowest_energy_mode.length = MAX_ENERGY_MODES) :
    (sleep_open s).lowest_energy_mode = List.replicate MAX_ENERGY_MODES 0 := by
  obtain ⟨a, b, c, d, e, ht⟩ : ∃ a b c d e, s.lowest_energy_mode = [a, b, c, d, e] := by
    match hl : s.lowest_energy_mode, h with
    | [a, b, c, d, e], _ => exact ⟨a, b, c, d, e, rfl⟩
  simp only [sleep_open, ht]
  rfl

theorem uf_event_pending (s : System) :
    decide (get_scheduled_events (add_scheduled_event LETIMER0_UF_CB s) &&& LETIMER0_UF_CB ≠ 0)
      = true := by
  have h : (s.event_scheduled ||| LETIMER0_UF_CB % U32) &&& LETIMER0_UF_CB = LETIMER0_UF_CB :=
    or_and_self_right _ _
  simp only [get_scheduled_events, add_scheduled_event, h]
  decide

/-- One invocation from a table with level `j` alone blocked, or with no level blocked
(`j = 4` stands for both, as for `current_block_energy_mode`). -/
theorem uf_cb_step (s : System) (j : Nat) (hj : j < MAX_ENERGY_MODES)
    (ht : s.lowest_energy_mode = (List.replicate MAX_ENERGY_MODES 0).set j 1
      ∨ (j = 4 ∧ s.lowest_energy_mode = List.replicate MAX_ENERGY_MODES 0)) :
    ∃ s1, Energy_Mode_Lab.scheduled_letimer0_uf_cb (add_scheduled_event LETIMER0_UF_CB s)
        = .ok s1
      ∧ s1.lowest_energy_mode = (List.replicate MAX_ENERGY_MODES 0).set ((j + 1) % 5) 1 := by
  unfold Energy_Mode_Lab.scheduled_letimer0_uf_cb
  rw [uf_event_pending]
  unfold MAX_ENERGY_MODES at hj
  rcases ht with ht | ⟨rfl, ht⟩
  · interval_cases j <;>
      simp only [EFM_ASSERT, if_true, ok_bind, remove_scheduled_event, add_scheduled_event,
        current_block_energy_mode, current_block_energy_mode_loop, ht, MAX_ENERGY_MODES,
        sleep_unblock_mode_ok, sleep_block_mode_ok] <;>
      exact ⟨_, rfl, rfl⟩
  · simp only [EFM_ASSERT, if_true, ok_bind, remove_scheduled_event, add_scheduled_event,
      current_block_energy_mode, current_block_energy_mode_loop, ht, MAX_ENERGY_MODES,
      sleep_unblock_mode_ok, sleep_block_mode_ok]
    exact ⟨_, rfl, rfl⟩

theorem uf_invocations_cycle (k : Nat) :
    ∀ (s : System) (j : Nat), j < MAX_ENERGY_MODES →
      (s.lowest_energy_mode = (List.replicate MAX_ENERGY_MODES 0).set j 1
        ∨ (j = 4 ∧ s.lowest_energy_mode = List.replicate MAX_ENERGY_MODES 0)) →
      ∃ s1, Energy_Mode_Lab.uf_invocations (k + 1) s = .ok s1
        ∧ s1.lowest_energy_mode
            = (List.replicate MAX_ENERGY_MODES 0).set ((j + k + 1) % 5) 1 := by
  induction k with
  | zero =>
    intro s j hj ht
    obtain ⟨s1, h1, t1⟩ := uf_cb_step s j hj ht
    refine ⟨s1, ?_, t1⟩
    show (Energy_Mode_Lab.scheduled_letimer0_uf_cb _ >>= Energy_Mode_Lab.uf_invocations 0) = _
    rw [h1]
    rfl
  | succ k ih =>
    intro s j hj ht
    obtain ⟨s1, h1, t1⟩ := uf_cb_step s j hj ht
    obtain ⟨s2, h2, t2⟩ := ih s1 ((j + 1) % 5) (Nat.mod_lt _ (by decide)) (Or.inl t1)
    refine ⟨s2, ?_, ?_⟩
    · show (Energy_Mode_Lab.scheduled_letimer0_uf_cb _
          >>= Energy_Mode_Lab.uf_invocations (k + 1)) = _
      rw [h1]
      exact h2
    · rw [t2]
      congr 1
      omega

theorem one_blocked (m j : Nat) (hm : m < 5) (hj : j < 5) :
    ((List.replicate MAX_ENERGY_MODES (0 : Int)).set m 1).getD j 0 ≠ 0 ↔ j = m := by
  interval_cases m <;> interval_cases j <;> decide

/-- C39: starting from `sleep_open`, where no level is blocked, the invocations of the
Energy Mode lab's `scheduled_letimer0_uf_cb`, each with its event pending, all return; after
the invocation number `k + 1` the level `k mod 5` is blocked and no other level is: the
blocked level is EM0 after the first invocation, advances by one with each invocation and
wraps from EM4 to EM0. -/
theorem energy_mode_cycle (k : Nat) (s0 : System)
    (h : s0.lowest_energy_mode.length = MAX_ENERGY_MODES) :
    (∀ j, j < MAX_ENERGY_MODES → ¬ blocked (sleep_open s0) j)
    ∧ ∃ s, Energy_Mode_Lab.uf_invocations (k + 1) (sleep_open s0) = .ok s
      ∧ (∀ j, j < MAX_ENERGY_MODES → (blocked s j ↔ j = k % 5))
      ∧ current_block_energy_mode s = k % 5
      ∧ ∃ s1, Energy_Mode_Lab.uf_invocations (k + 2) (sleep_open s0) = .ok s1
        ∧ ∀ j, j < MAX_ENERGY_MODES → (blocked s1 j ↔ j = (k % 5 + 1) % 5) := by
  constructor
  · intro j hj hb
    exact hb (sleep_open_entry s0 j hj)
  · obtain ⟨s, hs, ts⟩ := uf_invocations_cycle k (sleep_open s0) 4 (by decide)
      (Or.inr ⟨rfl, sleep_open_table s0 h⟩)
    obtain ⟨s1, hs1, ts1⟩ := uf_invocations_cycle (k + 1) (sleep_open s0) 4 (by decide)
      (Or.inr ⟨rfl, sleep_open_table s0 h⟩)
    have e : (4 + k + 1) % 5 = k % 5 := by omega
    have e1 : (4 + (k + 1) + 1) % 5 = (k % 5 + 1) % 5 := by omega
    rw [e] at ts
    rw [e1] at ts1
    have hm : k % 5 < 5 := Nat.mod_lt _ (by decide)
    refine ⟨s, hs, ?_, ?_, s1, hs1, ?_⟩
    · intro j hj
      unfold blocked
      rw [ts]
      exact one_blocked _ j hm hj
    · rw [current_block_energy_mode_eq, ts]
      generalize k % 5 = m at hm
      interval_cases m <;> rfl
    · intro j hj
      unfold blocked
      rw [ts1]
      exact one_blocked _ j (Nat.mod_lt _ (by decide)) hj

theorem energy_mode_cycle_witness :
    boot.lowest_energy_mode.length = MAX_ENERGY_MODES
    ∧ ∃ s, Energy_Mode_Lab.uf_invocations (5 + 1) (sleep_open boot) = .ok s
      ∧ (∀ j, j < MAX_ENERGY_MODES → (blocked s j ↔ j = 5 % 5))
      ∧ current_block_energy_mode s = 5 % 5 :=
  ⟨rfl, (energy_mode_cycle 5 boot rfl).2.imp fun _ h => ⟨h.1, h.2.1, h.2.2.1⟩⟩

end Firmware
